import Mathlib

set_option maxRecDepth 4000

/-!
# Verification of the `.6cy` archive engine

A shallow embedding of the `.6cy` container engine (superblock, block
format, streaming writer/reader, recovery scanner) over byte streams
modelled as `List Nat`, together with proofs settling the frozen claims
about the implementation.

External collaborators (the concrete compression libraries, BLAKE3, the
AES-GCM primitives and the serde_json serializer) are not part of the
repository's sources; they enter the model as parameters (`Params`) or as
definitions modelled from the specification, as documented at each site.
All structural logic (field layouts, CRC32, control flow of the writer,
reader and scanner) is translated directly from the Rust sources.
-/

/-- Little-endian encoding of `n` into exactly `k` bytes (the value is
implicitly reduced mod `2 ^ (8 * k)`, mirroring Rust's `as` casts combined
with `to_le_bytes`). -/
def leBytes : Nat → Nat → List Nat
  | 0, _ => []
  | k + 1, n => (n % 256) :: leBytes k (n / 256)

/-- Little-endian decoding of a byte list (`from_le_bytes`). -/
def leDecode : List Nat → Nat
  | [] => 0
  | b :: rest => b + 256 * leDecode rest

theorem leBytes_length (k n : Nat) : (leBytes k n).length = k := by
  induction k generalizing n with
  | zero => rfl
  | succ k ih => simp [leBytes, ih]

theorem leDecode_leBytes (k n : Nat) : leDecode (leBytes k n) = n % 2 ^ (8 * k) := by
  induction k generalizing n with
  | zero => simp [leBytes, leDecode, Nat.mod_one]
  | succ k ih =>
      simp only [leBytes, leDecode, ih]
      have h256 : (256 : Nat) = 2 ^ 8 := by norm_num
      have hpow : 2 ^ (8 * (k + 1)) = 2 ^ 8 * 2 ^ (8 * k) := by
        rw [← pow_add]; ring_nf
      rw [hpow, ← h256, Nat.mod_mul]

theorem leDecode_leBytes_of_lt {k n : Nat} (h : n < 2 ^ (8 * k)) :
    leDecode (leBytes k n) = n := by
  rw [leDecode_leBytes, Nat.mod_eq_of_lt h]

/-- Split a byte list: the first `k` bytes and the rest (models reading `k`
contiguous bytes from a buffer at the current offset). -/
def readN (k : Nat) (l : List Nat) : List Nat × List Nat :=
  (l.take k, l.drop k)

theorem readN_append {k : Nat} {a : List Nat} (r : List Nat) (h : a.length = k) :
    readN k (a ++ r) = (a, r) := by
  subst h
  simp [readN, List.take_left, List.drop_left]

/-- One byte step of CRC-32 (IEEE, reflected, polynomial `0xEDB88320`):
XOR the byte into the low bits, then eight shift/conditional-XOR rounds.
This is the function computed by the `crc32fast::Hasher` used by the
sources. -/
def crc32Byte (crc b : Nat) : Nat :=
  let step : Nat → Nat := fun c =>
    if c % 2 = 1 then (c / 2) ^^^ 0xEDB88320 else c / 2
  step (step (step (step (step (step (step (step (crc ^^^ b % 256))))))))

/-- CRC-32 of a byte list: initial value `0xFFFFFFFF`, final XOR
`0xFFFFFFFF`. -/
def crc32 (l : List Nat) : Nat :=
  (l.foldl crc32Byte 0xFFFFFFFF) ^^^ 0xFFFFFFFF

theorem crc32Byte_lt (crc b : Nat) (h : crc < 2 ^ 32) : crc32Byte crc b < 2 ^ 32 := by
  have hstep : ∀ c, c < 2 ^ 32 →
      (if c % 2 = 1 then (c / 2) ^^^ 0xEDB88320 else c / 2) < 2 ^ 32 := by
    intro c hc
    by_cases hpar : c % 2 = 1
    · simp only [hpar, if_pos rfl]
      have h1 : c / 2 < 2 ^ 32 := lt_of_le_of_lt (Nat.div_le_self c 2) hc
      have h2 : (0xEDB88320 : Nat) < 2 ^ 32 := by norm_num
      exact Nat.xor_lt_two_pow h1 h2
    · simp only [if_neg hpar]
      exact lt_of_le_of_lt (Nat.div_le_self c 2) hc
  have hx : crc ^^^ b % 256 < 2 ^ 32 := by
    have h1 : b % 256 < 2 ^ 32 :=
      lt_of_lt_of_le (Nat.mod_lt b (by norm_num)) (by norm_num)
    exact Nat.xor_lt_two_pow h h1
  unfold crc32Byte
  exact hstep _ (hstep _ (hstep _ (hstep _ (hstep _ (hstep _ (hstep _ (hstep _ hx)))))))

theorem crc32_lt (l : List Nat) : crc32 l < 2 ^ 32 := by
  have hfold : ∀ (m : List Nat) (init : Nat), init < 2 ^ 32 →
      m.foldl crc32Byte init < 2 ^ 32 := by
    intro m
    induction m with
    | nil => intro init h; simpa using h
    | cons b rest ih => intro init h; exact ih _ (crc32Byte_lt init b h)
  have h1 : (0xFFFFFFFF : Nat) < 2 ^ 32 := by norm_num
  exact Nat.xor_lt_two_pow (hfold l _ h1) h1

/-! ## Codec identity (src/codec/mod.rs) -/

/-- All-zero UUID: the `None` codec (payload stored verbatim). -/
def UUID_NONE : List Nat := List.replicate 16 0

/-- Frozen UUID of the Zstd codec (LE byte order, as in the source). -/
def UUID_ZSTD : List Nat :=
  [0x4f, 0x9d, 0x8a, 0xb2, 0x3c, 0x5e, 0x1b, 0x4a,
   0x8f, 0x2e, 0x7c, 0x6d, 0x9b, 0x0e, 0x1a, 0x2f]

/-- Frozen UUID of the LZ4 codec. -/
def UUID_LZ4 : List Nat :=
  [0x8e, 0x2c, 0x7b, 0x3f, 0x4d, 0x1a, 0x9f, 0x4e,
   0xb6, 0xc3, 0x5d, 0x8a, 0x2f, 0x7e, 0x0b, 0x1c]

/-- Frozen UUID of the Brotli codec. -/
def UUID_BROTLI : List Nat :=
  [0x3a, 0x5f, 0x1e, 0x9c, 0x2d, 0x7b, 0x8e, 0x4c,
   0xa5, 0xf1, 0x2e, 0x6b, 0x9d, 0x0c, 0x3a, 0x7f]

/-- Frozen UUID of the LZMA codec. -/
def UUID_LZMA : List Nat :=
  [0x1c, 0x2e, 0x8f, 0x4a, 0x3d, 0x9b, 0x7a, 0x4f,
   0xc2, 0xe8, 0x6d, 0x5b, 0x1a, 0x0f, 0x3c, 0x9e]

/-- Runtime codec discriminant (`CodecId` in src/codec/mod.rs). -/
inductive CodecId where
  | None
  | Zstd
  | Lz4
  | Brotli
  | Lzma
deriving DecidableEq, Repr

/-- The frozen 16-byte UUID of a codec (`CodecId::uuid`). -/
def CodecId.uuid : CodecId → List Nat
  | .None => UUID_NONE
  | .Zstd => UUID_ZSTD
  | .Lz4 => UUID_LZ4
  | .Brotli => UUID_BROTLI
  | .Lzma => UUID_LZMA

/-- Resolve a raw UUID to a codec; `none` when the UUID is not recognised by
this build (`CodecId::from_uuid`). -/
def CodecId.fromUuid (u : List Nat) : Option CodecId :=
  if u = UUID_NONE then some .None
  else if u = UUID_ZSTD then some .Zstd
  else if u = UUID_LZ4 then some .Lz4
  else if u = UUID_BROTLI then some .Brotli
  else if u = UUID_LZMA then some .Lzma
  else none

theorem CodecId.fromUuid_uuid (c : CodecId) : CodecId.fromUuid c.uuid = some c := by
  cases c <;> decide

theorem CodecId.uuid_length (c : CodecId) : c.uuid.length = 16 := by
  cases c <;> decide

/-! ## Block format (src/block.rs) -/

/-- On-disk magic of every block header (`0x424C434B`, "BLCK"). -/
def BLOCK_MAGIC : Nat := 0x424C434B

/-- Current block header layout version. -/
def BLOCK_HEADER_VERSION : Nat := 1

/-- Fixed byte size of the block header, including the trailing CRC32. -/
def BLOCK_HEADER_SIZE : Nat := 84

/-- `file_id` sentinel for blocks not owned by a single file. -/
def FILE_ID_SHARED : Nat := 0xFFFFFFFF

/-- Payload-is-encrypted flag bit. -/
def FLAG_ENCRYPTED : Nat := 1

/-- Role of a block inside the archive (`BlockType`). -/
inductive BlockType where
  | Data
  | Index
  | Solid
deriving DecidableEq, Repr

/-- `BlockType as u16` (the `#[repr(u16)]` discriminants). -/
def BlockType.toU16 : BlockType → Nat
  | .Data => 0
  | .Index => 1
  | .Solid => 2

/-- `BlockType::from_u16`. -/
def BlockType.fromU16 (v : Nat) : Option BlockType :=
  if v = 0 then some .Data
  else if v = 1 then some .Index
  else if v = 2 then some .Solid
  else none

theorem BlockType.fromU16_toU16 (b : BlockType) : BlockType.fromU16 b.toU16 = some b := by
  cases b <;> decide

/-- Error kinds surfaced by the engine (spec §7 taxonomy; the sources carry
them as `io::Error` / `SuperblockError` / `CodecError` values). -/
inductive ArchiveErr where
  | invalidMagic
  | unsupportedVersion (v : Nat)
  | crc32Mismatch
  | unavailableCodec (uuid : List Nat)
  | contentHashMismatch
  | missingKey
  | decryptionFailed
  | unknownBlockType
  | headerSizeTooSmall
  | codecCountOverflow
  | tooManyRequiredCodecs
  | indexDeserializeFailed
  | notFound
  | truncated
  | solidRangeOutOfBounds
deriving DecidableEq, Repr

/-- In-memory block header (`BlockHeader` in src/block.rs; the source struct
does not store `header_size` or the CRC — both are produced/validated during
serialization only). -/
structure BlockHeader where
  headerVersion : Nat
  blockType : BlockType
  flags : Nat
  codecUuid : List Nat
  fileId : Nat
  fileOffset : Nat
  origSize : Nat
  compSize : Nat
  contentHash : List Nat
deriving DecidableEq, Repr

/-- `header.flags & FLAG_ENCRYPTED != 0` (`BlockHeader::is_encrypted`). -/
def BlockHeader.isEncrypted (h : BlockHeader) : Bool :=
  h.flags % 2 = 1

/-- The 80 CRC-covered bytes of a block header, in on-disk field order
(`BlockHeader::write` before the CRC is appended). -/
def BlockHeader.writeBody (h : BlockHeader) : List Nat :=
  leBytes 4 BLOCK_MAGIC ++ (leBytes 2 BLOCK_HEADER_VERSION ++
  (leBytes 2 BLOCK_HEADER_SIZE ++ (leBytes 2 h.blockType.toU16 ++
  (leBytes 2 h.flags ++ (h.codecUuid ++ (leBytes 4 h.fileId ++
  (leBytes 8 h.fileOffset ++ (leBytes 4 h.origSize ++ (leBytes 4 h.compSize ++
  h.contentHash)))))))))

/-- The full 84-byte header as written to disk: 80-byte body followed by
`CRC32(body)` (`BlockHeader::write`). -/
def BlockHeader.writeBytes (h : BlockHeader) : List Nat :=
  h.writeBody ++ leBytes 4 (crc32 h.writeBody)

/-- Field well-formedness matching the Rust field types (`u16`/`u32`/`u64`
fields, 16-byte UUID, 32-byte BLAKE3 hash); headers built by `encode_block`
satisfy this by construction (the `as` casts reduce the values). -/
def BlockHeader.WF (h : BlockHeader) : Prop :=
  h.headerVersion = 1 ∧ h.flags < 2 ^ 16 ∧ h.codecUuid.length = 16 ∧
  h.fileId < 2 ^ 32 ∧ h.fileOffset < 2 ^ 64 ∧ h.origSize < 2 ^ 32 ∧
  h.compSize < 2 ^ 32 ∧ h.contentHash.length = 32

/-- Read and validate an 84-byte block header from the front of `stream`
(`BlockHeader::read`): length, CRC32 over bytes [0..80], magic, version,
`header_size ≥ 84`, known block type, then field extraction.  NOTE: bytes
beyond the 84th are never consumed here — in particular a declared
`header_size > 84` does not cause any skip, faithfully to the source. -/
def BlockHeader.read (stream : List Nat) : Except ArchiveErr BlockHeader :=
  if stream.length < 84 then .error .truncated else
  let buf := stream.take 84
  let body := buf.take 80
  let stored := leDecode (buf.drop 80)
  if crc32 body ≠ stored then .error .crc32Mismatch else
  let p0 := readN 4 body
  if leDecode p0.1 ≠ BLOCK_MAGIC then .error .invalidMagic else
  let p1 := readN 2 p0.2
  if leDecode p1.1 ≠ BLOCK_HEADER_VERSION then .error (.unsupportedVersion (leDecode p1.1)) else
  let p2 := readN 2 p1.2
  if leDecode p2.1 < 84 then .error .headerSizeTooSmall else
  let p3 := readN 2 p2.2
  match BlockType.fromU16 (leDecode p3.1) with
  | none => .error .unknownBlockType
  | some bt =>
    let p4 := readN 2 p3.2
    let p5 := readN 16 p4.2
    let p6 := readN 4 p5.2
    let p7 := readN 8 p6.2
    let p8 := readN 4 p7.2
    let p9 := readN 4 p8.2
    .ok { headerVersion := 1, blockType := bt, flags := leDecode p4.1,
          codecUuid := p5.1, fileId := leDecode p6.1,
          fileOffset := leDecode p7.1, origSize := leDecode p8.1,
          compSize := leDecode p9.1, contentHash := p9.2.take 32 }

theorem BlockHeader.writeBody_length (h : BlockHeader) (hcu : h.codecUuid.length = 16)
    (hch : h.contentHash.length = 32) : h.writeBody.length = 80 := by
  simp [BlockHeader.writeBody, leBytes_length, hcu, hch]

theorem BlockHeader.writeBytes_length (h : BlockHeader) (hcu : h.codecUuid.length = 16)
    (hch : h.contentHash.length = 32) : h.writeBytes.length = 84 := by
  simp [BlockHeader.writeBytes, BlockHeader.writeBody_length h hcu hch, leBytes_length]

/-- Serialization round-trip: a well-formed header written by
`BlockHeader::write`, followed by arbitrary trailing bytes, reads back
unchanged. -/
theorem BlockHeader.read_writeBytes (h : BlockHeader) (hWF : h.WF) (rest : List Nat) :
    BlockHeader.read (h.writeBytes ++ rest) = .ok h := by
  obtain ⟨hv, hfl, hcu, hfi, hfo, hos, hcs, hch⟩ := hWF
  have hbodyLen := BlockHeader.writeBody_length h hcu hch
  have hwbLen := BlockHeader.writeBytes_length h hcu hch
  have hlenStream : (h.writeBytes ++ rest).length = 84 + rest.length := by
    simp [hwbLen]
  have hnotlt : ¬ ((h.writeBytes ++ rest).length < 84) := by
    rw [hlenStream]; omega
  have htake : (h.writeBytes ++ rest).take 84 = h.writeBytes := by
    rw [← hwbLen]; exact List.take_left _ _
  have hbody : h.writeBytes.take 80 = h.writeBody := by
    rw [BlockHeader.writeBytes, ← hbodyLen]; exact List.take_left _ _
  have hcrcb : h.writeBytes.drop 80 = leBytes 4 (crc32 h.writeBody) := by
    rw [BlockHeader.writeBytes, ← hbodyLen]; exact List.drop_left _ _
  have hstored : leDecode (leBytes 4 (crc32 h.writeBody)) = crc32 h.writeBody := by
    apply leDecode_leBytes_of_lt
    have h32 : (2 : Nat) ^ (8 * 4) = 2 ^ 32 := by norm_num
    rw [h32]; exact crc32_lt _
  unfold BlockHeader.read
  rw [if_neg hnotlt]
  simp only [htake, hbody, hcrcb, hstored]
  rw [if_neg (by simp)]
  conv_lhs => rw [BlockHeader.writeBody]
  rw [readN_append _ (leBytes_length 4 BLOCK_MAGIC)]
  simp only
  rw [if_neg (by rw [leDecode_leBytes_of_lt (by norm_num [BLOCK_MAGIC])]; exact not_ne_iff.mpr rfl)]
  rw [readN_append _ (leBytes_length 2 BLOCK_HEADER_VERSION)]
  simp only
  rw [if_neg (by rw [leDecode_leBytes_of_lt (by norm_num [BLOCK_HEADER_VERSION])]; exact not_ne_iff.mpr rfl)]
  rw [readN_append _ (leBytes_length 2 BLOCK_HEADER_SIZE)]
  simp only
  rw [if_neg (by rw [leDecode_leBytes_of_lt (by norm_num [BLOCK_HEADER_SIZE])]; norm_num [BLOCK_HEADER_SIZE])]
  rw [readN_append _ (leBytes_length 2 h.blockType.toU16)]
  simp only
  have hbt : leDecode (leBytes 2 h.blockType.toU16) = h.blockType.toU16 := by
    apply leDecode_leBytes_of_lt
    cases h.blockType <;> norm_num [BlockType.toU16]
  rw [hbt, BlockType.fromU16_toU16]
  rw [readN_append _ (leBytes_length 2 h.flags)]
  simp only
  rw [readN_append _ hcu]
  simp only
  rw [readN_append _ (leBytes_length 4 h.fileId)]
  simp only
  rw [readN_append _ (leBytes_length 8 h.fileOffset)]
  simp only
  rw [readN_append _ (leBytes_length 4 h.origSize)]
  simp only
  rw [readN_append _ (leBytes_length 4 h.compSize)]
  simp only
  have hfl2 : leDecode (leBytes 2 h.flags) = h.flags :=
    leDecode_leBytes_of_lt (by simpa using hfl)
  have hfi2 : leDecode (leBytes 4 h.fileId) = h.fileId :=
    leDecode_leBytes_of_lt (by simpa using hfi)
  have hfo2 : leDecode (leBytes 8 h.fileOffset) = h.fileOffset :=
    leDecode_leBytes_of_lt (by simpa using hfo)
  have hos2 : leDecode (leBytes 4 h.origSize) = h.origSize :=
    leDecode_leBytes_of_lt (by simpa using hos)
  have hcs2 : leDecode (leBytes 4 h.compSize) = h.compSize :=
    leDecode_leBytes_of_lt (by simpa using hcs)
  have hch2 : h.contentHash.take 32 = h.contentHash :=
    List.take_of_length_le (le_of_eq hch)
  rw [hfl2, hfi2, hfo2, hos2, hcs2, hch2]
  cases h with
  | mk hv' bt fl cu fi fo os cs chs =>
      simp only at hv ⊢
      rw [hv]

/-! ## Superblock (src/superblock.rs) -/

/-- ASCII bytes of the superblock magic `".6cy"`. -/
def SB_MAGIC : List Nat := [0x2e, 0x36, 0x63, 0x79]

/-- Current format version. -/
def FORMAT_VERSION : Nat := 3

/-- Minimum readable format version. -/
def MIN_FORMAT_VERSION : Nat := 3

/-- Fixed superblock size in bytes. -/
def SUPERBLOCK_SIZE : Nat := 256

/-- Archive-level flag: at least one block is encrypted. -/
def SB_FLAG_ENCRYPTED : Nat := 1

/-- In-memory superblock (`Superblock` in src/superblock.rs).  The archive
UUID is a raw 16-byte value (the source's `uuid::Uuid`). -/
structure Superblock where
  magic : List Nat
  formatVersion : Nat
  archiveUuid : List Nat
  flags : Nat
  indexOffset : Nat
  indexSize : Nat
  requiredCodecUuids : List (List Nat)
deriving DecidableEq, Repr

/-- `Superblock::new()`.  The source draws a fresh random `Uuid::new_v4()`;
the model takes the generated UUID as a parameter. -/
def Superblock.new (archiveUuid : List Nat) : Superblock :=
  { magic := SB_MAGIC, formatVersion := FORMAT_VERSION,
    archiveUuid := archiveUuid, flags := 0, indexOffset := 0, indexSize := 0,
    requiredCodecUuids := [] }

/-- The CRC-covered prefix of the on-disk superblock, in field order
(`Superblock::write` before the CRC is appended): magic, version, UUID,
flags, index offset/size, codec count, then the raw codec UUIDs. -/
def Superblock.writeBody (sb : Superblock) : List Nat :=
  sb.magic ++ (leBytes 4 sb.formatVersion ++ (sb.archiveUuid ++
  (leBytes 4 sb.flags ++ (leBytes 8 sb.indexOffset ++ (leBytes 8 sb.indexSize ++
  (leBytes 2 sb.requiredCodecUuids.length ++ sb.requiredCodecUuids.flatten))))))

/-- `Superblock::write`: body, CRC32 of the body, zero padding to 256 bytes.
The source `assert!`s that the body (with CRC) fits in the reserved 256
bytes; the model surfaces that panic as `tooManyRequiredCodecs`. -/
def Superblock.write (sb : Superblock) : Except ArchiveErr (List Nat) :=
  let body := sb.writeBody ++ leBytes 4 (crc32 sb.writeBody)
  if body.length > SUPERBLOCK_SIZE then .error .tooManyRequiredCodecs
  else .ok (body ++ List.replicate (SUPERBLOCK_SIZE - body.length) 0)

/-- Read `n` consecutive raw 16-byte UUIDs (the parse loop in
`Superblock::read`). -/
def readUuids : Nat → List Nat → List (List Nat)
  | 0, _ => []
  | n + 1, l => l.take 16 :: readUuids n (l.drop 16)

/-- First UUID of a required-codec list that this build cannot resolve
(the loop of `Superblock::check_codecs`). -/
def firstUnknownUuid : List (List Nat) → Option (List Nat)
  | [] => none
  | u :: rest =>
      if CodecId.fromUuid u = none then some u else firstUnknownUuid rest

/-- `Superblock::check_codecs`: fail with `UnavailableCodec` on the first
required UUID that is not available in this build. -/
def Superblock.checkCodecs (sb : Superblock) : Except ArchiveErr Unit :=
  match firstUnknownUuid sb.requiredCodecUuids with
  | some u => .error (.unavailableCodec u)
  | none => .ok ()

/-- Byte-level parse of the 256-byte superblock (`Superblock::read` before
the codec-availability check): consume exactly 256 bytes, validate magic,
version and CRC32 over the variable-length prefix, extract the fields.
Fields live at fixed offsets 0/4/8/24/28/36/44/46; the sequential reads
below consume them in that contiguous order. -/
def Superblock.parse (stream : List Nat) : Except ArchiveErr Superblock :=
  if stream.length < 256 then .error .truncated else
  let buf := stream.take 256
  let p0 := readN 4 buf
  if p0.1 ≠ SB_MAGIC then .error .invalidMagic else
  let p1 := readN 4 p0.2
  if leDecode p1.1 < MIN_FORMAT_VERSION then .error (.unsupportedVersion (leDecode p1.1)) else
  let p2 := readN 16 p1.2
  let p3 := readN 4 p2.2
  let p4 := readN 8 p3.2
  let p5 := readN 8 p4.2
  let p6 := readN 2 p5.2
  let codecCount := leDecode p6.1
  if 46 + codecCount * 16 + 4 > 256 then .error .codecCountOverflow else
  let uuids := readUuids codecCount p6.2
  let stored := leDecode ((p6.2.drop (codecCount * 16)).take 4)
  if crc32 (buf.take (46 + codecCount * 16)) ≠ stored then .error .crc32Mismatch else
  .ok { magic := SB_MAGIC, formatVersion := leDecode p1.1,
        archiveUuid := p2.1, flags := leDecode p3.1,
        indexOffset := leDecode p4.1, indexSize := leDecode p5.1,
        requiredCodecUuids := uuids }

/-- `Superblock::read`: parse the 256-byte anchor, then immediately check
codec availability — failing before anything past the superblock is
consumed. -/
def Superblock.read (stream : List Nat) : Except ArchiveErr Superblock :=
  match Superblock.parse stream with
  | .error e => .error e
  | .ok sb =>
      match sb.checkCodecs with
      | .error e => .error e
      | .ok _ => .ok sb

/-- `Superblock::add_required_codec`: no-op for the `None` codec, otherwise
append the UUID unless it is already listed. -/
def Superblock.addRequiredCodec (sb : Superblock) (c : CodecId) : Superblock :=
  if c = CodecId.None then sb
  else if sb.requiredCodecUuids.contains c.uuid then sb
  else { sb with requiredCodecUuids := sb.requiredCodecUuids ++ [c.uuid] }

/-- Well-formedness mirroring the Rust field types: 4-byte magic equal to
the constant, `u32`/`u64` numeric fields, 16-byte UUIDs. -/
def Superblock.WF (sb : Superblock) : Prop :=
  sb.magic = SB_MAGIC ∧ MIN_FORMAT_VERSION ≤ sb.formatVersion ∧
  sb.formatVersion < 2 ^ 32 ∧ sb.archiveUuid.length = 16 ∧
  sb.flags < 2 ^ 32 ∧ sb.indexOffset < 2 ^ 64 ∧ sb.indexSize < 2 ^ 64 ∧
  (∀ u ∈ sb.requiredCodecUuids, u.length = 16)

theorem flatten_length_16 (us : List (List Nat)) (h : ∀ u ∈ us, u.length = 16) :
    us.flatten.length = us.length * 16 := by
  induction us with
  | nil => rfl
  | cons u rest ih =>
      have hu : u.length = 16 := h u (List.mem_cons_self u rest)
      have hr := ih (fun v hv => h v (List.mem_cons_of_mem u hv))
      simp [List.flatten_cons, hu, hr, Nat.succ_mul]
      omega

theorem readUuids_flatten (us : List (List Nat)) (r : List Nat)
    (h : ∀ u ∈ us, u.length = 16) :
    readUuids us.length (us.flatten ++ r) = us := by
  induction us generalizing r with
  | nil => rfl
  | cons u rest ih =>
      have hu : u.length = 16 := h u (List.mem_cons_self u rest)
      have hmem : ∀ v ∈ rest, v.length = 16 :=
        fun v hv => h v (List.mem_cons_of_mem u hv)
      simp only [List.length_cons, List.flatten_cons, readUuids, List.append_assoc]
      rw [← hu, List.take_left, List.drop_left]
      rw [ih _ hmem]

theorem Superblock.writeBodyLen (sb : Superblock) (hWF : sb.WF) :
    sb.writeBody.length = 46 + sb.requiredCodecUuids.length * 16 := by
  obtain ⟨hm, _, _, hu, _, _, _, hus⟩ := hWF
  have hmlen : sb.magic.length = 4 := by rw [hm]; rfl
  simp [Superblock.writeBody, leBytes_length, hmlen, hu,
        flatten_length_16 _ hus]
  omega

/-- `Superblock::write` succeeds exactly when the required-codec list fits
the 256-byte layout: at most ⌊(256 − 46 − 4) / 16⌋ = 12 entries. -/
theorem Superblock.write_isOk_iff (sb : Superblock) (hWF : sb.WF) :
    (sb.write).isOk = true ↔ sb.requiredCodecUuids.length ≤ 12 := by
  have hbl := Superblock.writeBodyLen sb hWF
  have hlen : (sb.writeBody ++ leBytes 4 (crc32 sb.writeBody)).length =
      50 + sb.requiredCodecUuids.length * 16 := by
    rw [List.length_append, hbl, leBytes_length]; omega
  unfold Superblock.write
  by_cases hle : sb.requiredCodecUuids.length ≤ 12
  · have hnot : ¬ ((sb.writeBody ++ leBytes 4 (crc32 sb.writeBody)).length > SUPERBLOCK_SIZE) := by
      rw [hlen]; simp only [SUPERBLOCK_SIZE, gt_iff_lt, not_lt]; omega
    rw [if_neg hnot]
    simp [Except.isOk, Except.toBool, hle]
  · have hgt : (sb.writeBody ++ leBytes 4 (crc32 sb.writeBody)).length > SUPERBLOCK_SIZE := by
      rw [hlen]; simp only [SUPERBLOCK_SIZE, gt_iff_lt]; omega
    rw [if_pos hgt]
    simp [Except.isOk, Except.toBool, hle]

theorem Superblock.write_ok_length {sb : Superblock} {b : List Nat}
    (h : sb.write = .ok b) : b.length = 256 := by
  unfold Superblock.write at h
  by_cases hfit : (sb.writeBody ++ leBytes 4 (crc32 sb.writeBody)).length > SUPERBLOCK_SIZE
  · rw [if_pos hfit] at h; exact absurd h (by simp)
  · rw [if_neg hfit] at h
    simp only [Except.ok.injEq] at h
    subst h
    simp only [SUPERBLOCK_SIZE, gt_iff_lt, not_lt] at hfit
    rw [List.length_append, List.length_replicate]
    simp only [SUPERBLOCK_SIZE]
    omega

/-- Serialization round-trip for the superblock: a well-formed superblock
written by `Superblock::write`, followed by arbitrary bytes, parses back
unchanged (codec availability not yet checked). -/
theorem Superblock.parse_write (sb : Superblock) (hWF : sb.WF) {b : List Nat}
    (hw : sb.write = .ok b) (rest : List Nat) :
    Superblock.parse (b ++ rest) = .ok sb := by
  obtain ⟨hm, hv3, hv32, hu, hfl, hio, his, hus⟩ := hWF
  have hWF' : sb.WF := ⟨hm, hv3, hv32, hu, hfl, hio, his, hus⟩
  have hbl := Superblock.writeBodyLen sb hWF'
  have hn : sb.requiredCodecUuids.length ≤ 12 :=
    (Superblock.write_isOk_iff sb hWF').mp (by rw [hw]; rfl)
  have hfit : ¬ ((sb.writeBody ++ leBytes 4 (crc32 sb.writeBody)).length > SUPERBLOCK_SIZE) := by
    rw [List.length_append, hbl, leBytes_length]
    simp only [SUPERBLOCK_SIZE, gt_iff_lt, not_lt]
    omega
  have hb : b = (sb.writeBody ++ leBytes 4 (crc32 sb.writeBody)) ++
      List.replicate (SUPERBLOCK_SIZE -
        (sb.writeBody ++ leBytes 4 (crc32 sb.writeBody)).length) 0 := by
    unfold Superblock.write at hw
    rw [if_neg hfit] at hw
    simp only [Except.ok.injEq] at hw
    exact hw.symm
  have hblen : b.length = 256 := Superblock.write_ok_length hw
  have hmlen : sb.magic.length = 4 := by rw [hm]; rfl
  have hnotlt : ¬ ((b ++ rest).length < 256) := by
    rw [List.length_append, hblen]; omega
  have htake : (b ++ rest).take 256 = b := by
    rw [← hblen]; exact List.take_left _ _
  have hchain : b = sb.magic ++ (leBytes 4 sb.formatVersion ++ (sb.archiveUuid ++
      (leBytes 4 sb.flags ++ (leBytes 8 sb.indexOffset ++ (leBytes 8 sb.indexSize ++
      (leBytes 2 sb.requiredCodecUuids.length ++ (sb.requiredCodecUuids.flatten ++
      (leBytes 4 (crc32 sb.writeBody) ++
       List.replicate (SUPERBLOCK_SIZE -
         (sb.writeBody ++ leBytes 4 (crc32 sb.writeBody)).length) 0)))))))) := by
    rw [hb]
    simp [Superblock.writeBody, List.append_assoc]
  have hfv : leDecode (leBytes 4 sb.formatVersion) = sb.formatVersion :=
    leDecode_leBytes_of_lt (by simpa using hv32)
  have hfl2 : leDecode (leBytes 4 sb.flags) = sb.flags :=
    leDecode_leBytes_of_lt (by simpa using hfl)
  have hio2 : leDecode (leBytes 8 sb.indexOffset) = sb.indexOffset :=
    leDecode_leBytes_of_lt (by simpa using hio)
  have his2 : leDecode (leBytes 8 sb.indexSize) = sb.indexSize :=
    leDecode_leBytes_of_lt (by simpa using his)
  have hcount : leDecode (leBytes 2 sb.requiredCodecUuids.length) =
      sb.requiredCodecUuids.length := by
    apply leDecode_leBytes_of_lt
    have : (2 : Nat) ^ (8 * 2) = 65536 := by norm_num
    rw [this]; omega
  unfold Superblock.parse
  rw [if_neg hnotlt, htake, hchain]
  dsimp only
  rw [readN_append _ hmlen]
  simp only
  rw [hm, if_neg (not_ne_iff.mpr rfl)]
  rw [readN_append _ (leBytes_length 4 sb.formatVersion)]
  simp only
  rw [hfv]
  rw [if_neg (by simp only [MIN_FORMAT_VERSION] at *; omega)]
  rw [readN_append _ hu]
  simp only
  rw [readN_append _ (leBytes_length 4 sb.flags)]
  simp only
  rw [readN_append _ (leBytes_length 8 sb.indexOffset)]
  simp only
  rw [readN_append _ (leBytes_length 8 sb.indexSize)]
  simp only
  rw [readN_append _ (leBytes_length 2 sb.requiredCodecUuids.length)]
  simp only
  rw [hcount]
  rw [if_neg (by omega)]
  rw [readUuids_flatten _ _ hus]
  have hdropflat : (sb.requiredCodecUuids.flatten ++
      (leBytes 4 (crc32 sb.writeBody) ++
       List.replicate (SUPERBLOCK_SIZE -
         (sb.writeBody ++ leBytes 4 (crc32 sb.writeBody)).length) 0)).drop
      (sb.requiredCodecUuids.length * 16) =
      leBytes 4 (crc32 sb.writeBody) ++
      List.replicate (SUPERBLOCK_SIZE -
        (sb.writeBody ++ leBytes 4 (crc32 sb.writeBody)).length) 0 := by
    rw [← flatten_length_16 _ hus]; exact List.drop_left _ _
  rw [hdropflat]
  have htake4 : (leBytes 4 (crc32 sb.writeBody) ++
      List.replicate (SUPERBLOCK_SIZE -
        (sb.writeBody ++ leBytes 4 (crc32 sb.writeBody)).length) 0).take 4 =
      leBytes 4 (crc32 sb.writeBody) := by
    rw [← leBytes_length 4 (crc32 sb.writeBody)]; exact List.take_left _ _
  rw [htake4]
  have hstored : leDecode (leBytes 4 (crc32 sb.writeBody)) = crc32 sb.writeBody := by
    apply leDecode_leBytes_of_lt
    have h32 : (2 : Nat) ^ (8 * 4) = 2 ^ 32 := by norm_num
    rw [h32]; exact crc32_lt _
  rw [hstored]
  have hcrctake : (SB_MAGIC ++ (leBytes 4 sb.formatVersion ++ (sb.archiveUuid ++
      (leBytes 4 sb.flags ++ (leBytes 8 sb.indexOffset ++ (leBytes 8 sb.indexSize ++
      (leBytes 2 sb.requiredCodecUuids.length ++ (sb.requiredCodecUuids.flatten ++
      (leBytes 4 (crc32 sb.writeBody) ++
       List.replicate (SUPERBLOCK_SIZE -
         (sb.writeBody ++ leBytes 4 (crc32 sb.writeBody)).length) 0))))))))).take
      (46 + sb.requiredCodecUuids.length * 16) = sb.writeBody := by
    have hre : SB_MAGIC ++ (leBytes 4 sb.formatVersion ++ (sb.archiveUuid ++
        (leBytes 4 sb.flags ++ (leBytes 8 sb.indexOffset ++ (leBytes 8 sb.indexSize ++
        (leBytes 2 sb.requiredCodecUuids.length ++ (sb.requiredCodecUuids.flatten ++
        (leBytes 4 (crc32 sb.writeBody) ++
         List.replicate (SUPERBLOCK_SIZE -
           (sb.writeBody ++ leBytes 4 (crc32 sb.writeBody)).length) 0)))))))) =
        sb.writeBody ++ (leBytes 4 (crc32 sb.writeBody) ++
         List.replicate (SUPERBLOCK_SIZE -
           (sb.writeBody ++ leBytes 4 (crc32 sb.writeBody)).length) 0) := by
      simp [Superblock.writeBody, List.append_assoc, hm]
    rw [hre, ← hbl]
    exact List.take_left _ _
  rw [hcrctake]
  rw [if_neg (not_ne_iff.mpr rfl)]
  have hfinal : ({ magic := SB_MAGIC
                   formatVersion := sb.formatVersion
                   archiveUuid := sb.archiveUuid
                   flags := sb.flags
                   indexOffset := sb.indexOffset
                   indexSize := sb.indexSize
                   requiredCodecUuids := sb.requiredCodecUuids } : Superblock) = sb := by
    cases sb
    simp_all
  rw [hfl2, hio2, his2, hfinal]

/-! ## File index data model

The `crate::index` module consumed by `io_stream` (rich `BlockRef` with
content hash, archive offset and intra-block range, `FileIndexRecord`,
`FileIndex` with `compute_root_hash` and `from_scan`) is not among the
repository's source files — the `src/index/mod.rs` present is a stale
pre-CAS variant with different fields.  These types and their JSON
serialization are therefore modelled from the specification (§3, §4.5). -/

/-- Modelled from the spec: `BlockRef` (§3) — a pointer into the archive:
content hash, archive offset of the block header, and optional intra-block
slice for solid blocks. -/
structure BlockRef where
  contentHash : List Nat
  archiveOffset : Nat
  intraOffset : Nat
  intraLength : Nat
deriving DecidableEq, Repr

/-- Modelled from the spec: `intra_length > 0` means the ref names a slice
inside a solid block's decompressed payload (`BlockRef::is_solid_slice`). -/
def BlockRef.isSolidSlice (br : BlockRef) : Bool :=
  decide (0 < br.intraLength)

/-- Modelled from the spec: `FileRecord` (§3) — id, parent id, UTF-8 name
(kept as raw bytes), ordered block refs, sizes and a string map. -/
structure FileIndexRecord where
  id : Nat
  parentId : Nat
  name : List Nat
  blockRefs : List BlockRef
  originalSize : Nat
  compressedSize : Nat
  metadata : List (List Nat × List Nat)
deriving DecidableEq, Repr

/-- Modelled from the spec: `FileIndex` (§3) — ordered records plus the
Merkle-style root hash. -/
structure FileIndex where
  records : List FileIndexRecord
  rootHash : List Nat
deriving DecidableEq, Repr

/-- `FileIndex::default()`: no records, all-zero root. -/
def FileIndex.default : FileIndex :=
  { records := [], rootHash := List.replicate 32 0 }

/-- ASCII code of the hex digit for `n < 16` (lowercase, as `format!("{:08x}")`
produces). -/
def hexDigit (n : Nat) : Nat :=
  if n < 10 then 48 + n else 87 + n

/-- The eight ASCII bytes of `format!("{:08x}", n)`. -/
def hex8 (n : Nat) : List Nat :=
  [hexDigit (n / 16 ^ 7 % 16), hexDigit (n / 16 ^ 6 % 16),
   hexDigit (n / 16 ^ 5 % 16), hexDigit (n / 16 ^ 4 % 16),
   hexDigit (n / 16 ^ 3 % 16), hexDigit (n / 16 ^ 2 % 16),
   hexDigit (n / 16 % 16), hexDigit (n % 16)]

/-- Modelled from the spec: `FileIndexRecord::from_scan` (§4.8) — synthesize
a record named `file_<file_id:08x>` for blocks recovered without an index. -/
def FileIndexRecord.fromScan (fid size : Nat) (refs : List BlockRef) : FileIndexRecord :=
  { id := fid, parentId := 0,
    name := [102, 105, 108, 101, 95] ++ hex8 fid,
    blockRefs := refs, originalSize := size, compressedSize := 0,
    metadata := [] }

/-! ## External primitive parameters

BLAKE3, the codec implementations (Zstd/LZ4/Brotli/LZMA bindings) and
AES-256-GCM are external crates; the model abstracts them as function
parameters.  Theorems that need their contractual properties (codec
round-trip, hash collision-freeness on the inputs involved) take them as
hypotheses, mirroring the spec's interface contracts (§4.1, §4.2). -/

structure Params where
  hash : List Nat → List Nat
  comp : CodecId → Int → List Nat → List Nat
  decomp : CodecId → List Nat → List Nat
  encrypt : List Nat → List Nat → List Nat
  decrypt : List Nat → List Nat → Option (List Nat)

/-- The 32-byte content hash of a plaintext: the abstract hash normalised to
exactly 32 entries (BLAKE3 always yields 32 bytes; the normalisation is the
identity on such outputs). -/
def hash32 (p : Params) (d : List Nat) : List Nat :=
  (p.hash d).take 32 ++ List.replicate (32 - (p.hash d).length) 0

theorem hash32_length (p : Params) (d : List Nat) : (hash32 p d).length = 32 := by
  simp [hash32, List.length_take]
  omega

/-- Modelled from the spec: `compute_root_hash` (§4.5) — hash of the
concatenation of every block ref's content hash, records in order, refs in
write order. -/
def FileIndex.computeRootHash (p : Params) (idx : FileIndex) : FileIndex :=
  { idx with
    rootHash := hash32 p
      ((idx.records.map (fun r => (r.blockRefs.map BlockRef.contentHash).flatten)).flatten) }

/-! ## Index serialization (modelled)

`FileIndex::to_bytes`/`from_bytes` use `serde_json` (external).  The spec
(§4.5) requires only a stable self-describing encoding; the model uses a
length-prefixed binary encoding with base-128 varints, which satisfies the
same contract (total, injective, self-delimiting). -/

/-- Base-128 varint encoding of a natural number (low 7-bit groups first,
high bit set on non-final groups), with structural fuel so that the
definition reduces by kernel computation; `encNat` supplies fuel `n + 1`,
which always suffices. -/
def encNatGo : Nat → Nat → List Nat
  | 0, n => [n]
  | fuel + 1, n =>
      if n < 128 then [n] else (n % 128 + 128) :: encNatGo fuel (n / 128)

/-- Base-128 varint encoding. -/
def encNat (n : Nat) : List Nat := encNatGo (n + 1) n

/-- Varint decoder; returns the value and the unconsumed rest. -/
def decNat : List Nat → Option (Nat × List Nat)
  | [] => none
  | b :: rest =>
      if b < 128 then some (b, rest)
      else
        match decNat rest with
        | some (m, r) => some ((b - 128) + 128 * m, r)
        | none => none

theorem decNat_encNatGo (fuel n : Nat) (hfuel : n ≤ fuel) (r : List Nat) :
    decNat (encNatGo fuel n ++ r) = some (n, r) := by
  induction fuel generalizing n r with
  | zero =>
      have h0 : n = 0 := Nat.le_zero.mp hfuel
      subst h0
      simp [encNatGo, decNat]
  | succ fuel ih =>
      unfold encNatGo
      by_cases h : n < 128
      · simp [h, decNat]
      · rw [if_neg h]
        have hge : 128 ≤ n := le_of_not_lt h
        have hdiv : n / 128 ≤ fuel := by
          have : n / 128 < n := Nat.div_lt_self (by omega) (by norm_num)
          omega
        simp only [List.cons_append, decNat, List.append_eq]
        rw [if_neg (by omega)]
        rw [ih (n / 128) hdiv r]
        simp only [Option.some.injEq, Prod.mk.injEq]
        refine ⟨by omega, trivial⟩

theorem decNat_encNat (n : Nat) (r : List Nat) :
    decNat (encNat n ++ r) = some (n, r) :=
  decNat_encNatGo (n + 1) n (by omega) r

/-- Length-prefixed byte-list encoding. -/
def encBytes (l : List Nat) : List Nat :=
  encNat l.length ++ l

/-- Decoder for `encBytes`. -/
def decBytes (l : List Nat) : Option (List Nat × List Nat) :=
  match decNat l with
  | some (n, r) => if r.length < n then none else some (r.take n, r.drop n)
  | none => none

theorem decBytes_encBytes (a r : List Nat) :
    decBytes (encBytes a ++ r) = some (a, r) := by
  unfold encBytes decBytes
  rw [List.append_assoc, decNat_encNat]
  have hlen : ¬ ((a ++ r).length < a.length) := by
    rw [List.length_append]; omega
  dsimp only
  rw [if_neg hlen, List.take_left, List.drop_left]

/-- Count-prefixed list encoding over an element encoder. -/
def encListWith (enc : α → List Nat) (l : List α) : List Nat :=
  encNat l.length ++ (l.map enc).flatten

/-- Decode `n` consecutive elements. -/
def decListWith (dec : List Nat → Option (α × List Nat)) :
    Nat → List Nat → Option (List α × List Nat)
  | 0, l => some ([], l)
  | n + 1, l =>
      match dec l with
      | some (x, r) =>
          match decListWith dec n r with
          | some (xs, r2) => some (x :: xs, r2)
          | none => none
      | none => none

/-- Decoder for `encListWith`. -/
def decList (dec : List Nat → Option (α × List Nat)) (l : List Nat) :
    Option (List α × List Nat) :=
  match decNat l with
  | some (n, r) => decListWith dec n r
  | none => none

theorem decListWith_flatten (enc : α → List Nat)
    (dec : List Nat → Option (α × List Nat)) (l : List α) (r : List Nat)
    (h : ∀ x ∈ l, ∀ s, dec (enc x ++ s) = some (x, s)) :
    decListWith dec l.length ((l.map enc).flatten ++ r) = some (l, r) := by
  induction l generalizing r with
  | nil => simp [decListWith]
  | cons x xs ih =>
      have hx := h x (List.mem_cons_self x xs)
      have hxs : ∀ y ∈ xs, ∀ s, dec (enc y ++ s) = some (y, s) :=
        fun y hy s => h y (List.mem_cons_of_mem x hy) s
      simp only [List.map_cons, List.flatten_cons, List.length_cons, List.append_assoc]
      simp only [decListWith]
      rw [hx]
      dsimp only
      rw [ih r hxs]

theorem decList_encListWith (enc : α → List Nat)
    (dec : List Nat → Option (α × List Nat)) (l : List α) (r : List Nat)
    (h : ∀ x ∈ l, ∀ s, dec (enc x ++ s) = some (x, s)) :
    decList dec (encListWith enc l ++ r) = some (l, r) := by
  unfold encListWith decList
  rw [List.append_assoc, decNat_encNat]
  dsimp only
  exact decListWith_flatten enc dec l r h

/-- Encoder for one `BlockRef`. -/
def encRef (br : BlockRef) : List Nat :=
  encBytes br.contentHash ++ (encNat br.archiveOffset ++
  (encNat br.intraOffset ++ encNat br.intraLength))

/-- Decoder for `encRef`. -/
def decRef (l : List Nat) : Option (BlockRef × List Nat) :=
  match decBytes l with
  | none => none
  | some (ch, l1) =>
    match decNat l1 with
    | none => none
    | some (ao, l2) =>
      match decNat l2 with
      | none => none
      | some (io, l3) =>
        match decNat l3 with
        | none => none
        | some (il, l4) =>
            some ({ contentHash := ch, archiveOffset := ao,
                    intraOffset := io, intraLength := il }, l4)

theorem decRef_encRef (br : BlockRef) (r : List Nat) :
    decRef (encRef br ++ r) = some (br, r) := by
  unfold encRef decRef
  simp only [List.append_assoc]
  rw [decBytes_encBytes]
  dsimp only
  rw [decNat_encNat]
  dsimp only
  rw [decNat_encNat]
  dsimp only
  rw [decNat_encNat]

/-- Encoder for one metadata key/value pair. -/
def encPair (kv : List Nat × List Nat) : List Nat :=
  encBytes kv.1 ++ encBytes kv.2

/-- Decoder for `encPair`. -/
def decPair (l : List Nat) : Option ((List Nat × List Nat) × List Nat) :=
  match decBytes l with
  | none => none
  | some (k, l1) =>
    match decBytes l1 with
    | none => none
    | some (v, l2) => some ((k, v), l2)

theorem decPair_encPair (kv : List Nat × List Nat) (r : List Nat) :
    decPair (encPair kv ++ r) = some (kv, r) := by
  unfold encPair decPair
  rw [List.append_assoc, decBytes_encBytes]
  dsimp only
  rw [decBytes_encBytes]

/-- Encoder for one `FileIndexRecord`. -/
def encRecord (rec : FileIndexRecord) : List Nat :=
  encNat rec.id ++ (encNat rec.parentId ++ (encBytes rec.name ++
  (encListWith encRef rec.blockRefs ++ (encNat rec.originalSize ++
  (encNat rec.compressedSize ++ encListWith encPair rec.metadata)))))

/-- Decoder for `encRecord`. -/
def decRecord (l : List Nat) : Option (FileIndexRecord × List Nat) :=
  match decNat l with
  | none => none
  | some (i, l1) =>
    match decNat l1 with
    | none => none
    | some (pid, l2) =>
      match decBytes l2 with
      | none => none
      | some (nm, l3) =>
        match decList decRef l3 with
        | none => none
        | some (refs, l4) =>
          match decNat l4 with
          | none => none
          | some (os, l5) =>
            match decNat l5 with
            | none => none
            | some (cs, l6) =>
              match decList decPair l6 with
              | none => none
              | some (md, l7) =>
                  some ({ id := i, parentId := pid, name := nm,
                          blockRefs := refs, originalSize := os,
                          compressedSize := cs, metadata := md }, l7)

theorem decRecord_encRecord (rec : FileIndexRecord) (r : List Nat) :
    decRecord (encRecord rec ++ r) = some (rec, r) := by
  unfold encRecord decRecord
  simp only [List.append_assoc]
  rw [decNat_encNat]
  dsimp only
  rw [decNat_encNat]
  dsimp only
  rw [decBytes_encBytes]
  dsimp only
  rw [decList_encListWith encRef decRef rec.blockRefs _
      (fun x _ s => decRef_encRef x s)]
  dsimp only
  rw [decNat_encNat]
  dsimp only
  rw [decNat_encNat]
  dsimp only
  rw [decList_encListWith encPair decPair rec.metadata _
      (fun x _ s => decPair_encPair x s)]

/-- Modelled from the spec: `FileIndex::to_bytes` (§4.5) — the serialized
index: records then root hash. -/
def FileIndex.toBytes (idx : FileIndex) : List Nat :=
  encListWith encRecord idx.records ++ encBytes idx.rootHash

/-- Modelled from the spec: `FileIndex::from_bytes` — deserialization must
consume the whole payload (as `serde_json::from_slice` does). -/
def FileIndex.fromBytes (l : List Nat) : Except ArchiveErr FileIndex :=
  match decList decRecord l with
  | none => .error .indexDeserializeFailed
  | some (recs, l1) =>
    match decBytes l1 with
    | none => .error .indexDeserializeFailed
    | some (rh, l2) =>
        if l2 = [] then .ok { records := recs, rootHash := rh }
        else .error .indexDeserializeFailed

theorem FileIndex.fromBytes_toBytes (idx : FileIndex) :
    FileIndex.fromBytes idx.toBytes = .ok idx := by
  unfold FileIndex.toBytes FileIndex.fromBytes
  rw [show encListWith encRecord idx.records ++ encBytes idx.rootHash =
      encListWith encRecord idx.records ++ (encBytes idx.rootHash ++ []) by simp]
  rw [decList_encListWith encRecord decRecord idx.records _
      (fun x _ s => decRecord_encRecord x s)]
  dsimp only
  rw [decBytes_encBytes]
  dsimp only
  rw [if_pos rfl]

/-- `RecoveryCheckpoint` (src/recovery/mod.rs); the wall-clock timestamp is
modelled as data. -/
structure RecoveryCheckpoint where
  archiveOffset : Nat
  lastFileId : Nat
  timestamp : Nat
deriving DecidableEq, Repr

/-- `RecoveryMap` (src/recovery/mod.rs). -/
structure RecoveryMap where
  checkpoints : List RecoveryCheckpoint
deriving DecidableEq, Repr

/-- Encoder for one checkpoint. -/
def encCheckpoint (c : RecoveryCheckpoint) : List Nat :=
  encNat c.archiveOffset ++ (encNat c.lastFileId ++ encNat c.timestamp)

/-- Modelled from the spec: `RecoveryMap::to_bytes` — serde_json in the
source; the recovery map is written at finalize and never re-read by the
engine, so only totality matters. -/
def RecoveryMap.toBytes (m : RecoveryMap) : List Nat :=
  encListWith encCheckpoint m.checkpoints

/-! ## Block encode/decode pipeline (src/block.rs) -/

/-- Default chunk size: 4 MiB. -/
def DEFAULT_CHUNK_SIZE : Nat := 4 * 1024 * 1024

/-- Default Zstd compression level. -/
def DEFAULT_COMPRESSION_LEVEL : Int := 3

/-- `encode_block`: BLAKE3 the plaintext, compress via the codec, optionally
encrypt (setting `FLAG_ENCRYPTED`), build the header.  `orig_size` and
`comp_size` are `as u32` casts in the source, modelled as `% 2^32`.  The
source's only failure paths are external codec/crypto errors, which the
model's total parameters do not produce. -/
def encodeBlock (p : Params) (blockType : BlockType) (fileId : Nat)
    (fileOffset : Nat) (data : List Nat) (codec : CodecId) (level : Int)
    (encryptionKey : Option (List Nat)) : BlockHeader × List Nat :=
  let contentHash := hash32 p data
  let compressed := p.comp codec level data
  let payload :=
    match encryptionKey with
    | some k => p.encrypt k compressed
    | none => compressed
  let flags :=
    match encryptionKey with
    | some _ => FLAG_ENCRYPTED
    | none => 0
  ({ headerVersion := BLOCK_HEADER_VERSION, blockType := blockType,
     flags := flags, codecUuid := codec.uuid, fileId := fileId,
     fileOffset := fileOffset, origSize := data.length % 2 ^ 32,
     compSize := payload.length % 2 ^ 32, contentHash := contentHash },
   payload)

/-- `decode_block`: decrypt when flagged (requiring a key), resolve the
codec UUID (hard failure when unavailable), decompress, then verify the
BLAKE3 content hash against the header. -/
def decodeBlock (p : Params) (h : BlockHeader) (payload : List Nat)
    (decryptionKey : Option (List Nat)) : Except ArchiveErr (List Nat) :=
  let step1 : Except ArchiveErr (List Nat) :=
    if h.isEncrypted then
      match decryptionKey with
      | none => .error .missingKey
      | some k =>
        match p.decrypt k payload with
        | some c => .ok c
        | none => .error .decryptionFailed
    else .ok payload
  match step1 with
  | .error e => .error e
  | .ok compressed =>
    match CodecId.fromUuid h.codecUuid with
    | none => .error (.unavailableCodec h.codecUuid)
    | some codec =>
      let decompressed := p.decomp codec compressed
      if hash32 p decompressed = h.contentHash then .ok decompressed
      else .error .contentHashMismatch

/-! ## Streaming writer (src/io_stream/mod.rs) -/

/-- Ghost record of one emitted block: its type, codec, plaintext and the
archive offset of its header.  This mirrors exactly the
`header.write` + `write_all(payload)` call sites; it carries no behaviour. -/
structure WLogEntry where
  btype : BlockType
  codec : CodecId
  plain : List Nat
  offset : Nat
deriving DecidableEq, Repr

/-- Write `data` into `file` at byte position `pos` (zero-padding any gap),
as `Write::write_all` after a seek does. -/
def overwriteAt (file : List Nat) (pos : Nat) (data : List Nat) : List Nat :=
  file.take pos ++ List.replicate (pos - file.length) 0 ++ data ++
    file.drop (pos + data.length)

/-- CAS lookup: `HashMap::get` over the association list
`content_hash → (archive_offset, comp_len)`. -/
def dedupLookup (m : List (List Nat × Nat × Nat)) (h : List Nat) :
    Option (Nat × Nat) :=
  match m with
  | [] => none
  | (k, off, len) :: rest =>
      if k = h then some (off, len) else dedupLookup rest h

/-- CAS insert (only ever called on a lookup miss). -/
def dedupInsert (m : List (List Nat × Nat × Nat)) (k : List Nat)
    (off len : Nat) : List (List Nat × Nat × Nat) :=
  m ++ [(k, off, len)]

/-- Writer state (`SixCyWriter`).  `out`/`pos` model the underlying
seekable stream and its position; `writtenLog` is the ghost block log. -/
structure SixCyWriter where
  out : List Nat
  pos : Nat
  superblock : Superblock
  index : FileIndex
  recoveryMap : RecoveryMap
  solidBuffer : List Nat
  solidCodec : Option CodecId
  solidFileRanges : List (Nat × Nat × Nat × List Nat)
  blockDedup : List (List Nat × Nat × Nat)
  chunkSize : Nat
  compressionLevel : Int
  encryptionKey : Option (List Nat)
  writtenLog : List WLogEntry
deriving DecidableEq, Repr

/-- `SixCyWriter::with_options`: reserve 256 zero bytes at offset 0.  The
source draws the archive UUID at random (`Superblock::new`); the model
takes it as a parameter. -/
def SixCyWriter.withOptions (archiveUuid : List Nat) (chunkSize : Nat)
    (level : Int) (encryptionKey : Option (List Nat)) : SixCyWriter :=
  { out := List.replicate SUPERBLOCK_SIZE 0, pos := SUPERBLOCK_SIZE,
    superblock := Superblock.new archiveUuid, index := FileIndex.default,
    recoveryMap := { checkpoints := [] }, solidBuffer := [],
    solidCodec := none, solidFileRanges := [], blockDedup := [],
    chunkSize := max chunkSize 1, compressionLevel := level,
    encryptionKey := encryptionKey, writtenLog := [] }

/-- `SixCyWriter::new` (default options). -/
def SixCyWriter.mkNew (archiveUuid : List Nat) : SixCyWriter :=
  SixCyWriter.withOptions archiveUuid DEFAULT_CHUNK_SIZE
    DEFAULT_COMPRESSION_LEVEL none

/-- Emit one block: header bytes then payload at the current position
(`header.write` + `write_all`), advancing the position and appending the
ghost log entry. -/
def SixCyWriter.emitBlock (w : SixCyWriter) (h : BlockHeader)
    (payload : List Nat) (codec : CodecId) (plain : List Nat) : SixCyWriter :=
  { w with
    out := overwriteAt w.out w.pos (h.writeBytes ++ payload)
    pos := w.pos + 84 + payload.length
    writtenLog := w.writtenLog ++
      [{ btype := h.blockType, codec := codec, plain := plain, offset := w.pos }] }

/-- Replace the first record with the given id (`iter_mut().find(...)`). -/
def updateFirst (recs : List FileIndexRecord) (fid : Nat)
    (f : FileIndexRecord → FileIndexRecord) : List FileIndexRecord :=
  match recs with
  | [] => []
  | r :: rest =>
      if r.id = fid then f r :: rest else r :: updateFirst rest fid f

/-- One step of the back-fill loop in `flush_solid_session`: push a
`BlockRef` naming the solid block's slice onto the first record with the
pending file id, and set its compressed size to the solid payload size. -/
def backfillStep (archiveOffset payloadLen : Nat) (acc : SixCyWriter)
    (t : Nat × Nat × Nat × List Nat) : SixCyWriter :=
  { acc with
    index := { acc.index with
      records := updateFirst acc.index.records t.1
        (fun rec =>
          { rec with
            blockRefs := rec.blockRefs ++
              [{ contentHash := t.2.2.2, archiveOffset := archiveOffset
                 intraOffset := t.2.1, intraLength := t.2.2.1 }]
            compressedSize := payloadLen }) } }

/-- `SixCyWriter::flush_solid_session`: take the codec (no-op when none),
silently clear an empty session, otherwise register the codec, emit one
Solid block and back-fill each pending file's `block_refs`. -/
def SixCyWriter.flushSolidSession (p : Params) (w : SixCyWriter) : SixCyWriter :=
  match w.solidCodec with
  | none => w
  | some codec =>
    let w0 := { w with solidCodec := none }
    if w0.solidBuffer = [] then { w0 with solidFileRanges := [] }
    else
      let w1 := { w0 with superblock := w0.superblock.addRequiredCodec codec }
      let hp := encodeBlock p .Solid FILE_ID_SHARED 0 w1.solidBuffer codec
        w1.compressionLevel w1.encryptionKey
      let archiveOffset := w1.pos
      let payloadLen := hp.2.length
      let w2 := w1.emitBlock hp.1 hp.2 codec w1.solidBuffer
      let w3 := w2.solidFileRanges.foldl (backfillStep archiveOffset payloadLen) w2
      { w3 with solidBuffer := [], solidFileRanges := [] }

/-- `SixCyWriter::start_solid_session`: flush any open session, then install
the codec. -/
def SixCyWriter.startSolidSession (p : Params) (w : SixCyWriter)
    (codec : CodecId) : SixCyWriter :=
  let w1 := w.flushSolidSession p
  { w1 with solidCodec := some codec }

/-- `data.chunks(n)` with explicit fuel (the source's iterator; `n ≥ 1`
always holds since the writer clamps `chunk_size` with `.max(1)`, so fuel
`l.length` suffices). -/
def chunksGo (n : Nat) : Nat → List Nat → List (List Nat)
  | 0, _ => []
  | _ + 1, [] => []
  | fuel + 1, a :: l => (a :: l).take n :: chunksGo n fuel ((a :: l).drop n)

/-- All `chunk_size`-sized chunks of `l` (last may be shorter). -/
def listChunks (n : Nat) (l : List Nat) : List (List Nat) :=
  chunksGo n l.length l

theorem chunksGo_flatten (n : Nat) (hn : 0 < n) :
    ∀ (fuel : Nat) (l : List Nat), l.length ≤ fuel →
      (chunksGo n fuel l).flatten = l := by
  intro fuel
  induction fuel with
  | zero =>
      intro l hl
      have : l = [] := List.eq_nil_of_length_eq_zero (Nat.le_zero.mp hl)
      subst this; rfl
  | succ fuel ih =>
      intro l hl
      cases l with
      | nil => rfl
      | cons a t =>
          simp only [chunksGo, List.flatten_cons]
          rw [ih _ (by simp at hl ⊢; omega)]
          exact List.take_append_drop n (a :: t)

theorem listChunks_flatten (n : Nat) (hn : 0 < n) (l : List Nat) :
    (listChunks n l).flatten = l :=
  chunksGo_flatten n hn l.length l (le_refl _)

/-- The per-chunk loop of `SixCyWriter::add_file` (normal mode): for each
`(chunk_idx, chunk)`, compute the content hash; on a CAS hit append a
zero-intra ref to the existing block (no write), on a miss encode and emit
a new Data block, record it in the CAS table and append a ref.
`file_offset` is `(chunk_idx * chunk_size) as u64` (`% 2^64` models the
64-bit usize arithmetic). -/
def SixCyWriter.addChunksGo (p : Params) (codec : CodecId) (fileId : Nat) :
    List (Nat × List Nat) → SixCyWriter → FileIndexRecord →
    SixCyWriter × FileIndexRecord
  | [], w, rec => (w, rec)
  | (idx, chunk) :: rest, w, rec =>
    let fileOffset := idx * w.chunkSize % 2 ^ 64
    let contentHash := hash32 p chunk
    match dedupLookup w.blockDedup contentHash with
    | some ol =>
        let rec1 := { rec with
          blockRefs := rec.blockRefs ++
            [{ contentHash := contentHash, archiveOffset := ol.1
               intraOffset := 0, intraLength := 0 }]
          compressedSize := rec.compressedSize + ol.2 }
        SixCyWriter.addChunksGo p codec fileId rest w rec1
    | none =>
        let hp := encodeBlock p .Data fileId fileOffset chunk codec
          w.compressionLevel w.encryptionKey
        let archiveOffset := w.pos
        let compLen := hp.2.length
        let w1 := w.emitBlock hp.1 hp.2 codec chunk
        let w2 := { w1 with
          blockDedup := dedupInsert w1.blockDedup contentHash archiveOffset compLen }
        let rec1 := { rec with
          compressedSize := rec.compressedSize + compLen
          blockRefs := rec.blockRefs ++
            [{ contentHash := contentHash, archiveOffset := archiveOffset
               intraOffset := 0, intraLength := 0 }] }
        SixCyWriter.addChunksGo p codec fileId rest w2 rec1

/-- `SixCyWriter::add_file`.  The fresh id is `records.len() as u32`.  In
solid mode the data only accumulates in the buffer; in normal mode the
codec is registered, the data is chunked and written through the CAS, and
a recovery checkpoint is appended (its wall-clock timestamp modelled as 0). -/
def SixCyWriter.addFile (p : Params) (w : SixCyWriter) (name : List Nat)
    (data : List Nat) (codec : CodecId) : SixCyWriter :=
  let fileId := w.index.records.length % 2 ^ 32
  if w.solidCodec.isSome then
    { w with
      solidFileRanges := w.solidFileRanges ++
        [(fileId, w.solidBuffer.length, data.length, hash32 p data)]
      solidBuffer := w.solidBuffer ++ data
      index := { w.index with
        records := w.index.records ++
          [{ id := fileId, parentId := 0, name := name, blockRefs := []
             originalSize := data.length % 2 ^ 64, compressedSize := 0
             metadata := [] }] } }
  else
    let w1 := { w with superblock := w.superblock.addRequiredCodec codec }
    let rec0 : FileIndexRecord :=
      { id := fileId, parentId := 0, name := name, blockRefs := []
        originalSize := data.length % 2 ^ 64, compressedSize := 0
        metadata := [] }
    let wr := SixCyWriter.addChunksGo p codec fileId
      (listChunks w1.chunkSize data).enum w1 rec0
    let w3 := { wr.1 with
      recoveryMap := { checkpoints := wr.1.recoveryMap.checkpoints ++
        [({ archiveOffset := wr.1.pos, lastFileId := fileId, timestamp := 0 } :
          RecoveryCheckpoint)] } }
    { w3 with index := { w3.index with records := w3.index.records ++ [wr.2] } }

/-- `SixCyWriter::finalize`: flush any open solid session, compute the
Merkle root, emit the Index block (always Zstd, never encrypted), write
the length-prefixed recovery map, patch the superblock (index location and
encryption flag) and rewrite it in place at offset 0.  The only failure
modelled is the superblock-capacity panic.  NOTE: the writer state carries
no finalized flag — nothing prevents further operations afterwards. -/
def SixCyWriter.finalize (p : Params) (w : SixCyWriter) :
    Except ArchiveErr SixCyWriter :=
  let w1 := w.flushSolidSession p
  let idx := w1.index.computeRootHash p
  let w2 := { w1 with index := idx }
  let indexPayload := idx.toBytes
  let hp := encodeBlock p .Index FILE_ID_SHARED 0 indexPayload .Zstd
    DEFAULT_COMPRESSION_LEVEL none
  let indexOffset := w2.pos
  let w3 := w2.emitBlock hp.1 hp.2 .Zstd indexPayload
  let recoveryBytes := w3.recoveryMap.toBytes
  let w4 := { w3 with
    out := overwriteAt w3.out w3.pos (leBytes 8 recoveryBytes.length ++ recoveryBytes)
    pos := w3.pos + 8 + recoveryBytes.length }
  let sb1 := { w4.superblock with
    indexOffset := indexOffset, indexSize := hp.2.length }
  let sb2 :=
    if w4.encryptionKey.isSome then
      { sb1 with flags := sb1.flags ||| SB_FLAG_ENCRYPTED }
    else sb1
  match sb2.write with
  | .error e => .error e
  | .ok sbBytes =>
      .ok { w4 with
        superblock := sb2
        out := overwriteAt w4.out 0 sbBytes
        pos := SUPERBLOCK_SIZE }

/-! ## Streaming reader (src/io_stream/mod.rs) -/

/-- Reader state (`SixCyReader`): the underlying stream is modelled by the
full archive byte list. -/
structure SixCyReader where
  file : List Nat
  superblock : Superblock
  index : FileIndex
  decryptionKey : Option (List Nat)
deriving Repr

/-- `read_exact` into an `n`-byte buffer from the front of `l`. -/
def readExact (l : List Nat) (n : Nat) : Except ArchiveErr (List Nat) :=
  if l.length < n then .error .truncated else .ok (l.take n)

/-- `SixCyReader::with_key`: read the superblock (which itself checks codec
availability), seek to `index_offset`, read the Index block header, read
exactly `comp_size` payload bytes, decode the block (no key — the index is
never encrypted), deserialize the index. -/
def SixCyReader.withKey (p : Params) (file : List Nat)
    (key : Option (List Nat)) : Except ArchiveErr SixCyReader :=
  match Superblock.read file with
  | .error e => .error e
  | .ok sb =>
    match BlockHeader.read (file.drop sb.indexOffset) with
    | .error e => .error e
    | .ok idxHeader =>
      match readExact (file.drop (sb.indexOffset + 84)) idxHeader.compSize with
      | .error e => .error e
      | .ok idxPayload =>
        match decodeBlock p idxHeader idxPayload none with
        | .error e => .error e
        | .ok idxRaw =>
          match FileIndex.fromBytes idxRaw with
          | .error e => .error e
          | .ok index =>
              .ok { file := file, superblock := sb, index := index,
                    decryptionKey := key }

/-- `SixCyReader::read_block_at`: seek to `offset`, read and validate the
84-byte header, then read exactly `comp_size` payload bytes.  The payload
read starts immediately after the 84 header bytes, whatever `header_size`
the header declared. -/
def SixCyReader.readBlockAt (file : List Nat) (offset : Nat) :
    Except ArchiveErr (BlockHeader × List Nat) :=
  match BlockHeader.read (file.drop offset) with
  | .error e => .error e
  | .ok header =>
    match readExact (file.drop (offset + 84)) header.compSize with
    | .error e => .error e
    | .ok payload => .ok (header, payload)

/-- `SixCyReader::decompress_ref`: fetch and decode the referenced block;
slice `[intra_offset, intra_offset + intra_length)` for solid refs. -/
def SixCyReader.decompressRef (p : Params) (file : List Nat)
    (key : Option (List Nat)) (br : BlockRef) : Except ArchiveErr (List Nat) :=
  match SixCyReader.readBlockAt file br.archiveOffset with
  | .error e => .error e
  | .ok hpair =>
    match decodeBlock p hpair.1 hpair.2 key with
    | .error e => .error e
    | .ok decompressed =>
      if br.isSolidSlice then
        if decompressed.length < br.intraOffset + br.intraLength then
          .error .solidRangeOutOfBounds
        else .ok ((decompressed.drop br.intraOffset).take br.intraLength)
      else .ok decompressed

/-- The concatenation loop of `unpack_file`. -/
def unpackRefs (p : Params) (file : List Nat) (key : Option (List Nat)) :
    List BlockRef → Except ArchiveErr (List Nat)
  | [] => .ok []
  | br :: rest =>
    match SixCyReader.decompressRef p file key br with
    | .error e => .error e
    | .ok chunk =>
      match unpackRefs p file key rest with
      | .error e => .error e
      | .ok more => .ok (chunk ++ more)

/-- `SixCyReader::unpack_file`: locate the record by id, decode every ref,
concatenate in ref order. -/
def SixCyReader.unpackFile (p : Params) (r : SixCyReader) (fileId : Nat) :
    Except ArchiveErr (List Nat) :=
  match r.index.records.find? (fun rec => rec.id = fileId) with
  | none => .error .notFound
  | some record => unpackRefs p r.file r.decryptionKey record.blockRefs

/-- The block-walking loop of `read_at`: skip refs entirely before `offset`,
copy from the first overlapping block onward until the buffer is full.  The
returned list models the bytes copied into the caller's buffer. -/
def readAtGo (p : Params) (file : List Nat) (key : Option (List Nat))
    (offset bufLen : Nat) :
    List BlockRef → Nat → List Nat → Except ArchiveErr (List Nat)
  | [], _, acc => .ok acc
  | br :: rest, filePos, acc =>
    if acc.length = bufLen then .ok acc
    else
      match SixCyReader.decompressRef p file key br with
      | .error e => .error e
      | .ok block =>
        let blockEnd := filePos + block.length
        if blockEnd ≤ offset then readAtGo p file key offset bufLen rest blockEnd acc
        else
          let readStart := if filePos < offset then offset - filePos else 0
          let toCopy := min (bufLen - acc.length) (block.length - readStart)
          readAtGo p file key offset bufLen rest blockEnd
            (acc ++ (block.drop readStart).take toCopy)

/-- `SixCyReader::read_at`: random-access read of up to `bufLen` bytes
starting at logical `offset` of the file identified by `fileId`. -/
def SixCyReader.readAt (p : Params) (r : SixCyReader) (fileId offset bufLen : Nat) :
    Except ArchiveErr (List Nat) :=
  match r.index.records.find? (fun rec => rec.id = fileId) with
  | none => .error .notFound
  | some record =>
    if record.originalSize ≤ offset ∨ bufLen = 0 then .ok []
    else readAtGo p r.file r.decryptionKey offset bufLen record.blockRefs 0 []

/-! ## High-level archive API (src/archive.rs), read mode -/

/-- `FileInfo` descriptor. -/
structure FileInfo where
  id : Nat
  name : List Nat
  originalSize : Nat
  compressedSize : Nat
  blockCount : Nat
  firstBlockHash : Option (List Nat)
deriving DecidableEq, Repr

/-- `FileInfo::from(&FileIndexRecord)`. -/
def FileInfo.ofRecord (r : FileIndexRecord) : FileInfo :=
  { id := r.id, name := r.name, originalSize := r.originalSize,
    compressedSize := r.compressedSize, blockCount := r.blockRefs.length,
    firstBlockHash := r.blockRefs.head?.map BlockRef.contentHash }

/-- `Archive::list` (read mode): records in index order. -/
def Archive.listR (r : SixCyReader) : List FileInfo :=
  r.index.records.map FileInfo.ofRecord

/-- `Archive::stat`: first listed entry whose name matches. -/
def Archive.statR (r : SixCyReader) (name : List Nat) : Option FileInfo :=
  (Archive.listR r).find? (fun f => f.name = name)

/-- `Archive::read_file` (read mode): resolve the name via `stat`, then
unpack by id. -/
def Archive.readFileR (p : Params) (r : SixCyReader) (name : List Nat) :
    Except ArchiveErr (List Nat) :=
  match Archive.statR r name with
  | none => .error .notFound
  | some info => SixCyReader.unpackFile p r info.id

/-- `Archive::read_at` (read mode): resolve the name via `stat`, then
random-access read by id. -/
def Archive.readAtR (p : Params) (r : SixCyReader) (name : List Nat)
    (offset bufLen : Nat) : Except ArchiveErr (List Nat) :=
  match Archive.statR r name with
  | none => .error .notFound
  | some info => SixCyReader.readAt p r info.id offset bufLen

/-! ## Concrete parameter instantiation for witnesses

An executable instantiation of the abstract primitives: a simple injective
accumulator hash and identity codecs (which satisfy the codec round-trip
contract).  Used only to witness the parametric theorems at concrete
inputs. -/

/-- A concrete 32-byte hash for witnesses. -/
def testHash (d : List Nat) : List Nat :=
  leBytes 32 (d.foldl (fun a b => a * 1000003 + b + 1) 7)

/-- Concrete `Params` for witnesses: identity codecs and ciphers. -/
def testParams : Params :=
  { hash := testHash, comp := fun _ _ d => d, decomp := fun _ d => d,
    encrypt := fun _ d => d, decrypt := fun _ d => some d }

/-! ## Recovery scanner (src/recovery/scanner.rs) -/

/-- Health verdict for one scanned block (`BlockHealth`). -/
inductive BlockHealth where
  | Healthy
  | HeaderCorrupt
  | TruncatedPayload (declared : Nat) (available : Nat)
  | UnknownCodec (uuid : List Nat)
deriving DecidableEq, Repr

/-- `BlockHealth::is_usable`. -/
def BlockHealth.isUsable : BlockHealth → Bool
  | .Healthy => true
  | _ => false

/-- Diagnostic record for one scanned position (`ScannedBlock`). -/
structure ScannedBlock where
  archiveOffset : Nat
  header : Option BlockHeader
  health : BlockHealth
deriving DecidableEq, Repr

/-- Overall scan quality (`RecoveryQuality`). -/
inductive RecoveryQuality where
  | Full
  | Partial
  | HeaderOnly
  | Catastrophic
deriving DecidableEq, Repr

/-- Scan report (`RecoveryReport`). -/
structure RecoveryReport where
  totalScanned : Nat
  healthyBlocks : Nat
  corruptBlocks : Nat
  truncatedBlocks : Nat
  unknownCodecBlocks : Nat
  bytesScanned : Nat
  blockLog : List ScannedBlock
  index : FileIndex
  recoverableBytes : Nat
  quality : RecoveryQuality
deriving DecidableEq, Repr

/-- Mutable state of the scan loop. -/
structure ScanState where
  pos : Nat
  totalScanned : Nat
  healthyBlocks : Nat
  corruptBlocks : Nat
  truncatedBlocks : Nat
  unknownCodecBlocks : Nat
  recoverableBytes : Nat
  bytesScanned : Nat
  blockLog : List ScannedBlock
  chunks : List (Nat × Nat × ScannedBlock)
deriving DecidableEq, Repr

/-- One pass of the scan loop, with explicit fuel.  The position strictly
increases every iteration (by 1 after a corrupt header, by 84 + payload
otherwise) and the loop stops as soon as 84 header bytes are no longer
available, so fuel `file.length + 1` can never be exhausted. -/
def scanGo (file : List Nat) (hint : Nat) : Nat → ScanState → ScanState
  | 0, st => st
  | fuel + 1, st =>
    let pos := st.pos
    if (file.drop pos).length < 84 then st
    else
      let st1 := { st with
        bytesScanned := st.bytesScanned + 84
        totalScanned := st.totalScanned + 1 }
      match BlockHeader.read (file.drop pos) with
      | .error _ =>
          scanGo file hint fuel { st1 with
            corruptBlocks := st1.corruptBlocks + 1
            blockLog := st1.blockLog ++
              [{ archiveOffset := pos, header := none, health := .HeaderCorrupt }]
            pos := pos + 1
            bytesScanned := pos + 1 + 84 }
      | .ok header =>
          let compSize := header.compSize
          let unknown := (CodecId.fromUuid header.codecUuid).isNone ∧
            header.codecUuid ≠ UUID_NONE
          let streamPos := pos + 84
          let remaining :=
            if hint > streamPos then hint - streamPos
            else if file.length > streamPos then file.length - streamPos else 0
          let hst : BlockHealth × ScanState :=
            if unknown then
              (.UnknownCodec header.codecUuid,
               { st1 with unknownCodecBlocks := st1.unknownCodecBlocks + 1 })
            else if remaining < compSize then
              (.TruncatedPayload compSize remaining,
               { st1 with truncatedBlocks := st1.truncatedBlocks + 1 })
            else
              (.Healthy,
               { st1 with
                 healthyBlocks := st1.healthyBlocks + 1
                 recoverableBytes := st1.recoverableBytes + header.origSize })
          let health := hst.1
          let st2 := hst.2
          let usable := health.isUsable ∧ header.blockType = .Data
          let st3 :=
            if usable then
              { st2 with chunks := st2.chunks ++
                [(header.fileId, header.fileOffset,
                  { archiveOffset := pos, header := some header, health := health })] }
            else st2
          let st4 := { st3 with
            blockLog := st3.blockLog ++
              [{ archiveOffset := pos, header := some header, health := health }]
            pos := pos + 84 + compSize
            bytesScanned := st3.bytesScanned + compSize }
          if header.blockType = .Index then st4
          else scanGo file hint fuel st4

/-- Stable insertion into a sorted list: the new element goes after every
existing element `y` with `le y x`, preserving the relative order of equal
keys (the stability guarantee of Rust's `sort_by_key`). -/
def insertStable (le : α → α → Bool) (x : α) : List α → List α
  | [] => [x]
  | y :: ys => if le y x then y :: insertStable le x ys else x :: y :: ys

/-- Stable sort (models the source's stable `sort_by_key`). -/
def sortStable (le : α → α → Bool) (l : List α) : List α :=
  l.foldl (fun acc x => insertStable le x acc) []

/-- Distinct file ids, in ascending order (models iterating the per-file
`HashMap` followed by `records.sort_by_key(|r| r.id)`). -/
def sortedFileIds (chunks : List (Nat × Nat × ScannedBlock)) : List Nat :=
  sortStable (fun a b => a ≤ b) (chunks.map (fun c => c.1)).dedup

/-- Build the reconstructed records from the accumulated usable Data
blocks: group by file id, sort each group by `file_offset` (stable),
synthesize a record per id with `original_size` the maximum observed
`file_offset + orig_size`. -/
def scanAssembleRecords (chunks : List (Nat × Nat × ScannedBlock)) :
    List FileIndexRecord :=
  (sortedFileIds chunks).map (fun fid =>
    let entries := chunks.filter (fun c => c.1 = fid)
    let sorted := sortStable (fun a b => a.2.1 ≤ b.2.1) entries
    let refs := sorted.map (fun c =>
      { contentHash := (c.2.2.header.map BlockHeader.contentHash).getD
          (List.replicate 32 0)
        archiveOffset := c.2.2.archiveOffset
        intraOffset := 0, intraLength := 0 : BlockRef })
    let size := entries.foldl (fun acc c =>
      max acc ((c.2.2.header.map
        (fun h => h.fileOffset + h.origSize)).getD 0)) 0
    FileIndexRecord.fromScan fid size refs)

/-- The source's quality determination (the `match` at the end of `scan`):
zero candidates → Catastrophic; empty reconstruction → HeaderOnly; then the
95% / 50% healthy thresholds.  The source compares `f64` ratios
(`healthy / total ≥ 0.95`); the model uses the exact rational comparison
`healthy * 100 ≥ total * 95`, which agrees with the `f64` computation for
all counts reachable from genuine scans (counts far below 2^52). -/
def determineQuality (totalScanned healthyBlocks : Nat) (recordsEmpty : Bool) :
    RecoveryQuality :=
  if totalScanned = 0 then .Catastrophic
  else if recordsEmpty then .HeaderOnly
  else if healthyBlocks * 100 ≥ totalScanned * 95 then .Full
  else if healthyBlocks * 100 ≥ totalScanned * 50 then .Partial
  else .Catastrophic

/-- `scan` (src/recovery/scanner.rs): walk headers from offset 256,
classify each candidate, reconstruct records from usable Data blocks,
compute the root hash and rate the overall quality.  The progress callback
is pure observation and is omitted. -/
def scan (p : Params) (file : List Nat) (hint : Nat) : RecoveryReport :=
  let st0 : ScanState :=
    { pos := SUPERBLOCK_SIZE, totalScanned := 0, healthyBlocks := 0,
      corruptBlocks := 0, truncatedBlocks := 0, unknownCodecBlocks := 0,
      recoverableBytes := 0, bytesScanned := SUPERBLOCK_SIZE,
      blockLog := [], chunks := [] }
  let st := scanGo file hint (file.length + 1) st0
  let records := scanAssembleRecords st.chunks
  let idx := FileIndex.computeRootHash p
    { records := records, rootHash := List.replicate 32 0 }
  { totalScanned := st.totalScanned, healthyBlocks := st.healthyBlocks,
    corruptBlocks := st.corruptBlocks, truncatedBlocks := st.truncatedBlocks,
    unknownCodecBlocks := st.unknownCodecBlocks,
    bytesScanned := st.bytesScanned, blockLog := st.blockLog, index := idx,
    recoverableBytes := st.recoverableBytes,
    quality := determineQuality st.totalScanned st.healthyBlocks
      idx.records.isEmpty }

/-- `scan_file`: scan with the file's size as the hint. -/
def scanFile (p : Params) (file : List Nat) : RecoveryReport :=
  scan p file file.length

deriving instance DecidableEq for Except

/-! ## Claim theorems -/

/-- C2: whenever the superblock's required-codec list contains a UUID not
recognised by this build, opening the archive fails with `UnavailableCodec`,
and the failure depends only on the 256 superblock bytes: the bytes after
them (`rest`) are arbitrary — no block header or payload is touched. -/
theorem c2_unavailable_codec_fails_before_blocks
    (p : Params) (sb : Superblock) (b rest : List Nat)
    (key : Option (List Nat)) (u : List Nat)
    (hWF : sb.WF) (hw : sb.write = .ok b)
    (hunknown : firstUnknownUuid sb.requiredCodecUuids = some u) :
    SixCyReader.withKey p (b ++ rest) key = .error (.unavailableCodec u) := by
  unfold SixCyReader.withKey Superblock.read
  rw [Superblock.parse_write sb hWF hw rest]
  dsimp only
  unfold Superblock.checkCodecs
  rw [hunknown]

/-- A crafted superblock requiring one UUID unknown to this build. -/
def c2Sb : Superblock :=
  { Superblock.new (List.replicate 16 7) with
    requiredCodecUuids := [1 :: List.replicate 15 0] }

/-- The 256 bytes `Superblock::write` produces for `c2Sb`. -/
def c2SbBytes : List Nat := (c2Sb.write).toOption.getD []

/-- C2 witness: opening a stream whose superblock requires the unknown UUID
`01 00 … 00`, followed by arbitrary junk, fails with exactly that UUID. -/
theorem c2_witness :
    SixCyReader.withKey testParams (c2SbBytes ++ [0, 1, 2, 3]) none =
      .error (.unavailableCodec (1 :: List.replicate 15 0)) :=
  c2_unavailable_codec_fails_before_blocks testParams c2Sb c2SbBytes
    [0, 1, 2, 3] none (1 :: List.replicate 15 0)
    (by unfold Superblock.WF; decide) rfl (by decide)

/-- An on-disk header image as a future-format writer would produce it:
identical to `BlockHeader::write` except that it declares `header_size = hs`
(with `hs − 84` bytes of extension data to follow after the 84 fixed
bytes). -/
def rawHeaderBytes (hs : Nat) (h : BlockHeader) : List Nat :=
  let body := leBytes 4 BLOCK_MAGIC ++ (leBytes 2 BLOCK_HEADER_VERSION ++
    (leBytes 2 hs ++ (leBytes 2 h.blockType.toU16 ++
    (leBytes 2 h.flags ++ (h.codecUuid ++ (leBytes 4 h.fileId ++
    (leBytes 8 h.fileOffset ++ (leBytes 4 h.origSize ++ (leBytes 4 h.compSize ++
    h.contentHash)))))))))
  body ++ leBytes 4 (crc32 body)

theorem rawHeaderBytes_length (hs : Nat) (h : BlockHeader)
    (hcu : h.codecUuid.length = 16) (hch : h.contentHash.length = 32) :
    (rawHeaderBytes hs h).length = 84 := by
  simp [rawHeaderBytes, leBytes_length, hcu, hch]

/-- `BlockHeader::read` accepts any declared `header_size ≥ 84` and returns
the parsed fields — consuming exactly 84 bytes, never the declared
extension. -/
theorem BlockHeader.read_rawHeaderBytes (hs : Nat) (h : BlockHeader)
    (hWF : h.WF) (hhs84 : 84 ≤ hs) (hhs16 : hs < 2 ^ 16) (rest : List Nat) :
    BlockHeader.read (rawHeaderBytes hs h ++ rest) = .ok h := by
  obtain ⟨hv, hfl, hcu, hfid, hfo, hos, hcs, hch⟩ := hWF
  have hbody : (leBytes 4 BLOCK_MAGIC ++ (leBytes 2 BLOCK_HEADER_VERSION ++ (leBytes 2 hs ++ (leBytes 2 h.blockType.toU16 ++ (leBytes 2 h.flags ++ (h.codecUuid ++ (leBytes 4 h.fileId ++ (leBytes 8 h.fileOffset ++ (leBytes 4 h.origSize ++ (leBytes 4 h.compSize ++ (h.contentHash))))))))))).length = 80 := by
    simp [leBytes_length, hcu, hch]
  have hwbLen : (rawHeaderBytes hs h).length = 84 :=
    rawHeaderBytes_length hs h hcu hch
  have hnotlt : ¬ ((rawHeaderBytes hs h ++ rest).length < 84) := by
    rw [List.length_append, hwbLen]; omega
  have htake : (rawHeaderBytes hs h ++ rest).take 84 = rawHeaderBytes hs h := by
    rw [← hwbLen]; exact List.take_left _ _
  unfold BlockHeader.read
  rw [if_neg hnotlt, htake]
  unfold rawHeaderBytes
  dsimp only
  have htake80 : ((leBytes 4 BLOCK_MAGIC ++ (leBytes 2 BLOCK_HEADER_VERSION ++ (leBytes 2 hs ++ (leBytes 2 h.blockType.toU16 ++ (leBytes 2 h.flags ++ (h.codecUuid ++ (leBytes 4 h.fileId ++ (leBytes 8 h.fileOffset ++ (leBytes 4 h.origSize ++ (leBytes 4 h.compSize ++ (h.contentHash))))))))))) ++ leBytes 4 (crc32 (leBytes 4 BLOCK_MAGIC ++ (leBytes 2 BLOCK_HEADER_VERSION ++ (leBytes 2 hs ++ (leBytes 2 h.blockType.toU16 ++ (leBytes 2 h.flags ++ (h.codecUuid ++ (leBytes 4 h.fileId ++ (leBytes 8 h.fileOffset ++ (leBytes 4 h.origSize ++ (leBytes 4 h.compSize ++ (h.contentHash))))))))))))).take 80 = leBytes 4 BLOCK_MAGIC ++ (leBytes 2 BLOCK_HEADER_VERSION ++ (leBytes 2 hs ++ (leBytes 2 h.blockType.toU16 ++ (leBytes 2 h.flags ++ (h.codecUuid ++ (leBytes 4 h.fileId ++ (leBytes 8 h.fileOffset ++ (leBytes 4 h.origSize ++ (leBytes 4 h.compSize ++ (h.contentHash)))))))))) := by
    rw [← hbody]; exact List.take_left _ _
  have hdrop80 : ((leBytes 4 BLOCK_MAGIC ++ (leBytes 2 BLOCK_HEADER_VERSION ++ (leBytes 2 hs ++ (leBytes 2 h.blockType.toU16 ++ (leBytes 2 h.flags ++ (h.codecUuid ++ (leBytes 4 h.fileId ++ (leBytes 8 h.fileOffset ++ (leBytes 4 h.origSize ++ (leBytes 4 h.compSize ++ (h.contentHash))))))))))) ++ leBytes 4 (crc32 (leBytes 4 BLOCK_MAGIC ++ (leBytes 2 BLOCK_HEADER_VERSION ++ (leBytes 2 hs ++ (leBytes 2 h.blockType.toU16 ++ (leBytes 2 h.flags ++ (h.codecUuid ++ (leBytes 4 h.fileId ++ (leBytes 8 h.fileOffset ++ (leBytes 4 h.origSize ++ (leBytes 4 h.compSize ++ (h.contentHash))))))))))))).drop 80 = leBytes 4 (crc32 (leBytes 4 BLOCK_MAGIC ++ (leBytes 2 BLOCK_HEADER_VERSION ++ (leBytes 2 hs ++ (leBytes 2 h.blockType.toU16 ++ (leBytes 2 h.flags ++ (h.codecUuid ++ (leBytes 4 h.fileId ++ (leBytes 8 h.fileOffset ++ (leBytes 4 h.origSize ++ (leBytes 4 h.compSize ++ (h.contentHash)))))))))))) := by
    rw [← hbody]; exact List.drop_left _ _
  rw [htake80, hdrop80]
  have hstored : leDecode (leBytes 4 (crc32 (leBytes 4 BLOCK_MAGIC ++ (leBytes 2 BLOCK_HEADER_VERSION ++ (leBytes 2 hs ++ (leBytes 2 h.blockType.toU16 ++ (leBytes 2 h.flags ++ (h.codecUuid ++ (leBytes 4 h.fileId ++ (leBytes 8 h.fileOffset ++ (leBytes 4 h.origSize ++ (leBytes 4 h.compSize ++ (h.contentHash))))))))))))) = crc32 (leBytes 4 BLOCK_MAGIC ++ (leBytes 2 BLOCK_HEADER_VERSION ++ (leBytes 2 hs ++ (leBytes 2 h.blockType.toU16 ++ (leBytes 2 h.flags ++ (h.codecUuid ++ (leBytes 4 h.fileId ++ (leBytes 8 h.fileOffset ++ (leBytes 4 h.origSize ++ (leBytes 4 h.compSize ++ (h.contentHash))))))))))) := by
    apply leDecode_leBytes_of_lt
    have h32 : (2 : Nat) ^ (8 * 4) = 2 ^ 32 := by norm_num
    rw [h32]; exact crc32_lt _
  rw [hstored]
  rw [if_neg (not_ne_iff.mpr rfl)]
  rw [readN_append _ (leBytes_length 4 BLOCK_MAGIC)]
  simp only
  rw [if_neg (by rw [leDecode_leBytes_of_lt (by norm_num [BLOCK_MAGIC])]; exact not_ne_iff.mpr rfl)]
  rw [readN_append _ (leBytes_length 2 BLOCK_HEADER_VERSION)]
  simp only
  rw [if_neg (by rw [leDecode_leBytes_of_lt (by norm_num [BLOCK_HEADER_VERSION])]; exact not_ne_iff.mpr rfl)]
  rw [readN_append _ (leBytes_length 2 hs)]
  simp only
  rw [if_neg (by rw [leDecode_leBytes_of_lt (by simpa using hhs16)]; omega)]
  rw [readN_append _ (leBytes_length 2 h.blockType.toU16)]
  simp only
  have hbt : leDecode (leBytes 2 h.blockType.toU16) = h.blockType.toU16 := by
    apply leDecode_leBytes_of_lt
    cases h.blockType <;> norm_num [BlockType.toU16]
  rw [hbt, BlockType.fromU16_toU16]
  rw [readN_append _ (leBytes_length 2 h.flags)]
  simp only
  rw [readN_append _ hcu]
  simp only
  rw [readN_append _ (leBytes_length 4 h.fileId)]
  simp only
  rw [readN_append _ (leBytes_length 8 h.fileOffset)]
  simp only
  rw [readN_append _ (leBytes_length 4 h.origSize)]
  simp only
  rw [readN_append _ (leBytes_length 4 h.compSize)]
  simp only
  have hfl2 : leDecode (leBytes 2 h.flags) = h.flags :=
    leDecode_leBytes_of_lt (by simpa using hfl)
  have hfi2 : leDecode (leBytes 4 h.fileId) = h.fileId :=
    leDecode_leBytes_of_lt (by simpa using hfid)
  have hfo2 : leDecode (leBytes 8 h.fileOffset) = h.fileOffset :=
    leDecode_leBytes_of_lt (by simpa using hfo)
  have hos2 : leDecode (leBytes 4 h.origSize) = h.origSize :=
    leDecode_leBytes_of_lt (by simpa using hos)
  have hcs2 : leDecode (leBytes 4 h.compSize) = h.compSize :=
    leDecode_leBytes_of_lt (by simpa using hcs)
  have hch2 : h.contentHash.take 32 = h.contentHash :=
    List.take_of_length_le (le_of_eq hch)
  rw [hfl2, hfi2, hfo2, hos2, hcs2, hch2]
  cases h with
  | mk hv2 bt fl cu fi fo os cs chs =>
      simp only at hv ⊢
      rw [hv]

/-- The crafted Data block header for C5: `header_size = 85`, `comp_size =
3`, all other fields trivial. -/
def c5Header : BlockHeader :=
  { headerVersion := 1, blockType := .Data, flags := 0,
    codecUuid := UUID_NONE, fileId := 0, fileOffset := 0,
    origSize := 3, compSize := 3, contentHash := List.replicate 32 0 }

/-- An archive image carrying that block at offset 256: header declaring
`header_size = 85`, one extension byte `0xEE`, then the 3 true payload
bytes. -/
def c5File : List Nat :=
  List.replicate 256 0 ++ (rawHeaderBytes 85 c5Header ++ ([0xEE] ++ [1, 2, 3]))

/-- C5: the reader accepts `header_size = 85` (CRC, magic and version all
validate) but performs no skip: the payload bytes it returns begin at the
extension byte `0xEE` instead of after it, so such blocks decode from the
wrong bytes.  This contradicts the spec and the source's own comments —
recorded as a code bug. -/
theorem c5_no_extension_skip :
    SixCyReader.readBlockAt c5File 256 = .ok (c5Header, [0xEE, 1, 2]) ∧
    ([0xEE, 1, 2] : List Nat) ≠ [1, 2, 3] := by
  have hWF : c5Header.WF := by unfold BlockHeader.WF; decide
  have hdrop256 : c5File.drop 256 = rawHeaderBytes 85 c5Header ++ ([0xEE] ++ [1, 2, 3]) := by
    unfold c5File
    rw [show (256 : Nat) = (List.replicate 256 (0 : Nat)).length by simp]
    exact List.drop_left _ _
  have hread : BlockHeader.read (c5File.drop 256) = .ok c5Header := by
    rw [hdrop256]
    exact BlockHeader.read_rawHeaderBytes 85 c5Header hWF (by omega) (by norm_num) _
  have hlen84 : (rawHeaderBytes 85 c5Header).length = 84 :=
    rawHeaderBytes_length 85 c5Header (by decide) (by decide)
  have hdrop340 : c5File.drop 340 = [0xEE, 1, 2, 3] := by
    have h1 : c5File.drop 340 = (c5File.drop 256).drop 84 := by
      rw [List.drop_drop]
    rw [h1, hdrop256, ← hlen84, List.drop_left]
    rfl
  constructor
  · unfold SixCyReader.readBlockAt
    rw [hread]
    dsimp only
    rw [show (256 : Nat) + 84 = 340 by norm_num, hdrop340]
    rfl
  · decide

/-- C6 counterexample: a superblock requiring 13 codec UUIDs — which the
claim says should still write successfully — makes `Superblock::write`
fail (the source `assert!` panics: 50 + 13·16 = 258 > 256). -/
def c6Sb13 : Superblock :=
  { Superblock.new (List.replicate 16 9) with
    requiredCodecUuids := List.replicate 13 UUID_ZSTD }

theorem c6_thirteen_codecs_fail :
    c6Sb13.requiredCodecUuids.length = 13 ∧
    c6Sb13.write = .error .tooManyRequiredCodecs := by
  refine ⟨by decide, rfl⟩

/-- C6 (amended): the 256-byte layout bounds the required-codec list by
⌊(256 − 46 − 4) / 16⌋ = 12 entries (not 13): writing succeeds exactly for
lists of at most 12 UUIDs. -/
theorem c6_write_succeeds_iff_at_most_twelve (sb : Superblock) (hWF : sb.WF) :
    (sb.write).isOk = true ↔ sb.requiredCodecUuids.length ≤ 12 :=
  Superblock.write_isOk_iff sb hWF

/-- A small well-formed superblock with one required codec. -/
def c6Sb1 : Superblock :=
  { Superblock.new (List.replicate 16 9) with
    requiredCodecUuids := [UUID_ZSTD] }

/-- C6 witness: the amended bound at a concrete superblock — one required
codec, write succeeds. -/
theorem c6_witness :
    ((c6Sb1.write).isOk = true ↔ c6Sb1.requiredCodecUuids.length ≤ 12) :=
  c6_write_succeeds_iff_at_most_twelve c6Sb1 (by unfold Superblock.WF; decide)

/-- C9: `read_at` returns `Ok` with zero bytes — not an error — whenever
the requested offset is at or past the record's `original_size` or the
destination buffer is empty.  The reader's stream contents are arbitrary
(`r.file` is unconstrained), so no block is fetched or decoded. -/
theorem c9_read_at_short_circuit (p : Params) (r : SixCyReader)
    (fileId offset bufLen : Nat) (rec : FileIndexRecord)
    (hfind : r.index.records.find? (fun q => q.id = fileId) = some rec)
    (hcond : rec.originalSize ≤ offset ∨ bufLen = 0) :
    SixCyReader.readAt p r fileId offset bufLen = .ok [] := by
  unfold SixCyReader.readAt
  rw [hfind]
  dsimp only
  rw [if_pos hcond]

/-- A record whose block ref points at a hole, inside a reader whose stream
is empty: any attempt to fetch would fail, so `Ok []` shows none happens. -/
def c9Rec : FileIndexRecord :=
  { id := 5, parentId := 0, name := [120], originalSize := 5,
    compressedSize := 1,
    blockRefs := [{ contentHash := List.replicate 32 0, archiveOffset := 999,
                    intraOffset := 0, intraLength := 0 }],
    metadata := [] }

/-- Reader with an empty underlying stream. -/
def c9Reader : SixCyReader :=
  { file := [], superblock := Superblock.new (List.replicate 16 7),
    index := { records := [c9Rec], rootHash := List.replicate 32 0 },
    decryptionKey := none }

/-- C9 witness: offset 7 ≥ original_size 5 yields `Ok []` even though the
stream is empty and the record's only ref points at byte 999. -/
theorem c9_witness :
    SixCyReader.readAt testParams c9Reader 5 7 3 = .ok [] :=
  c9_read_at_short_circuit testParams c9Reader 5 7 3 c9Rec (by decide)
    (Or.inl (by decide))

/-- A fresh writer holding one file (`"a"` = 2 bytes, None codec). -/
def c4W1 : SixCyWriter :=
  (SixCyWriter.mkNew (List.replicate 16 7)).addFile testParams [97]
    [104, 105] CodecId.None

/-- The writer after its first `finalize`. -/
def c4W2 : SixCyWriter := (c4W1.finalize testParams).toOption.getD c4W1

/-- The writer after a second `finalize`. -/
def c4W3 : SixCyWriter := (c4W2.finalize testParams).toOption.getD c4W2

set_option maxRecDepth 6000 in
/-- C4 (code bug): the writer has no terminal state — a second `finalize`
also returns success (no state error exists in `SixCyWriter`), and it
overwrites the finalized archive: the stream position after the first
finalize is 256, so the second finalize writes its Index block over the
first Data block.  Byte 264 (the `block_type` field of the block at offset
256) flips from 0 (Data) to 1 (Index). -/
theorem c4_second_finalize_succeeds_and_corrupts :
    c4W1.finalize testParams = .ok c4W2 ∧
    c4W2.finalize testParams = .ok c4W3 ∧
    c4W2.pos = 256 ∧
    c4W2.out.get? 264 = some 0 ∧
    c4W3.out.get? 264 = some 1 := by
  refine ⟨rfl, rfl, rfl, by decide, by decide⟩

theorem addChunksGo_index (p : Params) (c : CodecId) (f : Nat)
    (l : List (Nat × List Nat)) (w : SixCyWriter) (r : FileIndexRecord) :
    (SixCyWriter.addChunksGo p c f l w r).1.index = w.index := by
  induction l generalizing w r with
  | nil => rfl
  | cons hd tl ih =>
      obtain ⟨idx, chunk⟩ := hd
      unfold SixCyWriter.addChunksGo
      cases hdl : dedupLookup w.blockDedup (hash32 p chunk) with
      | some ol => simp only [hdl]; rw [ih]
      | none => simp only [hdl]; rw [ih]; rfl

theorem addChunksGo_rec_const (p : Params) (c : CodecId) (f : Nat)
    (l : List (Nat × List Nat)) (w : SixCyWriter) (r : FileIndexRecord) :
    (SixCyWriter.addChunksGo p c f l w r).2.id = r.id ∧
    (SixCyWriter.addChunksGo p c f l w r).2.name = r.name := by
  induction l generalizing w r with
  | nil => exact ⟨rfl, rfl⟩
  | cons hd tl ih =>
      obtain ⟨idx, chunk⟩ := hd
      unfold SixCyWriter.addChunksGo
      cases hdl : dedupLookup w.blockDedup (hash32 p chunk) with
      | some ol => simp only [hdl]; exact ih _ _
      | none => simp only [hdl]; exact ih _ _

/-- `add_file` always appends exactly one record, with the fresh dense id
`records.len() as u32` and the given name — name collisions are not
checked. -/
theorem addFile_appends_record (p : Params) (w : SixCyWriter)
    (name data : List Nat) (codec : CodecId) :
    ∃ rec, (w.addFile p name data codec).index.records =
        w.index.records ++ [rec] ∧
      rec.id = w.index.records.length % 2 ^ 32 ∧ rec.name = name := by
  unfold SixCyWriter.addFile
  by_cases hs : w.solidCodec.isSome
  · rw [if_pos hs]
    exact ⟨_, rfl, rfl, rfl⟩
  · rw [if_neg hs]
    dsimp only
    refine ⟨(SixCyWriter.addChunksGo p codec (w.index.records.length % 2 ^ 32)
        (listChunks w.chunkSize data).enum
        { w with superblock := w.superblock.addRequiredCodec codec }
        { id := w.index.records.length % 2 ^ 32, parentId := 0, name := name
          blockRefs := [], originalSize := data.length % 2 ^ 64
          compressedSize := 0, metadata := [] }).2, ?_, ?_, ?_⟩
    · rw [addChunksGo_index]
    · rw [(addChunksGo_rec_const p codec _ _ _ _).1]
    · rw [(addChunksGo_rec_const p codec _ _ _ _).2]

theorem find?_at (l : List α) (pd : α → Bool) (i : Nat) (hi : i < l.length)
    (hpi : pd (l.get ⟨i, hi⟩) = true)
    (hprev : ∀ j (hj : j < l.length), j < i → pd (l.get ⟨j, hj⟩) = false) :
    l.find? pd = some (l.get ⟨i, hi⟩) := by
  induction l generalizing i with
  | nil => exact absurd hi (by simp)
  | cons a t ih =>
      cases i with
      | zero =>
          simp only [List.get] at hpi
          simp [List.find?_cons, hpi]
      | succ i =>
          have ha : pd a = false := hprev 0 (by simp) (by omega)
          simp only [List.find?_cons, ha]
          simp only [List.length_cons, Nat.add_lt_add_iff_right] at hi
          have := ih i hi (by simpa using hpi)
            (fun j hj hji => by
              have := hprev (j + 1) (by simpa using Nat.add_lt_add_right hj 1)
                (by omega)
              simpa using this)
          simpa using this

/-- C10: `add_file` accepts duplicate names without error — every call
appends exactly one record with the fresh dense id `records.len() as u32` —
and on the reading side, for an archive whose record ids are dense
(id = position, as the writer produces), `stat`, `read_file` and `read_at`
all resolve a duplicated name to the record appearing first in index order,
which under density carries the smallest id among the records of that
name. -/
theorem c10_duplicate_names_fresh_ids_first_match
    (p : Params) (w : SixCyWriter) (name data : List Nat) (codec : CodecId)
    (r : SixCyReader) (qname : List Nat) (i offset bufLen : Nat)
    (hi : i < r.index.records.length)
    (hdense : ∀ j (hj : j < r.index.records.length),
      (r.index.records.get ⟨j, hj⟩).id = j)
    (hname : (r.index.records.get ⟨i, hi⟩).name = qname)
    (hfirst : ∀ j (hj : j < r.index.records.length), j < i →
      (r.index.records.get ⟨j, hj⟩).name ≠ qname) :
    (∃ rec, (w.addFile p name data codec).index.records =
        w.index.records ++ [rec] ∧
      rec.id = w.index.records.length % 2 ^ 32 ∧ rec.name = name) ∧
    Archive.statR r qname =
      some (FileInfo.ofRecord (r.index.records.get ⟨i, hi⟩)) ∧
    (∀ j (hj : j < r.index.records.length),
      (r.index.records.get ⟨j, hj⟩).name = qname →
      (r.index.records.get ⟨i, hi⟩).id ≤ (r.index.records.get ⟨j, hj⟩).id) ∧
    Archive.readFileR p r qname =
      unpackRefs p r.file r.decryptionKey
        (r.index.records.get ⟨i, hi⟩).blockRefs ∧
    Archive.readAtR p r qname offset bufLen =
      SixCyReader.readAt p r (r.index.records.get ⟨i, hi⟩).id offset bufLen := by
  have hstat : Archive.statR r qname =
      some (FileInfo.ofRecord (r.index.records.get ⟨i, hi⟩)) := by
    unfold Archive.statR Archive.listR
    have hmlen : i < (r.index.records.map FileInfo.ofRecord).length := by
      simpa using hi
    have hget : (r.index.records.map FileInfo.ofRecord).get ⟨i, hmlen⟩ =
        FileInfo.ofRecord (r.index.records.get ⟨i, hi⟩) := by
      simp
    rw [← hget]
    apply find?_at
    · rw [hget]
      simpa [FileInfo.ofRecord] using hname
    · intro j hj hji
      have hj' : j < r.index.records.length := by simpa using hj
      have : (r.index.records.map FileInfo.ofRecord).get ⟨j, hj⟩ =
          FileInfo.ofRecord (r.index.records.get ⟨j, hj'⟩) := by
        simp
      rw [this]
      simpa [FileInfo.ofRecord] using hfirst j hj' hji
  have hfindid : r.index.records.find?
      (fun rec => rec.id = (r.index.records.get ⟨i, hi⟩).id) =
      some (r.index.records.get ⟨i, hi⟩) := by
    apply find?_at
    · simp
    · intro j hj hji
      have hij : (r.index.records.get ⟨i, hi⟩).id = i := hdense i hi
      have hjj : (r.index.records.get ⟨j, hj⟩).id = j := hdense j hj
      simp only [hij, hjj]
      simp
      omega
  refine ⟨addFile_appends_record p w name data codec, hstat, ?_, ?_, ?_⟩
  · intro j hj hjname
    have hij : (r.index.records.get ⟨i, hi⟩).id = i := hdense i hi
    have hjj : (r.index.records.get ⟨j, hj⟩).id = j := hdense j hj
    rw [hij, hjj]
    by_contra hlt
    exact hfirst j hj (by omega) hjname
  · unfold Archive.readFileR
    rw [hstat]
    dsimp only
    unfold SixCyReader.unpackFile
    rw [show (FileInfo.ofRecord (r.index.records.get ⟨i, hi⟩)).id =
        (r.index.records.get ⟨i, hi⟩).id from rfl]
    rw [hfindid]
  · unfold Archive.readAtR
    rw [hstat]
    rfl

/-- A reader with three dense records, two of which share the name
`[100]`. -/
def c10Reader : SixCyReader :=
  { file := [],
    superblock := Superblock.new (List.replicate 16 7),
    index :=
      { records :=
          [{ id := 0, parentId := 0, name := [122], blockRefs := []
             originalSize := 0, compressedSize := 0, metadata := [] },
           { id := 1, parentId := 0, name := [100]
             blockRefs := [{ contentHash := [1], archiveOffset := 256
                             intraOffset := 0, intraLength := 0 }]
             originalSize := 4, compressedSize := 4, metadata := [] },
           { id := 2, parentId := 0, name := [100], blockRefs := []
             originalSize := 9, compressedSize := 0, metadata := [] }]
        rootHash := List.replicate 32 0 }
    decryptionKey := none }

/-- C10 witness: the duplicate name `[100]` resolves to the record at index
1 (ids 1 < 2), and `add_file` on a fresh writer appends one record with id
0. -/
theorem c10_witness :
    (∃ rec, ((SixCyWriter.mkNew (List.replicate 16 7)).addFile testParams
        [100] [3, 4] CodecId.None).index.records =
        (SixCyWriter.mkNew (List.replicate 16 7)).index.records ++ [rec] ∧
      rec.id = (SixCyWriter.mkNew (List.replicate 16 7)).index.records.length % 2 ^ 32 ∧
      rec.name = [100]) ∧
    Archive.statR c10Reader [100] =
      some (FileInfo.ofRecord (c10Reader.index.records.get ⟨1, by decide⟩)) ∧
    (∀ j (hj : j < c10Reader.index.records.length),
      (c10Reader.index.records.get ⟨j, hj⟩).name = [100] →
      (c10Reader.index.records.get ⟨1, by decide⟩).id ≤
        (c10Reader.index.records.get ⟨j, hj⟩).id) ∧
    Archive.readFileR testParams c10Reader [100] =
      unpackRefs testParams c10Reader.file c10Reader.decryptionKey
        (c10Reader.index.records.get ⟨1, by decide⟩).blockRefs ∧
    Archive.readAtR testParams c10Reader [100] 2 3 =
      SixCyReader.readAt testParams c10Reader
        (c10Reader.index.records.get ⟨1, by decide⟩).id 2 3 :=
  c10_duplicate_names_fresh_ids_first_match testParams
    (SixCyWriter.mkNew (List.replicate 16 7)) [100] [3, 4] CodecId.None
    c10Reader [100] 1 2 3 (by decide)
    (by intro j hj
        have h3 : j < 3 := hj
        interval_cases j <;> rfl)
    (by decide)
    (by intro j hj hji
        have h0 : j = 0 := by omega
        subst h0
        simp [c10Reader])

/-! ## Writer operation sequences -/

/-- One writer operation (the public mutating API). -/
inductive WOp where
  | add (name data : List Nat) (codec : CodecId)
  | beginSolid (codec : CodecId)
  | endSolid
deriving DecidableEq, Repr

/-- Apply one operation. -/
def applyOp (p : Params) (w : SixCyWriter) : WOp → SixCyWriter
  | .add name data codec => w.addFile p name data codec
  | .beginSolid codec => w.startSolidSession p codec
  | .endSolid => w.flushSolidSession p

/-- Apply a sequence of operations. -/
def applyOps (p : Params) (w : SixCyWriter) (ops : List WOp) : SixCyWriter :=
  ops.foldl (applyOp p) w

/-- The codec an operation names, if any. -/
def WOp.codecOf : WOp → Option CodecId
  | .add _ _ codec => some codec
  | .beginSolid codec => some codec
  | .endSolid => none

theorem addRequired_mem_old (sb : Superblock) (c : CodecId) (u : List Nat)
    (h : u ∈ sb.requiredCodecUuids) :
    u ∈ (sb.addRequiredCodec c).requiredCodecUuids := by
  unfold Superblock.addRequiredCodec
  by_cases h1 : c = CodecId.None
  · rw [if_pos h1]; exact h
  · rw [if_neg h1]
    by_cases h2 : sb.requiredCodecUuids.contains c.uuid
    · rw [if_pos h2]; exact h
    · rw [if_neg h2]; exact List.mem_append_left _ h

theorem addRequired_self (sb : Superblock) (c : CodecId)
    (hc : c ≠ CodecId.None) :
    c.uuid ∈ (sb.addRequiredCodec c).requiredCodecUuids := by
  unfold Superblock.addRequiredCodec
  rw [if_neg hc]
  by_cases h2 : sb.requiredCodecUuids.contains c.uuid
  · rw [if_pos h2]
    simpa using h2
  · rw [if_neg h2]
    exact List.mem_append_right _ (by simp)

theorem addRequired_inv (sb : Superblock) (c : CodecId) (u : List Nat)
    (h : u ∈ (sb.addRequiredCodec c).requiredCodecUuids) :
    u ∈ sb.requiredCodecUuids ∨ (u = c.uuid ∧ c ≠ CodecId.None) := by
  unfold Superblock.addRequiredCodec at h
  by_cases h1 : c = CodecId.None
  · rw [if_pos h1] at h; exact Or.inl h
  · rw [if_neg h1] at h
    by_cases h2 : sb.requiredCodecUuids.contains c.uuid
    · rw [if_pos h2] at h; exact Or.inl h
    · rw [if_neg h2] at h
      rcases List.mem_append.mp h with hl | hr
      · exact Or.inl hl
      · exact Or.inr ⟨by simpa using hr, h1⟩

theorem addChunksGo_superblock (p : Params) (c : CodecId) (f : Nat)
    (l : List (Nat × List Nat)) (w : SixCyWriter) (r : FileIndexRecord) :
    (SixCyWriter.addChunksGo p c f l w r).1.superblock = w.superblock := by
  induction l generalizing w r with
  | nil => rfl
  | cons hd tl ih =>
      obtain ⟨idx, chunk⟩ := hd
      unfold SixCyWriter.addChunksGo
      cases hdl : dedupLookup w.blockDedup (hash32 p chunk) with
      | some ol => simp only [hdl]; rw [ih]
      | none => simp only [hdl]; rw [ih]; rfl

theorem addChunksGo_solidCodec (p : Params) (c : CodecId) (f : Nat)
    (l : List (Nat × List Nat)) (w : SixCyWriter) (r : FileIndexRecord) :
    (SixCyWriter.addChunksGo p c f l w r).1.solidCodec = w.solidCodec := by
  induction l generalizing w r with
  | nil => rfl
  | cons hd tl ih =>
      obtain ⟨idx, chunk⟩ := hd
      unfold SixCyWriter.addChunksGo
      cases hdl : dedupLookup w.blockDedup (hash32 p chunk) with
      | some ol => simp only [hdl]; rw [ih]
      | none => simp only [hdl]; rw [ih]; rfl

theorem addChunksGo_log (p : Params) (c : CodecId) (f : Nat)
    (l : List (Nat × List Nat)) (w : SixCyWriter) (r : FileIndexRecord) :
    ∀ e ∈ (SixCyWriter.addChunksGo p c f l w r).1.writtenLog,
      e ∈ w.writtenLog ∨ (e.btype = .Data ∧ e.codec = c) := by
  induction l generalizing w r with
  | nil => intro e he; exact Or.inl he
  | cons hd tl ih =>
      obtain ⟨idx, chunk⟩ := hd
      intro e he
      unfold SixCyWriter.addChunksGo at he
      cases hdl : dedupLookup w.blockDedup (hash32 p chunk) with
      | some ol =>
          simp only [hdl] at he
          exact ih _ _ e he
      | none =>
          simp only [hdl] at he
          rcases ih _ _ e he with hmem | hnew
          · simp only [SixCyWriter.emitBlock, List.mem_append] at hmem
            rcases hmem with hold | hthis
            · exact Or.inl hold
            · refine Or.inr ⟨?_, ?_⟩ <;> simp_all [encodeBlock]
          · exact Or.inr hnew

theorem backfill_superblock (archiveOffset payloadLen : Nat)
    (rs : List (Nat × Nat × Nat × List Nat)) (acc : SixCyWriter) :
    (rs.foldl (backfillStep archiveOffset payloadLen) acc).superblock =
      acc.superblock := by
  induction rs generalizing acc with
  | nil => rfl
  | cons hd tl ih => simp only [List.foldl_cons]; exact ih _

theorem backfill_log (archiveOffset payloadLen : Nat)
    (rs : List (Nat × Nat × Nat × List Nat)) (acc : SixCyWriter) :
    (rs.foldl (backfillStep archiveOffset payloadLen) acc).writtenLog =
      acc.writtenLog := by
  induction rs generalizing acc with
  | nil => rfl
  | cons hd tl ih => simp only [List.foldl_cons]; exact ih _

theorem backfill_solidCodec (archiveOffset payloadLen : Nat)
    (rs : List (Nat × Nat × Nat × List Nat)) (acc : SixCyWriter) :
    (rs.foldl (backfillStep archiveOffset payloadLen) acc).solidCodec =
      acc.solidCodec := by
  induction rs generalizing acc with
  | nil => rfl
  | cons hd tl ih => simp only [List.foldl_cons]; exact ih _

theorem backfill_blockDedup (archiveOffset payloadLen : Nat)
    (rs : List (Nat × Nat × Nat × List Nat)) (acc : SixCyWriter) :
    (rs.foldl (backfillStep archiveOffset payloadLen) acc).blockDedup =
      acc.blockDedup := by
  induction rs generalizing acc with
  | nil => rfl
  | cons hd tl ih => simp only [List.foldl_cons]; exact ih _

/-- The writer invariant behind the (amended) C7: every emitted Data or
Solid block's non-None codec UUID is already listed in the superblock;
every listed UUID is the UUID of some allowed non-None codec; any open
solid session's codec is allowed. -/
def GoodWriter (allowed : CodecId → Prop) (w : SixCyWriter) : Prop :=
  (∀ e ∈ w.writtenLog, (e.btype = .Data ∨ e.btype = .Solid) →
     e.codec ≠ CodecId.None →
     e.codec.uuid ∈ w.superblock.requiredCodecUuids) ∧
  (∀ u ∈ w.superblock.requiredCodecUuids,
     ∃ c, c ≠ CodecId.None ∧ u = c.uuid ∧ allowed c) ∧
  (∀ c, w.solidCodec = some c → allowed c)

theorem GoodWriter.flushSolid {allowed : CodecId → Prop} {w : SixCyWriter}
    (p : Params) (h : GoodWriter allowed w) :
    GoodWriter allowed (w.flushSolidSession p) := by
  obtain ⟨h1, h2, h3⟩ := h
  unfold SixCyWriter.flushSolidSession
  split
  · exact ⟨h1, h2, h3⟩
  · rename_i codec hsc
    have hcodec : allowed codec := h3 codec hsc
    by_cases hbuf : w.solidBuffer = []
    · rw [if_pos hbuf]
      exact ⟨h1, h2, by intro c hc; cases hc⟩
    · rw [if_neg hbuf]
      dsimp only
      refine ⟨?_, ?_, ?_⟩
      · intro e he hbt hcn
        simp only [backfill_log, backfill_superblock, SixCyWriter.emitBlock,
          List.mem_append] at he ⊢
        rcases he with hold | hthis
        · exact addRequired_mem_old _ _ _ (h1 e hold hbt hcn)
        · have he2 : e.codec = codec := by
            simp only [List.mem_singleton] at hthis
            rw [hthis]
          rw [he2]
          rw [he2] at hcn
          exact addRequired_self _ _ hcn
      · intro u hu
        simp only [backfill_superblock, SixCyWriter.emitBlock] at hu
        rcases addRequired_inv _ _ _ hu with hold | ⟨hequ, hcn⟩
        · exact h2 u hold
        · exact ⟨codec, hcn, hequ, hcodec⟩
      · intro c hc
        simp only [backfill_solidCodec, SixCyWriter.emitBlock] at hc
        cases hc

theorem GoodWriter.startSolid {allowed : CodecId → Prop} {w : SixCyWriter}
    (p : Params) (codec : CodecId) (h : GoodWriter allowed w)
    (hcodec : allowed codec) :
    GoodWriter allowed (w.startSolidSession p codec) := by
  obtain ⟨h1, h2, h3⟩ := GoodWriter.flushSolid p h
  unfold SixCyWriter.startSolidSession
  refine ⟨h1, h2, ?_⟩
  intro c hc
  simp only [Option.some.injEq] at hc
  rw [← hc]
  exact hcodec

theorem GoodWriter.addFile {allowed : CodecId → Prop} {w : SixCyWriter}
    (p : Params) (name data : List Nat) (codec : CodecId)
    (h : GoodWriter allowed w) (hcodec : allowed codec) :
    GoodWriter allowed (w.addFile p name data codec) := by
  obtain ⟨h1, h2, h3⟩ := h
  unfold SixCyWriter.addFile
  by_cases hs : w.solidCodec.isSome
  · rw [if_pos hs]
    exact ⟨h1, h2, h3⟩
  · rw [if_neg hs]
    dsimp only
    refine ⟨?_, ?_, ?_⟩
    · intro e he hbt hcn
      rw [addChunksGo_superblock]
      dsimp only
      rcases addChunksGo_log p codec _ _ _ _ e he with hold | ⟨_, hec⟩
      · exact addRequired_mem_old _ _ _ (h1 e hold hbt hcn)
      · rw [hec]
        rw [hec] at hcn
        exact addRequired_self _ _ hcn
    · intro u hu
      rw [addChunksGo_superblock] at hu
      dsimp only at hu
      rcases addRequired_inv _ _ _ hu with hold | ⟨hequ, hcn⟩
      · exact h2 u hold
      · exact ⟨codec, hcn, hequ, hcodec⟩
    · intro c hc
      rw [addChunksGo_solidCodec] at hc
      exact h3 c hc

theorem GoodWriter.applyOps {allowed : CodecId → Prop} {w : SixCyWriter}
    (p : Params) (ops : List WOp) (h : GoodWriter allowed w)
    (hops : ∀ op ∈ ops, ∀ c, op.codecOf = some c → allowed c) :
    GoodWriter allowed (applyOps p w ops) := by
  induction ops generalizing w with
  | nil => exact h
  | cons op tl ih =>
      have hstep : GoodWriter allowed (applyOp p w op) := by
        cases op with
        | add name data codec =>
            exact GoodWriter.addFile p name data codec h
              (hops _ (List.mem_cons_self _ _) codec rfl)
        | beginSolid codec =>
            exact GoodWriter.startSolid p codec h
              (hops _ (List.mem_cons_self _ _) codec rfl)
        | endSolid => exact GoodWriter.flushSolid p h
      exact ih hstep (fun op2 hop2 c hc =>
        hops op2 (List.mem_cons_of_mem _ hop2) c hc)

theorem GoodWriter.finalize {allowed : CodecId → Prop} {w w' : SixCyWriter}
    (p : Params) (h : GoodWriter allowed w)
    (hfin : w.finalize p = .ok w') :
    (∀ e ∈ w'.writtenLog, (e.btype = .Data ∨ e.btype = .Solid) →
       e.codec ≠ CodecId.None →
       e.codec.uuid ∈ w'.superblock.requiredCodecUuids) ∧
    (∀ u ∈ w'.superblock.requiredCodecUuids,
       ∃ c, c ≠ CodecId.None ∧ u = c.uuid ∧ allowed c) := by
  obtain ⟨h1, h2, h3⟩ := GoodWriter.flushSolid p h
  unfold SixCyWriter.finalize at hfin
  set wf := w.flushSolidSession p with hwf
  dsimp only at hfin
  split at hfin
  · exact absurd hfin (by simp)
  · rename_i sbBytes hsbw
    simp only [Except.ok.injEq] at hfin
    subst hfin
    constructor
    · intro e he hbt hcn
      dsimp only at he ⊢
      simp only [SixCyWriter.emitBlock, List.mem_append] at he
      have hmain : e.codec.uuid ∈ wf.superblock.requiredCodecUuids := by
        rcases he with hold | hthis
        · exact h1 e hold hbt hcn
        · simp only [List.mem_singleton] at hthis
          rw [hthis] at hbt
          rcases hbt with hb | hb <;> simp [encodeBlock] at hb
      split
      · exact hmain
      · exact hmain
    · intro u hu
      dsimp only at hu
      split at hu
      · exact h2 u hu
      · exact h2 u hu

/-- Operations exhibiting the C7 counterexample: a None-codec file with
content, then an Lz4 file whose data is empty. -/
def c7Ops : List WOp := [.add [97] [5] .None, .add [98] [] .Lz4]

/-- The finalized writer for those operations. -/
def c7W : SixCyWriter :=
  ((applyOps testParams (SixCyWriter.mkNew (List.replicate 16 7))
      c7Ops).finalize testParams).toOption.getD
    (SixCyWriter.mkNew (List.replicate 16 7))

/-- C7 counterexample: after finalize, `required_codec_uuids = [UUID_LZ4]`
while the set of codec UUIDs appearing in Data/Solid blocks is
`[UUID_NONE]` — the claimed set equality fails in both directions: the
None UUID is present in a Data block but never listed, and Lz4 is listed
although no block uses it (the empty file produced no chunks). -/
theorem c7_required_not_equal_block_codecs :
    (applyOps testParams (SixCyWriter.mkNew (List.replicate 16 7))
        c7Ops).finalize testParams = .ok c7W ∧
    c7W.superblock.requiredCodecUuids = [UUID_LZ4] ∧
    (c7W.writtenLog.filter
        (fun e => e.btype = BlockType.Data ∨ e.btype = BlockType.Solid)).map
      (fun e => e.codec.uuid) = [UUID_NONE] := by
  refine ⟨rfl, rfl, rfl⟩

/-- C7 (amended): after finalize, every non-None codec UUID appearing in a
Data or Solid block is listed in `required_codec_uuids`, and every listed
UUID is the UUID of some non-None codec passed to an `add_file` call or
solid session — but the None UUID is never listed, and a listed codec may
appear in no block (all its chunks deduplicated, or its file empty). -/
theorem c7_required_codecs_amended (p : Params) (archiveUuid : List Nat)
    (ops : List WOp) (w' : SixCyWriter)
    (hfin : (applyOps p (SixCyWriter.mkNew archiveUuid) ops).finalize p = .ok w') :
    (∀ e ∈ w'.writtenLog, (e.btype = .Data ∨ e.btype = .Solid) →
       e.codec ≠ CodecId.None →
       e.codec.uuid ∈ w'.superblock.requiredCodecUuids) ∧
    (∀ u ∈ w'.superblock.requiredCodecUuids,
       ∃ c, c ≠ CodecId.None ∧ u = c.uuid ∧
         ∃ op ∈ ops, op.codecOf = some c) := by
  have hinit : GoodWriter (fun c => ∃ op ∈ ops, op.codecOf = some c)
      (SixCyWriter.mkNew archiveUuid) := by
    refine ⟨?_, ?_, ?_⟩
    · intro e he
      exact absurd he (by
        simp [SixCyWriter.mkNew, SixCyWriter.withOptions])
    · intro u hu
      exact absurd hu (by
        simp [SixCyWriter.mkNew, SixCyWriter.withOptions, Superblock.new])
    · intro c hc
      exact absurd hc (by
        simp [SixCyWriter.mkNew, SixCyWriter.withOptions])
  exact GoodWriter.finalize p
    (GoodWriter.applyOps p ops hinit (fun op hop c hc => ⟨op, hop, hc⟩)) hfin

/-- C7 witness: the amended invariant at the concrete `c7Ops` archive. -/
theorem c7_witness :
    (∀ e ∈ c7W.writtenLog, (e.btype = .Data ∨ e.btype = .Solid) →
       e.codec ≠ CodecId.None →
       e.codec.uuid ∈ c7W.superblock.requiredCodecUuids) ∧
    (∀ u ∈ c7W.superblock.requiredCodecUuids,
       ∃ c, c ≠ CodecId.None ∧ u = c.uuid ∧
         ∃ op ∈ c7Ops, op.codecOf = some c) :=
  c7_required_codecs_amended testParams (List.replicate 16 7) c7Ops c7W rfl

/-! ## CAS deduplication invariant (C3) -/

/-- Number of emitted Data blocks whose plaintext hashes to `H`. -/
def countDataWithHash (p : Params) (log : List WLogEntry) (H : List Nat) : Nat :=
  (log.filter (fun e => e.btype = BlockType.Data ∧ hash32 p e.plain = H)).length

/-- A block ref points at an emitted Data block with the matching content
hash. -/
def RefOk (p : Params) (log : List WLogEntry) (br : BlockRef) : Prop :=
  ∃ e ∈ log, e.btype = BlockType.Data ∧ hash32 p e.plain = br.contentHash ∧
    e.offset = br.archiveOffset

theorem RefOk.mono {p : Params} {log suffix : List WLogEntry} {br : BlockRef}
    (h : RefOk p log br) : RefOk p (log ++ suffix) br := by
  obtain ⟨e, he, h1, h2, h3⟩ := h
  exact ⟨e, List.mem_append_left _ he, h1, h2, h3⟩

theorem mem_length_le_one_eq {l : List α} (hlen : l.length ≤ 1) {a b : α}
    (ha : a ∈ l) (hb : b ∈ l) : a = b := by
  cases l with
  | nil => cases ha
  | cons x t =>
      cases t with
      | nil =>
          simp only [List.mem_singleton] at ha hb
          rw [ha, hb]
      | cons y t2 => simp at hlen

theorem dedupLookup_insert (m : List (List Nat × Nat × Nat)) (k : List Nat)
    (o n : Nat) (q : List Nat) :
    dedupLookup (dedupInsert m k o n) q =
      match dedupLookup m q with
      | some r => some r
      | none => if q = k then some (o, n) else none := by
  induction m with
  | nil =>
      simp only [dedupInsert, List.nil_append, dedupLookup]
      by_cases hq : k = q
      · rw [if_pos hq, hq]
        simp
      · rw [if_neg hq]
        have : ¬ (q = k) := fun h => hq h.symm
        simp only [dedupLookup, if_neg this]
  | cons hd tl ih =>
      obtain ⟨k2, o2, n2⟩ := hd
      simp only [dedupInsert, List.cons_append, dedupLookup]
      by_cases hk2 : k2 = q
      · rw [if_pos hk2, if_pos hk2]
      · rw [if_neg hk2, if_neg hk2]
        exact ih

theorem countData_append (p : Params) (log1 log2 : List WLogEntry)
    (H : List Nat) :
    countDataWithHash p (log1 ++ log2) H =
      countDataWithHash p log1 H + countDataWithHash p log2 H := by
  simp [countDataWithHash, List.filter_append]

/-- The CAS table records every emitted Data block: a `some` answer points
at an actual log entry with the matching content hash and offset. -/
def DedupSound (p : Params) (m : List (List Nat × Nat × Nat))
    (log : List WLogEntry) : Prop :=
  ∀ k r, dedupLookup m k = some r →
    ∃ e ∈ log, e.btype = BlockType.Data ∧ hash32 p e.plain = k ∧
      e.offset = r.1

/-- Every emitted Data block is registered in the CAS table under its
content hash, at its own offset. -/
def DedupComplete (p : Params) (m : List (List Nat × Nat × Nat))
    (log : List WLogEntry) : Prop :=
  ∀ e ∈ log, e.btype = BlockType.Data →
    ∃ r, dedupLookup m (hash32 p e.plain) = some r ∧ r.1 = e.offset

/-- The writer's CAS invariant: hash-uniqueness of Data blocks plus a
two-way correspondence between the dedup table and the block log. -/
def CasCore (p : Params) (w : SixCyWriter) : Prop :=
  (∀ H, countDataWithHash p w.writtenLog H ≤ 1) ∧
    DedupSound p w.blockDedup w.writtenLog ∧
    DedupComplete p w.blockDedup w.writtenLog

theorem dedupLookup_insert_some {m : List (List Nat × Nat × Nat)}
    {q : List Nat} {r : Nat × Nat} (k : List Nat) (o n : Nat)
    (h : dedupLookup m q = some r) :
    dedupLookup (dedupInsert m k o n) q = some r := by
  rw [dedupLookup_insert, h]

theorem dedupLookup_insert_none {m : List (List Nat × Nat × Nat)}
    {q : List Nat} (k : List Nat) (o n : Nat)
    (h : dedupLookup m q = none) :
    dedupLookup (dedupInsert m k o n) q =
      if q = k then some (o, n) else none := by
  rw [dedupLookup_insert, h]

theorem countData_zero_of_lookup_none (p : Params)
    (m : List (List Nat × Nat × Nat)) (log : List WLogEntry)
    (H : List Nat)
    (h3 : DedupComplete p m log)
    (hnone : dedupLookup m H = none) :
    countDataWithHash p log H = 0 := by
  unfold countDataWithHash
  rw [List.length_eq_zero]
  rw [List.filter_eq_nil_iff]
  intro e he
  simp only [decide_eq_true_eq, not_and]
  intro hbt hH
  obtain ⟨r, hr, _⟩ := h3 e he hbt
  rw [hH] at hr
  rw [hnone] at hr
  cases hr

theorem countData_singleton_le_one (p : Params) (e : WLogEntry)
    (H : List Nat) : countDataWithHash p [e] H ≤ 1 := by
  unfold countDataWithHash
  cases h : List.filter (fun e => decide (e.btype = BlockType.Data ∧ hash32 p e.plain = H)) [e] with
  | nil => simp
  | cons a t =>
      have := List.length_filter_le (fun e => decide (e.btype = BlockType.Data ∧ hash32 p e.plain = H)) [e]
      rw [h] at this
      simpa using this

theorem countData_singleton_ne (p : Params) (e : WLogEntry) (H : List Nat)
    (hne : ¬ hash32 p e.plain = H) : countDataWithHash p [e] H = 0 := by
  unfold countDataWithHash
  simp [List.filter, hne]

/-- One CAS-miss step preserves the core invariant: on a `dedupLookup`
miss the chunk's hash is provably absent from the log, so appending the
new Data block keeps every hash count at most one, and inserting the new
table entry keeps the table/log correspondence. -/
theorem cas_miss_step (p : Params) (m : List (List Nat × Nat × Nat))
    (log : List WLogEntry) (chunk : List Nat) (cd : CodecId)
    (pos plen : Nat)
    (h1 : ∀ H, countDataWithHash p log H ≤ 1)
    (h2 : DedupSound p m log) (h3 : DedupComplete p m log)
    (hdl : dedupLookup m (hash32 p chunk) = none) :
    (∀ H, countDataWithHash p
        (log ++ [⟨BlockType.Data, cd, chunk, pos⟩]) H ≤ 1) ∧
      DedupSound p (dedupInsert m (hash32 p chunk) pos plen)
        (log ++ [⟨BlockType.Data, cd, chunk, pos⟩]) ∧
      DedupComplete p (dedupInsert m (hash32 p chunk) pos plen)
        (log ++ [⟨BlockType.Data, cd, chunk, pos⟩]) := by
  refine ⟨?_, ?_, ?_⟩
  · intro H
    rw [countData_append]
    by_cases hH : hash32 p chunk = H
    · rw [← hH]
      rw [countData_zero_of_lookup_none p m log _ h3 hdl]
      simpa using countData_singleton_le_one p _ (hash32 p chunk)
    · rw [countData_singleton_ne p _ H hH]
      simpa using h1 H
  · intro k r hk
    cases hold : dedupLookup m k with
    | some r0 =>
        rw [dedupLookup_insert_some _ _ _ hold] at hk
        cases hk
        obtain ⟨e, he, hb, hh, ho⟩ := h2 k _ hold
        exact ⟨e, List.mem_append_left _ he, hb, hh, ho⟩
    | none =>
        rw [dedupLookup_insert_none _ _ _ hold] at hk
        split at hk
        · rename_i hkk
          cases hk
          exact ⟨⟨BlockType.Data, cd, chunk, pos⟩,
            List.mem_append_right _ (List.mem_singleton.mpr rfl), rfl,
            hkk.symm, rfl⟩
        · cases hk
  · intro e he hbt
    rcases List.mem_append.mp he with hold | hnew
    · obtain ⟨r, hr, hro⟩ := h3 e hold hbt
      exact ⟨r, dedupLookup_insert_some _ _ _ hr, hro⟩
    · have : e = ⟨BlockType.Data, cd, chunk, pos⟩ := List.mem_singleton.mp hnew
      subst this
      refine ⟨(pos, plen), ?_, rfl⟩
      rw [dedupLookup_insert_none _ _ _ hdl, if_pos rfl]

/-- The writer after a CAS-miss chunk (the emit + dedup-insert arm of the
per-chunk loop), named for reasoning. -/
def missWriter (p : Params) (c : CodecId) (f idx : Nat) (chunk : List Nat)
    (w : SixCyWriter) : SixCyWriter :=
  let hp := encodeBlock p .Data f (idx * w.chunkSize % 2 ^ 64) chunk c
    w.compressionLevel w.encryptionKey
  let w1 := w.emitBlock hp.1 hp.2 c chunk
  { w1 with
    blockDedup := dedupInsert w1.blockDedup (hash32 p chunk) w.pos hp.2.length }

/-- The record after a CAS-miss chunk. -/
def missRec (p : Params) (c : CodecId) (f idx : Nat) (chunk : List Nat)
    (w : SixCyWriter) (rec : FileIndexRecord) : FileIndexRecord :=
  let hp := encodeBlock p .Data f (idx * w.chunkSize % 2 ^ 64) chunk c
    w.compressionLevel w.encryptionKey
  { rec with
    compressedSize := rec.compressedSize + hp.2.length
    blockRefs := rec.blockRefs ++
      [{ contentHash := hash32 p chunk, archiveOffset := w.pos
         intraOffset := 0, intraLength := 0 }] }

/-- The record after a CAS-hit chunk (no block write). -/
def hitRec (p : Params) (chunk : List Nat) (ol : Nat × Nat)
    (rec : FileIndexRecord) : FileIndexRecord :=
  { rec with
    blockRefs := rec.blockRefs ++
      [{ contentHash := hash32 p chunk, archiveOffset := ol.1
         intraOffset := 0, intraLength := 0 }]
    compressedSize := rec.compressedSize + ol.2 }

theorem addChunksGo_cons_some (p : Params) (c : CodecId) (f : Nat)
    (idx : Nat) (chunk : List Nat) (rest : List (Nat × List Nat))
    (w : SixCyWriter) (rec : FileIndexRecord) (ol : Nat × Nat)
    (hdl : dedupLookup w.blockDedup (hash32 p chunk) = some ol) :
    SixCyWriter.addChunksGo p c f ((idx, chunk) :: rest) w rec =
      SixCyWriter.addChunksGo p c f rest w (hitRec p chunk ol rec) := by
  conv_lhs => rw [SixCyWriter.addChunksGo.eq_def]
  simp only [hdl]
  rfl

theorem addChunksGo_cons_none (p : Params) (c : CodecId) (f : Nat)
    (idx : Nat) (chunk : List Nat) (rest : List (Nat × List Nat))
    (w : SixCyWriter) (rec : FileIndexRecord)
    (hdl : dedupLookup w.blockDedup (hash32 p chunk) = none) :
    SixCyWriter.addChunksGo p c f ((idx, chunk) :: rest) w rec =
      SixCyWriter.addChunksGo p c f rest (missWriter p c f idx chunk w)
        (missRec p c f idx chunk w rec) := by
  conv_lhs => rw [SixCyWriter.addChunksGo.eq_def]
  simp only [hdl]
  rfl

theorem missWriter_writtenLog (p : Params) (c : CodecId) (f idx : Nat)
    (chunk : List Nat) (w : SixCyWriter) :
    (missWriter p c f idx chunk w).writtenLog =
      w.writtenLog ++ [⟨BlockType.Data, c, chunk, w.pos⟩] := rfl

theorem missWriter_blockDedup (p : Params) (c : CodecId) (f idx : Nat)
    (chunk : List Nat) (w : SixCyWriter) :
    (missWriter p c f idx chunk w).blockDedup =
      dedupInsert w.blockDedup (hash32 p chunk) w.pos
        (encodeBlock p BlockType.Data f (idx * w.chunkSize % 2 ^ 64) chunk c
          w.compressionLevel w.encryptionKey).2.length := rfl

theorem missRec_blockRefs (p : Params) (c : CodecId) (f idx : Nat)
    (chunk : List Nat) (w : SixCyWriter) (rec : FileIndexRecord) :
    (missRec p c f idx chunk w rec).blockRefs =
      rec.blockRefs ++
        [{ contentHash := hash32 p chunk, archiveOffset := w.pos
           intraOffset := 0, intraLength := 0 }] := rfl

theorem hitRec_blockRefs (p : Params) (chunk : List Nat) (ol : Nat × Nat)
    (rec : FileIndexRecord) :
    (hitRec p chunk ol rec).blockRefs =
      rec.blockRefs ++
        [{ contentHash := hash32 p chunk, archiveOffset := ol.1
           intraOffset := 0, intraLength := 0 }] := rfl

/-- The per-chunk loop preserves the CAS invariant, only appends to the
block log, and every ref of the record it builds points at a logged Data
block with the matching hash and offset. -/
theorem addChunksGo_cas (p : Params) (c : CodecId) (f : Nat) :
    ∀ (l : List (Nat × List Nat)) (w : SixCyWriter) (rec : FileIndexRecord),
      CasCore p w →
      (∀ br ∈ rec.blockRefs, RefOk p w.writtenLog br) →
      (∃ suf, (SixCyWriter.addChunksGo p c f l w rec).1.writtenLog =
          w.writtenLog ++ suf) ∧
        CasCore p (SixCyWriter.addChunksGo p c f l w rec).1 ∧
        (∀ br ∈ (SixCyWriter.addChunksGo p c f l w rec).2.blockRefs,
          RefOk p (SixCyWriter.addChunksGo p c f l w rec).1.writtenLog br) := by
  intro l
  induction l with
  | nil =>
      intro w rec hcore hrec
      exact ⟨⟨[], (List.append_nil _).symm⟩, hcore, hrec⟩
  | cons hd tl ih =>
      intro w rec hcore hrec
      obtain ⟨idx, chunk⟩ := hd
      obtain ⟨h1, h2, h3⟩ := hcore
      cases hdl : dedupLookup w.blockDedup (hash32 p chunk) with
      | some ol =>
          rw [addChunksGo_cons_some p c f idx chunk tl w rec ol hdl]
          refine ih w (hitRec p chunk ol rec) ⟨h1, h2, h3⟩ ?_
          intro br hbr
          rw [hitRec_blockRefs] at hbr
          rcases List.mem_append.mp hbr with hbold | hbnew
          · exact hrec br hbold
          · have hbe : br = ⟨hash32 p chunk, ol.1, 0, 0⟩ :=
              List.mem_singleton.mp hbnew
            subst hbe
            obtain ⟨e, he, hb, hh, ho⟩ := h2 _ _ hdl
            exact ⟨e, he, hb, hh, ho⟩
      | none =>
          rw [addChunksGo_cons_none p c f idx chunk tl w rec hdl]
          have hstep := cas_miss_step p w.blockDedup w.writtenLog chunk c w.pos
            (encodeBlock p BlockType.Data f (idx * w.chunkSize % 2 ^ 64) chunk c
              w.compressionLevel w.encryptionKey).2.length h1 h2 h3 hdl
          have hcoreW : CasCore p (missWriter p c f idx chunk w) := by
            unfold CasCore
            rw [missWriter_writtenLog, missWriter_blockDedup]
            exact ⟨hstep.1, hstep.2.1, hstep.2.2⟩
          have hrecW : ∀ br ∈ (missRec p c f idx chunk w rec).blockRefs,
              RefOk p (missWriter p c f idx chunk w).writtenLog br := by
            intro br hbr
            rw [missRec_blockRefs] at hbr
            rw [missWriter_writtenLog]
            rcases List.mem_append.mp hbr with hbold | hbnew
            · exact RefOk.mono (hrec br hbold)
            · have hbe : br = ⟨hash32 p chunk, w.pos, 0, 0⟩ :=
                List.mem_singleton.mp hbnew
              subst hbe
              exact ⟨⟨BlockType.Data, c, chunk, w.pos⟩,
                List.mem_append_right _ (List.mem_singleton.mpr rfl),
                rfl, rfl, rfl⟩
          obtain ⟨⟨suf, hsuf⟩, hcore2, hrefs2⟩ :=
            ih (missWriter p c f idx chunk w) (missRec p c f idx chunk w rec)
              hcoreW hrecW
          refine ⟨⟨⟨BlockType.Data, c, chunk, w.pos⟩ :: suf, ?_⟩,
            hcore2, hrefs2⟩
          rw [hsuf, missWriter_writtenLog, List.append_assoc]
          rfl

/-- The full writer CAS invariant: no solid session open, the core
table/log correspondence, and every index record's refs resolve in the
block log. -/
def CasState (p : Params) (w : SixCyWriter) : Prop :=
  w.solidCodec = none ∧ CasCore p w ∧
    ∀ rec ∈ w.index.records, ∀ br ∈ rec.blockRefs, RefOk p w.writtenLog br

theorem CasState.withOptions (p : Params) (uuid : List Nat) (cs : Nat)
    (lvl : Int) (key : Option (List Nat)) :
    CasState p (SixCyWriter.withOptions uuid cs lvl key) := by
  refine ⟨rfl, ⟨?_, ?_, ?_⟩, ?_⟩
  · intro H
    exact Nat.zero_le 1
  · intro k r hk
    exact Option.noConfusion hk
  · intro e he hbt
    exact absurd he (List.not_mem_nil e)
  · intro rec hrec
    exact absurd hrec (List.not_mem_nil rec)

theorem CasState.addFileStep {p : Params} {w : SixCyWriter}
    (name data : List Nat) (codec : CodecId) (h : CasState p w) :
    CasState p (w.addFile p name data codec) := by
  obtain ⟨hsolid, hcore, hrecs⟩ := h
  have hs : ¬ w.solidCodec.isSome = true := by rw [hsolid]; exact Bool.noConfusion
  unfold SixCyWriter.addFile
  rw [if_neg hs]
  dsimp only
  set wr := SixCyWriter.addChunksGo p codec (w.index.records.length % 2 ^ 32)
    (listChunks w.chunkSize data).enum
    { w with superblock := w.superblock.addRequiredCodec codec }
    { id := w.index.records.length % 2 ^ 32, parentId := 0, name := name
      blockRefs := [], originalSize := data.length % 2 ^ 64
      compressedSize := 0, metadata := [] } with hwr
  have hidx : wr.1.index = w.index := by
    rw [hwr, addChunksGo_index]
  have hsc : wr.1.solidCodec = none := by
    rw [hwr, addChunksGo_solidCodec]
    exact hsolid
  have hcas := addChunksGo_cas p codec (w.index.records.length % 2 ^ 32)
    (listChunks w.chunkSize data).enum
    { w with superblock := w.superblock.addRequiredCodec codec }
    { id := w.index.records.length % 2 ^ 32, parentId := 0, name := name
      blockRefs := [], originalSize := data.length % 2 ^ 64
      compressedSize := 0, metadata := [] }
    hcore (fun br hbr => absurd hbr (List.not_mem_nil br))
  obtain ⟨⟨suf, hsuf⟩, hcore2, hrefs2⟩ := hcas
  refine ⟨hsc, hcore2, ?_⟩
  intro rec hrec br hbr
  rcases List.mem_append.mp hrec with hold | hnew
  · have hold2 : rec ∈ w.index.records := by
      rw [← hidx]
      exact hold
    have hgoal : RefOk p wr.1.writtenLog br := by
      rw [hwr, hsuf]
      exact RefOk.mono (hrecs rec hold2 br hbr)
    exact hgoal
  · have heq : rec = wr.2 := List.mem_singleton.mp hnew
    subst heq
    exact hrefs2 br hbr

/-- A batch of plain `add_file` calls (`(name, data, codec)` triples). -/
def applyAddFiles (p : Params) (w : SixCyWriter)
    (adds : List (List Nat × List Nat × CodecId)) : SixCyWriter :=
  adds.foldl (fun acc t => acc.addFile p t.1 t.2.1 t.2.2) w

theorem CasState.applyAddFiles {p : Params} {w : SixCyWriter}
    (adds : List (List Nat × List Nat × CodecId)) (h : CasState p w) :
    CasState p (applyAddFiles p w adds) := by
  induction adds generalizing w with
  | nil => exact h
  | cons t tl ih => exact ih (CasState.addFileStep t.1 t.2.1 t.2.2 h)

/-- C3: For every sequence of non-solid `add_file` calls on one writer
(arbitrary names, contents and codecs, from a fresh writer with any
options) and every content hash `H`: at most one Data block whose
plaintext hashes to `H` is ever written to the archive; every `BlockRef`
of every index record points at a written Data block with the matching
content hash; and a ref whose `content_hash` is `H` has `archive_offset`
equal to the offset of the unique Data block hashing to `H` — a later
chunk with an identical hash produces no new block and refers back to the
first occurrence. -/
theorem c3_cas_at_most_one_data_block (p : Params) (uuid : List Nat)
    (chunkSize : Nat) (level : Int) (key : Option (List Nat))
    (adds : List (List Nat × List Nat × CodecId)) (H : List Nat) :
    countDataWithHash p
        (applyAddFiles p (SixCyWriter.withOptions uuid chunkSize level key)
          adds).writtenLog H ≤ 1 ∧
      (∀ rec ∈ (applyAddFiles p
            (SixCyWriter.withOptions uuid chunkSize level key)
            adds).index.records,
        ∀ br ∈ rec.blockRefs,
          RefOk p (applyAddFiles p
            (SixCyWriter.withOptions uuid chunkSize level key)
            adds).writtenLog br) ∧
      (∀ rec ∈ (applyAddFiles p
            (SixCyWriter.withOptions uuid chunkSize level key)
            adds).index.records,
        ∀ br ∈ rec.blockRefs, br.contentHash = H →
          ∀ e ∈ (applyAddFiles p
              (SixCyWriter.withOptions uuid chunkSize level key)
              adds).writtenLog,
            e.btype = BlockType.Data → hash32 p e.plain = H →
              br.archiveOffset = e.offset) := by
  obtain ⟨hsolid, ⟨h1, h2, h3⟩, hrecs⟩ :=
    CasState.applyAddFiles adds
      (CasState.withOptions p uuid chunkSize level key)
  refine ⟨h1 H, hrecs, ?_⟩
  intro rec hrec br hbr hch e he hbt hHe
  obtain ⟨e2, he2, hb2, hh2, ho2⟩ := hrecs rec hrec br hbr
  have hmem : e ∈ List.filter
      (fun x => decide (x.btype = BlockType.Data ∧ hash32 p x.plain = H))
      (applyAddFiles p (SixCyWriter.withOptions uuid chunkSize level key)
        adds).writtenLog :=
    List.mem_filter.mpr ⟨he, decide_eq_true ⟨hbt, hHe⟩⟩
  have hmem2 : e2 ∈ List.filter
      (fun x => decide (x.btype = BlockType.Data ∧ hash32 p x.plain = H))
      (applyAddFiles p (SixCyWriter.withOptions uuid chunkSize level key)
        adds).writtenLog :=
    List.mem_filter.mpr ⟨he2, decide_eq_true ⟨hb2, hh2.trans hch⟩⟩
  have heq : e = e2 := mem_length_le_one_eq (h1 H) hmem hmem2
  rw [heq]
  exact ho2.symm

/-! ## Scanner quality rating (C8) -/

/-- A scan stops (returning the state unchanged) as soon as fewer than 84
bytes remain at the current position. -/
theorem scanGo_stop (file : List Nat) (hint fuel : Nat) (st : ScanState)
    (h : (file.drop st.pos).length < 84) : scanGo file hint fuel st = st := by
  cases fuel with
  | zero => rfl
  | succ fuel =>
      conv_lhs => rw [scanGo.eq_def]
      simp only [if_pos h]

/-- One scan step over a readable header with a known codec, full payload
and a block type that is neither Data nor Index: the candidate is counted
Healthy, logged, and the scan continues past the payload (no chunk is
accumulated, since only Data blocks feed the reconstruction). -/
theorem scanGo_step_healthy_nondata (file : List Nat) (hint fuel : Nat)
    (st : ScanState) (hdr : BlockHeader)
    (hlen : ¬ ((file.drop st.pos).length < 84))
    (hread : BlockHeader.read (file.drop st.pos) = .ok hdr)
    (hknown : ¬ ((CodecId.fromUuid hdr.codecUuid).isNone = true ∧
      hdr.codecUuid ≠ UUID_NONE))
    (hrem : ¬ ((if hint > st.pos + 84 then hint - (st.pos + 84)
        else if file.length > st.pos + 84 then file.length - (st.pos + 84)
        else 0) < hdr.compSize))
    (hnd : ¬ (BlockHealth.Healthy.isUsable = true ∧
      hdr.blockType = BlockType.Data))
    (hni : ¬ (hdr.blockType = BlockType.Index)) :
    scanGo file hint (fuel + 1) st = scanGo file hint fuel
      { st with
        totalScanned := st.totalScanned + 1
        healthyBlocks := st.healthyBlocks + 1
        recoverableBytes := st.recoverableBytes + hdr.origSize
        blockLog := st.blockLog ++
          [{ archiveOffset := st.pos, header := some hdr, health := .Healthy }]
        pos := st.pos + 84 + hdr.compSize
        bytesScanned := st.bytesScanned + 84 + hdr.compSize } := by
  conv_lhs => rw [scanGo.eq_def]
  simp only [if_neg hlen, hread, if_neg hknown, if_neg hrem, if_neg hnd,
    if_neg hni]

/-- A fresh (empty) superblock, and its 256 on-disk bytes. -/
def c8Sb : Superblock := Superblock.new (List.replicate 16 0)

def c8SbBytes : List Nat := (c8Sb.write).toOption.getD []

/-- A well-formed Solid block header with an empty payload (`comp_size`
0), `None` codec. -/
def c8Header : BlockHeader :=
  { headerVersion := BLOCK_HEADER_VERSION, blockType := .Solid, flags := 0,
    codecUuid := UUID_NONE, fileId := FILE_ID_SHARED, fileOffset := 0,
    origSize := 0, compSize := 0, contentHash := List.replicate 32 0 }

/-- An archive whose only block candidate is one healthy Solid block: the
scanner (which never parses the superblock area) finds one candidate,
rates it Healthy, and reconstructs no records, because only Data blocks
feed the reconstruction. -/
def c8File : List Nat := c8SbBytes ++ c8Header.writeBytes

/-- The scanned block entry the scan logs for `c8File`. -/
def c8Scanned : ScannedBlock :=
  { archiveOffset := 256, header := some c8Header, health := .Healthy }

/-- The quality rating in the order the claim lists the conditions:
the ≥95% and ≥50% healthy thresholds first, the empty-records case only
afterwards. -/
def c8ClaimQuality (totalScanned healthyBlocks : Nat) (recordsEmpty : Bool) :
    RecoveryQuality :=
  if healthyBlocks * 100 ≥ totalScanned * 95 then .Full
  else if healthyBlocks * 100 ≥ totalScanned * 50 then .Partial
  else if recordsEmpty then .HeaderOnly
  else .Catastrophic

theorem c8Sb_WF : c8Sb.WF := by
  unfold Superblock.WF
  decide

theorem c8Sb_write_ok : c8Sb.write = .ok c8SbBytes := by
  have hisok : (c8Sb.write).isOk = true :=
    (Superblock.write_isOk_iff c8Sb c8Sb_WF).mpr (by decide)
  cases hw : c8Sb.write with
  | error e =>
      rw [hw] at hisok
      exact absurd hisok (by simp [Except.isOk, Except.toBool])
  | ok b =>
      have hb : c8SbBytes = b := by
        unfold c8SbBytes
        rw [hw]
        rfl
      rw [hb]

theorem c8SbBytes_length : c8SbBytes.length = 256 :=
  Superblock.write_ok_length c8Sb_write_ok

theorem c8Header_WF : c8Header.WF := by
  unfold BlockHeader.WF
  decide

theorem c8Header_writeBytes_length : c8Header.writeBytes.length = 84 :=
  BlockHeader.writeBytes_length c8Header (by decide) (by decide)

theorem c8File_length : c8File.length = 340 := by
  unfold c8File
  rw [List.length_append, c8SbBytes_length, c8Header_writeBytes_length]

theorem c8File_drop256 : c8File.drop 256 = c8Header.writeBytes := by
  unfold c8File
  rw [← c8SbBytes_length]
  exact List.drop_left _ _

theorem c8File_read256 :
    BlockHeader.read (c8File.drop 256) = .ok c8Header := by
  rw [c8File_drop256]
  have h := BlockHeader.read_writeBytes c8Header c8Header_WF []
  rw [List.append_nil] at h
  exact h

theorem c8File_drop340 : c8File.drop 340 = [] := by
  apply List.drop_eq_nil_of_le
  rw [c8File_length]

/-- Scanning `c8File` visits exactly one candidate, rates it Healthy and
accumulates no chunks. -/
theorem c8_scan_state :
    scanGo c8File c8File.length (c8File.length + 1)
      { pos := SUPERBLOCK_SIZE, totalScanned := 0, healthyBlocks := 0,
        corruptBlocks := 0, truncatedBlocks := 0, unknownCodecBlocks := 0,
        recoverableBytes := 0, bytesScanned := SUPERBLOCK_SIZE,
        blockLog := [], chunks := [] } =
      { pos := 340, totalScanned := 1, healthyBlocks := 1,
        corruptBlocks := 0, truncatedBlocks := 0, unknownCodecBlocks := 0,
        recoverableBytes := 0, bytesScanned := 340,
        blockLog := [c8Scanned], chunks := [] } := by
  rw [scanGo_step_healthy_nondata c8File c8File.length c8File.length
    _ c8Header
    (by
      show ¬ ((c8File.drop 256).length < 84)
      rw [c8File_drop256, c8Header_writeBytes_length]
      omega)
    (by
      show BlockHeader.read (c8File.drop 256) = .ok c8Header
      exact c8File_read256)
    (by decide)
    (by
      show ¬ (_ < c8Header.compSize)
      exact Nat.not_lt_zero _)
    (by decide)
    (by decide)]
  rw [scanGo_stop c8File c8File.length c8File.length _
    (by
      show (c8File.drop (SUPERBLOCK_SIZE + 84 + c8Header.compSize)).length < 84
      have h340 : SUPERBLOCK_SIZE + 84 + c8Header.compSize = 340 := rfl
      rw [h340, c8File_drop340]
      decide)]
  rfl

/-- C8 counterexample: scanning `c8File` finds 1 candidate of which 1
(100% ≥ 95%) is Healthy, yet the code's rating is `HeaderOnly` — the
source checks `index.records.is_empty()` before the percentage thresholds
— while the claim's listed order (Full first) would rate it `Full`. -/
theorem c8_quality_priority_counterexample :
    (scanFile testParams c8File).totalScanned = 1 ∧
      (scanFile testParams c8File).healthyBlocks = 1 ∧
      (scanFile testParams c8File).index.records.isEmpty = true ∧
      (scanFile testParams c8File).quality = RecoveryQuality.HeaderOnly ∧
      c8ClaimQuality (scanFile testParams c8File).totalScanned
        (scanFile testParams c8File).healthyBlocks
        (scanFile testParams c8File).index.records.isEmpty =
          RecoveryQuality.Full := by
  refine ⟨?_, ?_, ?_, ?_, ?_⟩ <;>
    (simp only [scanFile, scan]; rw [c8_scan_state]; try rfl)

/-- C8 (amended): for every completed scan the quality rating follows the
source's priority order: `Catastrophic` when no candidate was scanned,
otherwise `HeaderOnly` whenever the reconstructed records are empty (even
when 100% of candidates were Healthy), and only then `Full` at ≥95%
healthy and `Partial` at ≥50%, with `Catastrophic` below that. -/
theorem c8_quality_amended (p : Params) (file : List Nat) (hint : Nat) :
    (scan p file hint).quality =
      (if (scan p file hint).totalScanned = 0 then
        RecoveryQuality.Catastrophic
       else if (scan p file hint).index.records.isEmpty then
        RecoveryQuality.HeaderOnly
       else if (scan p file hint).healthyBlocks * 100 ≥
          (scan p file hint).totalScanned * 95 then RecoveryQuality.Full
       else if (scan p file hint).healthyBlocks * 100 ≥
          (scan p file hint).totalScanned * 50 then RecoveryQuality.Partial
       else RecoveryQuality.Catastrophic) := by
  rfl

/-! ## Round-trip infrastructure (C1) -/

/-- Writing at the exact end of the stream appends. -/
theorem overwriteAt_append (out d : List Nat) :
    overwriteAt out out.length d = out ++ d := by
  unfold overwriteAt
  rw [List.take_length, Nat.sub_self, List.replicate_zero,
    List.drop_eq_nil_of_le (by omega)]
  simp

/-- Rewriting the first 256 bytes (the superblock rewrite of `finalize`)
splices the new bytes in front of the rest of the stream. -/
theorem overwriteAt_front (out sb : List Nat) (hsb : sb.length = 256) :
    overwriteAt out 0 sb = sb ++ out.drop 256 := by
  unfold overwriteAt
  rw [List.take_zero, Nat.zero_sub, List.replicate_zero, hsb]
  simp

theorem drop_append_of_le (l1 l2 : List Nat) (n : Nat) (h : n ≤ l1.length) :
    (l1 ++ l2).drop n = l1.drop n ++ l2 := by
  rw [List.drop_append_eq_append_drop, Nat.sub_eq_zero_of_le h,
    List.drop_zero]

theorem drop_overwriteAt_front (out sb : List Nat) (off : Nat)
    (hsb : sb.length = 256) (hoff : 256 ≤ off) :
    (overwriteAt out 0 sb).drop off = out.drop off := by
  rw [overwriteAt_front out sb hsb, List.drop_append_eq_append_drop, hsb,
    List.drop_eq_nil_of_le (by omega), List.nil_append, List.drop_drop]
  congr 1
  omega

/-- A decodable block sits at `off` in the stream: a well-formed written
header, then exactly `comp_size` payload bytes that decode (unencrypted)
to the plaintext `c`. -/
def BlockAt (p : Params) (out : List Nat) (off : Nat) (c : List Nat) : Prop :=
  ∃ hdr payload rest, out.drop off = hdr.writeBytes ++ (payload ++ rest) ∧
    hdr.WF ∧ payload.length = hdr.compSize ∧
    decodeBlock p hdr payload none = .ok c

theorem BlockAt.appendRight {p : Params} {out : List Nat} {off : Nat}
    {c : List Nat} (ext : List Nat) (h : BlockAt p out off c) :
    BlockAt p (out ++ ext) off c := by
  obtain ⟨hdr, payload, rest, hdrop, hWF, hplen, hdec⟩ := h
  have hcu : hdr.codecUuid.length = 16 := hWF.2.2.1
  have hch : hdr.contentHash.length = 32 := hWF.2.2.2.2.2.2.2
  have hoff : off ≤ out.length := by
    by_contra hlt
    push_neg at hlt
    have hnil : out.drop off = [] := List.drop_eq_nil_of_le (le_of_lt hlt)
    rw [hnil] at hdrop
    have := congrArg List.length hdrop
    rw [List.length_nil, List.length_append,
      BlockHeader.writeBytes_length hdr hcu hch] at this
    omega
  refine ⟨hdr, payload, rest ++ ext, ?_, hWF, hplen, hdec⟩
  rw [drop_append_of_le out ext off hoff, hdrop, List.append_assoc,
    List.append_assoc]

theorem BlockAt.overwriteSb {p : Params} {out : List Nat} {off : Nat}
    {c : List Nat} (sb : List Nat) (hsb : sb.length = 256)
    (hoff : 256 ≤ off) (h : BlockAt p out off c) :
    BlockAt p (overwriteAt out 0 sb) off c := by
  obtain ⟨hdr, payload, rest, hdrop, hWF, hplen, hdec⟩ := h
  exact ⟨hdr, payload, rest,
    by rw [drop_overwriteAt_front out sb off hsb hoff]; exact hdrop,
    hWF, hplen, hdec⟩

/-- The two reader head steps over a block in `BlockAt` position: header
parse and exact payload read. -/
theorem blockAt_read_steps (p : Params) (out : List Nat) (off : Nat)
    (hdr : BlockHeader) (payload rest : List Nat)
    (hdrop : out.drop off = hdr.writeBytes ++ (payload ++ rest))
    (hWF : hdr.WF) (hplen : payload.length = hdr.compSize) :
    BlockHeader.read (out.drop off) = .ok hdr ∧
      readExact (out.drop (off + 84)) hdr.compSize = .ok payload := by
  have hcu : hdr.codecUuid.length = 16 := hWF.2.2.1
  have hch : hdr.contentHash.length = 32 := hWF.2.2.2.2.2.2.2
  constructor
  · rw [hdrop]
    exact BlockHeader.read_writeBytes hdr hWF (payload ++ rest)
  · have h1 : out.drop (off + 84) = payload ++ rest := by
      rw [← List.drop_drop, hdrop,
        ← BlockHeader.writeBytes_length hdr hcu hch]
      exact List.drop_left _ _
    rw [h1]
    unfold readExact
    rw [if_neg (by rw [List.length_append, hplen]; omega)]
    rw [← hplen, List.take_left]

/-- A non-solid ref in `BlockAt` position decompresses to its plaintext. -/
theorem decompressRef_blockAt (p : Params) (file : List Nat) (br : BlockRef)
    (c : List Nat) (hss : br.isSolidSlice = false)
    (h : BlockAt p file br.archiveOffset c) :
    SixCyReader.decompressRef p file none br = .ok c := by
  obtain ⟨hdr, payload, rest, hdrop, hWF, hplen, hdec⟩ := h
  obtain ⟨hread, hexact⟩ :=
    blockAt_read_steps p file br.archiveOffset hdr payload rest hdrop hWF hplen
  unfold SixCyReader.decompressRef SixCyReader.readBlockAt
  rw [hread]
  dsimp only
  rw [hexact]
  dsimp only
  rw [hdec]
  dsimp only
  rw [hss]
  simp

/-- A ref together with its decoded plaintext, as the writer guarantees it
for normal (non-solid) Data refs: non-solid, past the superblock area,
decodable from the stream. -/
def C1Ref (p : Params) (out : List Nat) (br : BlockRef) (c : List Nat) :
    Prop :=
  br.isSolidSlice = false ∧ 256 ≤ br.archiveOffset ∧
    BlockAt p out br.archiveOffset c

theorem C1Ref.append {p : Params} {out : List Nat} {br : BlockRef}
    {c : List Nat} (ext : List Nat) (h : C1Ref p out br c) :
    C1Ref p (out ++ ext) br c :=
  ⟨h.1, h.2.1, BlockAt.appendRight ext h.2.2⟩

theorem C1Ref.overwriteFront {p : Params} {out : List Nat} {br : BlockRef}
    {c : List Nat} (sb : List Nat) (hsb : sb.length = 256)
    (h : C1Ref p out br c) :
    C1Ref p (overwriteAt out 0 sb) br c :=
  ⟨h.1, h.2.1, BlockAt.overwriteSb sb hsb h.2.1 h.2.2⟩

/-- The concatenation loop of `unpack_file` returns the concatenation of
the plaintexts of refs it can decode. -/
theorem unpackRefs_ok (p : Params) (file : List Nat) :
    ∀ {refs : List BlockRef} {cs : List (List Nat)},
      List.Forall₂ (C1Ref p file) refs cs →
      unpackRefs p file none refs = .ok cs.flatten := by
  intro refs cs h
  induction h with
  | nil => rfl
  | cons h1 h2 ih =>
      unfold unpackRefs
      rw [decompressRef_blockAt p file _ _ h1.1 h1.2.2]
      dsimp only
      rw [ih]
      rfl

/-- An unencrypted `encode_block` yields a well-formed header whose
`comp_size` is exactly the payload length, and the block decodes back to
the plaintext under the codec round-trip contract. -/
theorem encodeBlock_c1 (p : Params) (bt : BlockType) (fid foff : Nat)
    (chunk : List Nat) (cd : CodecId) (lvl : Int)
    (hfid : fid < 2 ^ 32) (hfoff : foff < 2 ^ 64)
    (hrt : p.decomp cd (p.comp cd lvl chunk) = chunk)
    (hclen : (p.comp cd lvl chunk).length < 2 ^ 32) :
    (encodeBlock p bt fid foff chunk cd lvl none).2 = p.comp cd lvl chunk ∧
      (encodeBlock p bt fid foff chunk cd lvl none).1.WF ∧
      (encodeBlock p bt fid foff chunk cd lvl none).2.length =
        (encodeBlock p bt fid foff chunk cd lvl none).1.compSize ∧
      decodeBlock p (encodeBlock p bt fid foff chunk cd lvl none).1
        (encodeBlock p bt fid foff chunk cd lvl none).2 none = .ok chunk := by
  have hpay : (encodeBlock p bt fid foff chunk cd lvl none).2 =
      p.comp cd lvl chunk := rfl
  refine ⟨hpay, ⟨rfl, ?_, CodecId.uuid_length cd, hfid, hfoff, ?_, ?_, hash32_length p chunk⟩, ?_, ?_⟩
  · show (0 : Nat) < 2 ^ 16
    decide
  · show chunk.length % 2 ^ 32 < 2 ^ 32
    exact Nat.mod_lt _ (by decide)
  · show (p.comp cd lvl chunk).length % 2 ^ 32 < 2 ^ 32
    exact Nat.mod_lt _ (by decide)
  · show (p.comp cd lvl chunk).length =
      (p.comp cd lvl chunk).length % 2 ^ 32
    rw [Nat.mod_eq_of_lt hclen]
  · show decodeBlock p (encodeBlock p bt fid foff chunk cd lvl none).1
      (p.comp cd lvl chunk) none = .ok chunk
    unfold decodeBlock
    have henc : (encodeBlock p bt fid foff chunk cd lvl none).1.isEncrypted
        = false := rfl
    rw [henc]
    dsimp only [Bool.false_eq_true, if_false]
    have hcu : (encodeBlock p bt fid foff chunk cd lvl none).1.codecUuid
        = cd.uuid := rfl
    rw [hcu, CodecId.fromUuid_uuid]
    simp only [Bool.false_eq_true, if_false]
    rw [hrt]
    exact if_pos rfl

/-- The emitted bytes of a CAS-miss step, when the writer position is at
the end of the stream: the block is appended. -/
theorem missWriter_out (p : Params) (c : CodecId) (f idx : Nat)
    (chunk : List Nat) (w : SixCyWriter) (hpos : w.pos = w.out.length) :
    (missWriter p c f idx chunk w).out = w.out ++
      ((encodeBlock p BlockType.Data f (idx * w.chunkSize % 2 ^ 64) chunk c
          w.compressionLevel w.encryptionKey).1.writeBytes ++
        (encodeBlock p BlockType.Data f (idx * w.chunkSize % 2 ^ 64) chunk c
          w.compressionLevel w.encryptionKey).2) := by
  show overwriteAt w.out w.pos _ = _
  rw [hpos, overwriteAt_append]

theorem missWriter_pos (p : Params) (c : CodecId) (f idx : Nat)
    (chunk : List Nat) (w : SixCyWriter) :
    (missWriter p c f idx chunk w).pos = w.pos + 84 +
      (encodeBlock p BlockType.Data f (idx * w.chunkSize % 2 ^ 64) chunk c
        w.compressionLevel w.encryptionKey).2.length := rfl

theorem missWriter_compressionLevel (p : Params) (c : CodecId) (f idx : Nat)
    (chunk : List Nat) (w : SixCyWriter) :
    (missWriter p c f idx chunk w).compressionLevel = w.compressionLevel :=
  rfl

theorem missWriter_encryptionKey (p : Params) (c : CodecId) (f idx : Nat)
    (chunk : List Nat) (w : SixCyWriter) :
    (missWriter p c f idx chunk w).encryptionKey = w.encryptionKey := rfl

/-- The CAS table's entries all point at decodable blocks whose plaintexts
are chunks of the file being written. -/
def DedupC1 (p : Params) (CH : List (List Nat)) (out : List Nat)
    (m : List (List Nat × Nat × Nat)) : Prop :=
  ∀ k r, dedupLookup m k = some r →
    ∃ c ∈ CH, hash32 p c = k ∧ 256 ≤ r.1 ∧ BlockAt p out r.1 c

/-- The per-chunk loop of `add_file` keeps the position at the end of the
stream and builds a record whose refs decode, in order, to exactly the
chunks consumed — under the codec round-trip contract and injectivity of
the content hash on the file's chunks. -/
theorem addChunksGo_c1 (p : Params) (codec : CodecId) (fid : Nat)
    (lvl : Int) (CH : List (List Nat))
    (hrt : ∀ d, p.decomp codec (p.comp codec lvl d) = d)
    (hclen : ∀ c ∈ CH, (p.comp codec lvl c).length < 2 ^ 32)
    (hinj : ∀ c1 ∈ CH, ∀ c2 ∈ CH, hash32 p c1 = hash32 p c2 → c1 = c2)
    (hfid : fid < 2 ^ 32) :
    ∀ (l : List (Nat × List Nat)) (w : SixCyWriter) (rec : FileIndexRecord)
      (cs0 : List (List Nat)),
      w.compressionLevel = lvl → w.encryptionKey = none →
      w.pos = w.out.length → 256 ≤ w.out.length →
      (∀ c ∈ l.map Prod.snd, c ∈ CH) →
      DedupC1 p CH w.out w.blockDedup →
      List.Forall₂ (C1Ref p w.out) rec.blockRefs cs0 →
      (SixCyWriter.addChunksGo p codec fid l w rec).1.pos =
          (SixCyWriter.addChunksGo p codec fid l w rec).1.out.length ∧
        256 ≤ (SixCyWriter.addChunksGo p codec fid l w rec).1.out.length ∧
        List.Forall₂
          (C1Ref p (SixCyWriter.addChunksGo p codec fid l w rec).1.out)
          (SixCyWriter.addChunksGo p codec fid l w rec).2.blockRefs
          (cs0 ++ l.map Prod.snd) := by
  intro l
  induction l with
  | nil =>
      intro w rec cs0 _ _ hpos h256 _ _ hforall
      exact ⟨hpos, h256, by simpa using hforall⟩
  | cons hd tl ih =>
      intro w rec cs0 hlvl hkey hpos h256 hmem hdedup hforall
      obtain ⟨idx, chunk⟩ := hd
      have hchunkCH : chunk ∈ CH := hmem chunk (List.mem_cons_self _ _)
      have hmemtl : ∀ c ∈ tl.map Prod.snd, c ∈ CH :=
        fun c hc => hmem c (List.mem_cons_of_mem _ hc)
      cases hdl : dedupLookup w.blockDedup (hash32 p chunk) with
      | some ol =>
          rw [addChunksGo_cons_some p codec fid idx chunk tl w rec ol hdl]
          obtain ⟨c, hcCH, hch, h256o, hBA⟩ := hdedup _ _ hdl
          have hceq : c = chunk := hinj c hcCH chunk hchunkCH hch
          subst hceq
          have hnew : C1Ref p w.out ⟨hash32 p c, ol.1, 0, 0⟩ c :=
            ⟨rfl, h256o, hBA⟩
          have hf2 : List.Forall₂ (C1Ref p w.out)
              (hitRec p c ol rec).blockRefs (cs0 ++ [c]) := by
            rw [hitRec_blockRefs]
            exact List.rel_append hforall
              (List.Forall₂.cons hnew List.Forall₂.nil)
          have hres := ih w (hitRec p c ol rec) (cs0 ++ [c]) hlvl hkey hpos
            h256 hmemtl hdedup hf2
          rwa [List.append_assoc, List.singleton_append] at hres
      | none =>
          rw [addChunksGo_cons_none p codec fid idx chunk tl w rec hdl]
          have hEeq : encodeBlock p BlockType.Data fid
              (idx * w.chunkSize % 2 ^ 64) chunk codec w.compressionLevel
              w.encryptionKey =
              encodeBlock p BlockType.Data fid (idx * w.chunkSize % 2 ^ 64)
                chunk codec lvl none := by
            rw [hlvl, hkey]
          have hE := encodeBlock_c1 p BlockType.Data fid
            (idx * w.chunkSize % 2 ^ 64) chunk codec lvl hfid
            (Nat.mod_lt _ (by decide)) (hrt chunk) (hclen chunk hchunkCH)
          obtain ⟨hEpay, hEWF, hEplen, hEdec⟩ := hE
          have hwbl : (encodeBlock p BlockType.Data fid
              (idx * w.chunkSize % 2 ^ 64) chunk codec lvl
              none).1.writeBytes.length = 84 :=
            BlockHeader.writeBytes_length _ hEWF.2.2.1 hEWF.2.2.2.2.2.2.2
          have hout : (missWriter p codec fid idx chunk w).out = w.out ++
              ((encodeBlock p BlockType.Data fid (idx * w.chunkSize % 2 ^ 64)
                  chunk codec lvl none).1.writeBytes ++
                (encodeBlock p BlockType.Data fid (idx * w.chunkSize % 2 ^ 64)
                  chunk codec lvl none).2) := by
            rw [missWriter_out p codec fid idx chunk w hpos, hEeq]
          have hpos2 : (missWriter p codec fid idx chunk w).pos =
              w.pos + 84 + (encodeBlock p BlockType.Data fid
                (idx * w.chunkSize % 2 ^ 64) chunk codec lvl none).2.length := by
            rw [missWriter_pos p codec fid idx chunk w, hEeq]
          have hposlen : (missWriter p codec fid idx chunk w).pos =
              (missWriter p codec fid idx chunk w).out.length := by
            rw [hpos2, hout, List.length_append, List.length_append, hwbl,
              hpos]
            omega
          have h256b : 256 ≤ (missWriter p codec fid idx chunk w).out.length := by
            rw [hout, List.length_append]
            omega
          have hBAnew : BlockAt p (missWriter p codec fid idx chunk w).out
              w.pos chunk := by
            refine ⟨_, _, [], ?_, hEWF, hEplen, hEdec⟩
            rw [hout, hpos, List.drop_left, List.append_nil]
          have hnew : C1Ref p (missWriter p codec fid idx chunk w).out
              ⟨hash32 p chunk, w.pos, 0, 0⟩ chunk :=
            ⟨rfl, by rw [hpos]; exact h256, hBAnew⟩
          have hdedup2 : DedupC1 p CH (missWriter p codec fid idx chunk w).out
              (missWriter p codec fid idx chunk w).blockDedup := by
            intro k r hlk
            rw [missWriter_blockDedup p codec fid idx chunk w, hEeq] at hlk
            cases hold : dedupLookup w.blockDedup k with
            | some r0 =>
                rw [dedupLookup_insert_some _ _ _ hold] at hlk
                cases hlk
                obtain ⟨c, hcCH, hch, h256o, hBA⟩ := hdedup _ _ hold
                exact ⟨c, hcCH, hch, h256o,
                  (by rw [hout]; exact BlockAt.appendRight _ hBA)⟩
            | none =>
                rw [dedupLookup_insert_none _ _ _ hold] at hlk
                split at hlk
                · rename_i hkk
                  cases hlk
                  exact ⟨chunk, hchunkCH, hkk.symm,
                    (by rw [hpos]; exact h256), hBAnew⟩
                · cases hlk
          have hf2 : List.Forall₂
              (C1Ref p (missWriter p codec fid idx chunk w).out)
              (missRec p codec fid idx chunk w rec).blockRefs
              (cs0 ++ [chunk]) := by
            rw [missRec_blockRefs]
            refine List.rel_append ?_
              (List.Forall₂.cons hnew List.Forall₂.nil)
            exact hforall.imp (fun a b hab => by
              rw [hout]
              exact C1Ref.append _ hab)
          have hres := ih (missWriter p codec fid idx chunk w)
            (missRec p codec fid idx chunk w rec) (cs0 ++ [chunk])
            (by rw [missWriter_compressionLevel]; exact hlvl)
            (by rw [missWriter_encryptionKey]; exact hkey)
            hposlen h256b hmemtl hdedup2 hf2
          rwa [List.append_assoc, List.singleton_append] at hres

theorem addChunksGo_encryptionKey (p : Params) (c : CodecId) (f : Nat)
    (l : List (Nat × List Nat)) (w : SixCyWriter) (r : FileIndexRecord) :
    (SixCyWriter.addChunksGo p c f l w r).1.encryptionKey =
      w.encryptionKey := by
  induction l generalizing w r with
  | nil => rfl
  | cons hd tl ih =>
      obtain ⟨idx, chunk⟩ := hd
      unfold SixCyWriter.addChunksGo
      cases hdl : dedupLookup w.blockDedup (hash32 p chunk) with
      | some ol => simp only [hdl]; rw [ih]
      | none => simp only [hdl]; rw [ih]; rfl

/-- After a single non-solid `add_file` on a fresh writer: exactly one
record, named as requested, whose refs decode in order to the file's
chunks; the position sits at the end of the stream, past the reserved
superblock area; no solid session, no key; the superblock has registered
exactly the file's codec. -/
theorem addFile_c1 (p : Params) (uuid name data : List Nat) (cs : Nat)
    (lvl : Int) (codec : CodecId)
    (hrt : ∀ d, p.decomp codec (p.comp codec lvl d) = d)
    (hclen : ∀ c ∈ listChunks (max cs 1) data,
      (p.comp codec lvl c).length < 2 ^ 32)
    (hinj : ∀ c1 ∈ listChunks (max cs 1) data,
      ∀ c2 ∈ listChunks (max cs 1) data,
        hash32 p c1 = hash32 p c2 → c1 = c2)
    (wa : SixCyWriter)
    (hwa : wa = (SixCyWriter.withOptions uuid cs lvl none).addFile p
      name data codec) :
    ∃ rec,
      wa.index.records = [rec] ∧ rec.name = name ∧
      List.Forall₂ (C1Ref p wa.out) rec.blockRefs
        (listChunks (max cs 1) data) ∧
      wa.pos = wa.out.length ∧ 256 ≤ wa.out.length ∧
      wa.solidCodec = none ∧ wa.encryptionKey = none ∧
      wa.superblock = (Superblock.new uuid).addRequiredCodec codec := by
  subst hwa
  have hs : ¬ ((SixCyWriter.withOptions uuid cs lvl none).solidCodec.isSome
      = true) := by
    exact Bool.noConfusion
  unfold SixCyWriter.addFile
  rw [if_neg hs]
  dsimp only
  set w0 := SixCyWriter.withOptions uuid cs lvl none with hw0
  set wr := SixCyWriter.addChunksGo p codec (w0.index.records.length % 2 ^ 32)
    (listChunks w0.chunkSize data).enum
    { w0 with superblock := w0.superblock.addRequiredCodec codec }
    { id := w0.index.records.length % 2 ^ 32, parentId := 0, name := name
      blockRefs := [], originalSize := data.length % 2 ^ 64
      compressedSize := 0, metadata := [] } with hwr
  have hcs : w0.chunkSize = max cs 1 := rfl
  have hchunks := addChunksGo_c1 p codec (w0.index.records.length % 2 ^ 32)
    lvl (listChunks (max cs 1) data) hrt hclen hinj
    (Nat.mod_lt _ (by decide))
    (listChunks w0.chunkSize data).enum
    { w0 with superblock := w0.superblock.addRequiredCodec codec }
    { id := w0.index.records.length % 2 ^ 32, parentId := 0, name := name
      blockRefs := [], originalSize := data.length % 2 ^ 64
      compressedSize := 0, metadata := [] }
    [] rfl rfl rfl le_rfl
    (by
      rw [hcs, List.enum_map_snd]
      exact fun c hc => hc)
    (fun k r hk => Option.noConfusion hk)
    List.Forall₂.nil
  rw [← hwr] at hchunks
  obtain ⟨hpos, h256, hforall⟩ := hchunks
  rw [hcs, List.enum_map_snd, List.nil_append] at hforall
  refine ⟨wr.2, ?_, ?_, hforall, hpos, h256, ?_, ?_, ?_⟩
  · show wr.1.index.records ++ [wr.2] = [wr.2]
    rw [hwr, addChunksGo_index]
    rfl
  · rw [hwr, (addChunksGo_rec_const p codec _ _ _ _).2]
  · show wr.1.solidCodec = none
    rw [hwr, addChunksGo_solidCodec]
    rfl
  · show wr.1.encryptionKey = none
    rw [hwr, addChunksGo_encryptionKey]
    rfl
  · show wr.1.superblock = (Superblock.new uuid).addRequiredCodec codec
    rw [hwr, addChunksGo_superblock]
    rfl

/-- `finalize` on a non-solid, unencrypted writer whose position is at the
end of the stream: appends the Index block and the length-prefixed
recovery map, then rewrites the superblock in place at offset 0. -/
theorem finalize_c1 (p : Params) (w : SixCyWriter) (b : List Nat)
    (hsolid : w.solidCodec = none) (hkey : w.encryptionKey = none)
    (hpos : w.pos = w.out.length)
    (hwbl : (encodeBlock p BlockType.Index FILE_ID_SHARED 0
      ((w.index.computeRootHash p).toBytes) CodecId.Zstd
      DEFAULT_COMPRESSION_LEVEL none).1.writeBytes.length = 84)
    (hw : Superblock.write { w.superblock with
        indexOffset := w.pos
        indexSize := (encodeBlock p BlockType.Index FILE_ID_SHARED 0
          ((w.index.computeRootHash p).toBytes) CodecId.Zstd
          DEFAULT_COMPRESSION_LEVEL none).2.length } = .ok b) :
    ∃ w2, w.finalize p = .ok w2 ∧
      w2.out = overwriteAt
        ((w.out ++ ((encodeBlock p BlockType.Index FILE_ID_SHARED 0
            ((w.index.computeRootHash p).toBytes) CodecId.Zstd
            DEFAULT_COMPRESSION_LEVEL none).1.writeBytes ++
          (encodeBlock p BlockType.Index FILE_ID_SHARED 0
            ((w.index.computeRootHash p).toBytes) CodecId.Zstd
            DEFAULT_COMPRESSION_LEVEL none).2)) ++
          (leBytes 8 (RecoveryMap.toBytes w.recoveryMap).length ++
            RecoveryMap.toBytes w.recoveryMap)) 0 b := by
  have hfl : w.flushSolidSession p = w := by
    unfold SixCyWriter.flushSolidSession
    rw [hsolid]
  unfold SixCyWriter.finalize
  rw [hfl]
  simp only [SixCyWriter.emitBlock]
  rw [hkey]
  simp only [Option.isSome_none, Bool.false_eq_true, if_false]
  rw [hw]
  refine ⟨_, rfl, ?_⟩
  dsimp only
  rw [hpos, overwriteAt_append]
  congr 1
  have hlen2 : w.out.length + 84 + (encodeBlock p BlockType.Index
      FILE_ID_SHARED 0 ((w.index.computeRootHash p).toBytes) CodecId.Zstd
      DEFAULT_COMPRESSION_LEVEL none).2.length =
      (w.out ++ ((encodeBlock p BlockType.Index FILE_ID_SHARED 0
        ((w.index.computeRootHash p).toBytes) CodecId.Zstd
        DEFAULT_COMPRESSION_LEVEL none).1.writeBytes ++
        (encodeBlock p BlockType.Index FILE_ID_SHARED 0
        ((w.index.computeRootHash p).toBytes) CodecId.Zstd
        DEFAULT_COMPRESSION_LEVEL none).2)).length := by
    rw [List.length_append, List.length_append, hwbl]
    omega
  rw [hlen2, overwriteAt_append]

/-- `SixCyReader::with_key` succeeds on a stream carrying a valid written
superblock (with only resolvable codec UUIDs) and a decodable index block
at `index_offset`, yielding the deserialized index. -/
theorem withKey_c1 (p : Params) (file : List Nat) (sb : Superblock)
    (hWF : sb.WF) (sbb rest : List Nat) (hwrite : sb.write = .ok sbb)
    (hfile : file = sbb ++ rest)
    (hfu : firstUnknownUuid sb.requiredCodecUuids = none)
    (idx : FileIndex) (hdr : BlockHeader) (payload rest2 : List Nat)
    (hdrop : file.drop sb.indexOffset = hdr.writeBytes ++ (payload ++ rest2))
    (hhWF : hdr.WF) (hplen : payload.length = hdr.compSize)
    (hdec : decodeBlock p hdr payload none = .ok idx.toBytes) :
    SixCyReader.withKey p file none = .ok
      { file := file, superblock := sb, index := idx,
        decryptionKey := none } := by
  have hparse : Superblock.parse file = .ok sb := by
    rw [hfile]
    exact Superblock.parse_write sb hWF hwrite rest
  have hsbread : Superblock.read file = .ok sb := by
    unfold Superblock.read
    rw [hparse]
    dsimp only
    unfold Superblock.checkCodecs
    rw [hfu]
  obtain ⟨hbh, hex⟩ := blockAt_read_steps p file sb.indexOffset hdr payload
    rest2 hdrop hhWF hplen
  unfold SixCyReader.withKey
  rw [hsbread]
  dsimp only
  rw [hbh]
  dsimp only
  rw [hex]
  dsimp only
  rw [hdec]
  dsimp only
  rw [FileIndex.fromBytes_toBytes]

/-- A superblock stays well-formed when `finalize` patches the index
location, provided the new offset and size fit `u64`. -/
theorem Superblock.WF_setIndex (sb : Superblock) (h : sb.WF) (io is2 : Nat)
    (hio : io < 2 ^ 64) (his : is2 < 2 ^ 64) :
    ({ sb with indexOffset := io, indexSize := is2 } : Superblock).WF := by
  obtain ⟨h1, h2, h3, h4, h5, _, _, h8⟩ := h
  exact ⟨h1, h2, h3, h4, h5, hio, his, h8⟩

/-- The spec's round-trip scenario: create an archive (chunk size and
level free, no encryption), add one file under `codec`, finalize, reopen
the produced bytes, read the file back by name. -/
def roundTrip (p : Params) (uuid name data : List Nat) (cs : Nat)
    (lvl : Int) (codec : CodecId) : Except ArchiveErr (List Nat) :=
  match ((SixCyWriter.withOptions uuid cs lvl none).addFile p name data
      codec).finalize p with
  | .error e => .error e
  | .ok w2 =>
    match SixCyReader.withKey p w2.out none with
    | .error e => .error e
    | .ok r => Archive.readFileR p r name

/-- C1: for every payload and codec the write→finalize→reopen→read
pipeline returns exactly the original data, under the external-primitive
contracts: the codec round-trips (the file's codec at the chosen level,
and Zstd at the default level used for the Index block), compressed
outputs fit `u32`, the content hash is collision-free on the file's
chunks, and the final archive offset fits `u64`. -/
theorem c1_round_trip (p : Params) (uuid name data : List Nat) (cs : Nat)
    (lvl : Int) (codec : CodecId)
    (huuid : uuid.length = 16)
    (hrt : ∀ d, p.decomp codec (p.comp codec lvl d) = d)
    (hrtZ : ∀ d, p.decomp CodecId.Zstd
      (p.comp CodecId.Zstd DEFAULT_COMPRESSION_LEVEL d) = d)
    (hclen : ∀ c ∈ listChunks (max cs 1) data,
      (p.comp codec lvl c).length < 2 ^ 32)
    (hinj : ∀ c1 ∈ listChunks (max cs 1) data,
      ∀ c2 ∈ listChunks (max cs 1) data,
        hash32 p c1 = hash32 p c2 → c1 = c2)
    (hidxlen : (p.comp CodecId.Zstd DEFAULT_COMPRESSION_LEVEL
      (((((SixCyWriter.withOptions uuid cs lvl none).addFile p name data
        codec).index).computeRootHash p).toBytes)).length < 2 ^ 32)
    (hposlt : ((SixCyWriter.withOptions uuid cs lvl none).addFile p name
      data codec).pos < 2 ^ 64) :
    roundTrip p uuid name data cs lvl codec = .ok data := by
  unfold roundTrip
  set wa := (SixCyWriter.withOptions uuid cs lvl none).addFile p name data
    codec with hwa
  obtain ⟨rec, hrecs, hname, hforall, hpos, h256, hsolid, hkeyw, hsb⟩ :=
    addFile_c1 p uuid name data cs lvl codec hrt hclen hinj wa hwa
  obtain ⟨hIBpay, hIBWF, hIBplen, hIBdec⟩ := encodeBlock_c1 p BlockType.Index
    FILE_ID_SHARED 0 ((wa.index.computeRootHash p).toBytes) CodecId.Zstd
    DEFAULT_COMPRESSION_LEVEL (by decide) (by decide) (hrtZ _) hidxlen
  have hIBwbl : (encodeBlock p BlockType.Index FILE_ID_SHARED 0 ((wa.index.computeRootHash p).toBytes) CodecId.Zstd DEFAULT_COMPRESSION_LEVEL none).1.writeBytes.length = 84 :=
    BlockHeader.writeBytes_length _ hIBWF.2.2.1 hIBWF.2.2.2.2.2.2.2
  have hfields : ((Superblock.new uuid).addRequiredCodec codec).magic
        = SB_MAGIC ∧
      ((Superblock.new uuid).addRequiredCodec codec).formatVersion = 3 ∧
      ((Superblock.new uuid).addRequiredCodec codec).archiveUuid = uuid ∧
      ((Superblock.new uuid).addRequiredCodec codec).flags = 0 := by
    unfold Superblock.addRequiredCodec
    split
    · exact ⟨rfl, rfl, rfl, rfl⟩
    · split
      · exact ⟨rfl, rfl, rfl, rfl⟩
      · exact ⟨rfl, rfl, rfl, rfl⟩
  have hru : ((Superblock.new uuid).addRequiredCodec codec).requiredCodecUuids
        = [] ∨
      ((Superblock.new uuid).addRequiredCodec codec).requiredCodecUuids
        = [codec.uuid] := by
    unfold Superblock.addRequiredCodec
    split
    · exact Or.inl rfl
    · split
      · rename_i hcont
        exact absurd hcont Bool.noConfusion
      · exact Or.inr rfl
  have hWFbase : ((Superblock.new uuid).addRequiredCodec codec).WF := by
    refine ⟨hfields.1, ?_, ?_, ?_, ?_, ?_, ?_, ?_⟩
    · rw [hfields.2.1]
      decide
    · rw [hfields.2.1]
      norm_num
    · rw [hfields.2.2.1]
      exact huuid
    · rw [hfields.2.2.2]
      norm_num
    · rcases hru with h | h
      all_goals rw [show ((Superblock.new uuid).addRequiredCodec
        codec).indexOffset = 0 from by
          unfold Superblock.addRequiredCodec
          split
          · rfl
          · split
            · rfl
            · rfl]
      all_goals norm_num
    · rcases hru with h | h
      all_goals rw [show ((Superblock.new uuid).addRequiredCodec
        codec).indexSize = 0 from by
          unfold Superblock.addRequiredCodec
          split
          · rfl
          · split
            · rfl
            · rfl]
      all_goals norm_num
    · rcases hru with h | h
      · rw [h]
        exact fun u hu => absurd hu (List.not_mem_nil u)
      · rw [h]
        intro u hu
        rw [List.mem_singleton] at hu
        rw [hu]
        exact CodecId.uuid_length codec
  have hWFwa : wa.superblock.WF := by
    rw [hsb]
    exact hWFbase
  have hIS32 : (encodeBlock p BlockType.Index FILE_ID_SHARED 0 ((wa.index.computeRootHash p).toBytes) CodecId.Zstd DEFAULT_COMPRESSION_LEVEL none).2.length < 2 ^ 32 := by
    rw [hIBpay]
    exact hidxlen
  have hWFup : ({ wa.superblock with indexOffset := wa.pos, indexSize := (encodeBlock p BlockType.Index FILE_ID_SHARED 0 ((wa.index.computeRootHash p).toBytes) CodecId.Zstd DEFAULT_COMPRESSION_LEVEL none).2.length } : Superblock).WF :=
    Superblock.WF_setIndex wa.superblock hWFwa wa.pos (encodeBlock p BlockType.Index FILE_ID_SHARED 0 ((wa.index.computeRootHash p).toBytes) CodecId.Zstd DEFAULT_COMPRESSION_LEVEL none).2.length hposlt
      (lt_trans hIS32 (by norm_num))
  have hreq : ({ wa.superblock with indexOffset := wa.pos, indexSize := (encodeBlock p BlockType.Index FILE_ID_SHARED 0 ((wa.index.computeRootHash p).toBytes) CodecId.Zstd DEFAULT_COMPRESSION_LEVEL none).2.length } : Superblock).requiredCodecUuids
      = ((Superblock.new uuid).addRequiredCodec codec).requiredCodecUuids := by
    have hreq0 : wa.superblock.requiredCodecUuids =
        ((Superblock.new uuid).addRequiredCodec codec).requiredCodecUuids :=
      congrArg Superblock.requiredCodecUuids hsb
    exact hreq0
  have hle12 : ({ wa.superblock with indexOffset := wa.pos, indexSize := (encodeBlock p BlockType.Index FILE_ID_SHARED 0 ((wa.index.computeRootHash p).toBytes) CodecId.Zstd DEFAULT_COMPRESSION_LEVEL none).2.length } : Superblock).requiredCodecUuids.length ≤ 12 := by
    rw [hreq]
    rcases hru with h | h
    all_goals rw [h]
    all_goals simp
  have hwex : ∃ bb, Superblock.write ({ wa.superblock with indexOffset := wa.pos, indexSize := (encodeBlock p BlockType.Index FILE_ID_SHARED 0 ((wa.index.computeRootHash p).toBytes) CodecId.Zstd DEFAULT_COMPRESSION_LEVEL none).2.length } : Superblock) = .ok bb := by
    have hisok := (Superblock.write_isOk_iff _ hWFup).mpr hle12
    cases hwq : Superblock.write ({ wa.superblock with indexOffset := wa.pos, indexSize := (encodeBlock p BlockType.Index FILE_ID_SHARED 0 ((wa.index.computeRootHash p).toBytes) CodecId.Zstd DEFAULT_COMPRESSION_LEVEL none).2.length } : Superblock) with
    | error e =>
        rw [hwq] at hisok
        exact absurd hisok (by simp [Except.isOk, Except.toBool])
    | ok bb => exact ⟨bb, rfl⟩
  obtain ⟨sbb, hw⟩ := hwex
  have hsbblen : sbb.length = 256 := Superblock.write_ok_length hw
  obtain ⟨w2, hfin, hout⟩ := finalize_c1 p wa sbb hsolid hkeyw hpos hIBwbl hw
  have h256p : 256 ≤ wa.pos := by
    rw [hpos]
    exact h256
  have hdropI : w2.out.drop wa.pos =
      (encodeBlock p BlockType.Index FILE_ID_SHARED 0 ((wa.index.computeRootHash p).toBytes) CodecId.Zstd DEFAULT_COMPRESSION_LEVEL none).1.writeBytes ++ ((encodeBlock p BlockType.Index FILE_ID_SHARED 0 ((wa.index.computeRootHash p).toBytes) CodecId.Zstd DEFAULT_COMPRESSION_LEVEL none).2 ++ (leBytes 8 (RecoveryMap.toBytes wa.recoveryMap).length ++ RecoveryMap.toBytes wa.recoveryMap)) := by
    rw [hout, drop_overwriteAt_front _ _ _ hsbblen h256p, List.append_assoc,
      hpos, List.drop_left, List.append_assoc]
  have hfu : firstUnknownUuid ({ wa.superblock with indexOffset := wa.pos, indexSize := (encodeBlock p BlockType.Index FILE_ID_SHARED 0 ((wa.index.computeRootHash p).toBytes) CodecId.Zstd DEFAULT_COMPRESSION_LEVEL none).2.length } : Superblock).requiredCodecUuids = none := by
    rw [hreq]
    rcases hru with h | h
    · rw [h]
      rfl
    · rw [h]
      unfold firstUnknownUuid
      rw [if_neg (by
        rw [CodecId.fromUuid_uuid]
        exact fun hx => Option.noConfusion hx)]
      rfl
  have hfile : w2.out = sbb ++
      (((wa.out ++ ((encodeBlock p BlockType.Index FILE_ID_SHARED 0 ((wa.index.computeRootHash p).toBytes) CodecId.Zstd DEFAULT_COMPRESSION_LEVEL none).1.writeBytes ++ (encodeBlock p BlockType.Index FILE_ID_SHARED 0 ((wa.index.computeRootHash p).toBytes) CodecId.Zstd DEFAULT_COMPRESSION_LEVEL none).2)) ++ (leBytes 8 (RecoveryMap.toBytes wa.recoveryMap).length ++ RecoveryMap.toBytes wa.recoveryMap)).drop 256) := by
    rw [hout, overwriteAt_front _ _ hsbblen]
  have hreader := withKey_c1 p w2.out ({ wa.superblock with indexOffset := wa.pos, indexSize := (encodeBlock p BlockType.Index FILE_ID_SHARED 0 ((wa.index.computeRootHash p).toBytes) CodecId.Zstd DEFAULT_COMPRESSION_LEVEL none).2.length } : Superblock) hWFup sbb
    (((wa.out ++ ((encodeBlock p BlockType.Index FILE_ID_SHARED 0 ((wa.index.computeRootHash p).toBytes) CodecId.Zstd DEFAULT_COMPRESSION_LEVEL none).1.writeBytes ++ (encodeBlock p BlockType.Index FILE_ID_SHARED 0 ((wa.index.computeRootHash p).toBytes) CodecId.Zstd DEFAULT_COMPRESSION_LEVEL none).2)) ++ (leBytes 8 (RecoveryMap.toBytes wa.recoveryMap).length ++ RecoveryMap.toBytes wa.recoveryMap)).drop 256) hw hfile
    hfu (wa.index.computeRootHash p) (encodeBlock p BlockType.Index FILE_ID_SHARED 0 ((wa.index.computeRootHash p).toBytes) CodecId.Zstd DEFAULT_COMPRESSION_LEVEL none).1 (encodeBlock p BlockType.Index FILE_ID_SHARED 0 ((wa.index.computeRootHash p).toBytes) CodecId.Zstd DEFAULT_COMPRESSION_LEVEL none).2 (leBytes 8 (RecoveryMap.toBytes wa.recoveryMap).length ++ RecoveryMap.toBytes wa.recoveryMap) hdropI hIBWF hIBplen
    hIBdec
  have hrecsR : (wa.index.computeRootHash p).records = [rec] := hrecs
  have hforallF : List.Forall₂ (C1Ref p w2.out) rec.blockRefs
      (listChunks (max cs 1) data) := by
    rw [hout]
    have h1 : List.Forall₂
        (C1Ref p ((wa.out ++ ((encodeBlock p BlockType.Index FILE_ID_SHARED 0 ((wa.index.computeRootHash p).toBytes) CodecId.Zstd DEFAULT_COMPRESSION_LEVEL none).1.writeBytes ++ (encodeBlock p BlockType.Index FILE_ID_SHARED 0 ((wa.index.computeRootHash p).toBytes) CodecId.Zstd DEFAULT_COMPRESSION_LEVEL none).2)) ++ (leBytes 8 (RecoveryMap.toBytes wa.recoveryMap).length ++ RecoveryMap.toBytes wa.recoveryMap)))
        rec.blockRefs (listChunks (max cs 1) data) :=
      hforall.imp (fun a b h => by
        rw [List.append_assoc]
        exact C1Ref.append _ h)
    exact h1.imp (fun a b h => C1Ref.overwriteFront sbb hsbblen h)
  have hreads : Archive.readFileR p
      { file := w2.out, superblock := ({ wa.superblock with indexOffset := wa.pos, indexSize := (encodeBlock p BlockType.Index FILE_ID_SHARED 0 ((wa.index.computeRootHash p).toBytes) CodecId.Zstd DEFAULT_COMPRESSION_LEVEL none).2.length } : Superblock),
         index := wa.index.computeRootHash p, decryptionKey := none }
      name = .ok data := by
    unfold Archive.readFileR Archive.statR Archive.listR
      SixCyReader.unpackFile
    dsimp only
    rw [hrecsR]
    simp only [List.map_cons, List.map_nil]
    rw [List.find?_cons_of_pos _ (by
      show decide ((FileInfo.ofRecord rec).name = name) = true
      rw [show (FileInfo.ofRecord rec).name = rec.name from rfl, hname]
      simp)]
    dsimp only
    rw [List.find?_cons_of_pos _ (by
      show decide (rec.id = (FileInfo.ofRecord rec).id) = true
      simp [FileInfo.ofRecord])]
    dsimp only
    rw [unpackRefs_ok p w2.out hforallF]
    rw [listChunks_flatten (max cs 1)
      (Nat.lt_of_lt_of_le Nat.zero_lt_one (Nat.le_max_right cs 1)) data]
  rw [hfin]
  dsimp only
  rw [hreader]
  dsimp only
  exact hreads

/-- C1 witness: a concrete two-byte file round-trips through a freshly
written and reopened archive under the identity-codec parameters. -/
theorem c1_witness :
    roundTrip testParams (List.replicate 16 0) [97] [104, 105] 4 3
      CodecId.None = .ok [104, 105] :=
  c1_round_trip testParams (List.replicate 16 0) [97] [104, 105] 4 3
    CodecId.None (by decide) (fun d => rfl) (fun d => rfl) (by decide)
    (by decide) (by decide) (by decide)
